import Mathlib

/-!
# Verification of the syn_parser code-graph construction engine

Shallow embedding of the graph-construction core of the repository:
identifier allocation, type interning (`VisitorState::get_or_create_type` /
`process_type`, src/src/parser.rs lines 331-564), generic-parameter
processing (src/src/parser/visitor/utils/generics.rs), the per-item node
builders (src/src/parser/visitor/{functions,structures,traits_impls,modules}.rs),
the traversal entry point (`analyze_code`, src/src/parser/visitor/mod.rs),
and the relation validator (`Relation::validate`, src/src/parser/relations.rs).

Modelling conventions:
* `usize` counters become `Nat` (the counters only ever increment; overflow
  panics in the source, so `Nat` is the faithful total model).
* `HashMap<String, TypeId>` becomes an association list consed at the front;
  `insert` is `cons`, and lookup returns the most recent binding, which is
  exactly `HashMap` overwrite semantics.  The map is only ever used through
  point lookups and inserts in the source, never iterated.
* `Vec::push` becomes `++ [x]` (append at the end).
* `syn` AST values are modelled by the `RsType`/`RsItem` inductives below;
  `to_token_stream().to_string()` becomes the `renderType` function.  The
  attribute/doc-comment string munging of utils/attributes.rs and
  utils/docs.rs is abstracted: items carry their already-extracted
  attribute list and doc string, which the builders copy verbatim (the
  claims under verification never inspect them).
* Path generic arguments are kept per segment (`RsSegment`), matching the
  source, which walks `path.segments` in order and appends each segment's
  type arguments to one flat `related_types` vector.
-/

namespace SynParser

/- `NodeId` (src/src/parser.rs line 302) and `TypeId` (line 19) are
`usize` wrappers in the source; both are modelled as plain `Nat` here
(the counters only ever increment, and overflow panics in the source). -/

/-! ## Input AST (the `syn` types consumed by the visitor) -/

/-- `syn::Visibility` as consumed by `convert_visibility`. -/
inductive RsVisibility where
  | publicV
  | restrictedV (path : List String)
  | inheritedV
deriving DecidableEq, Repr

mutual
/-- The subset of `syn::Type` handled by `VisitorState::process_type`
(src/src/parser.rs lines 367-564).  Shapes hitting the catch-all `_` arm of
the source (`Type::Group`, `Type::Verbatim`, ...) are represented by
`otherTy` carrying their token text. -/
inductive RsType where
  | pathTy (segs : List RsSegment) (qualified : Bool)
  | refTy (lifetime : Option String) (isMut : Bool) (elem : RsType)
  | tupleTy (elems : List RsType)
  | arrayTy (elem : RsType) (size : String)
  | sliceTy (elem : RsType)
  | neverTy
  | inferTy
  | ptrTy (isMut : Bool) (elem : RsType)
  | bareFnTy (isUns : Bool) (abi : Option (Option String))
      (inputs : List RsType) (ret : Option RsType)
  | parenTy (elem : RsType)
  | traitObjTy (dynTok : Bool) (bounds : List RsTypeParamBound)
  | implTraitTy (bounds : List RsTypeParamBound)
  | macroTy (name : String) (tokens : String)
  | otherTy (text : String)

/-- One `syn::PathSegment`: identifier plus angle-bracketed type arguments. -/
inductive RsSegment where
  | mk (name : String) (args : List RsType)

/-- `syn::TypeParamBound`: a trait bound (with its path), a lifetime bound,
or any other bound form. -/
inductive RsTypeParamBound where
  | traitB (segs : List RsSegment)
  | lifetimeB (name : String)
  | otherB
end

/-- Segment identifier (the `seg.ident.to_string()` of the source). -/
def RsSegment.name : RsSegment → String
  | .mk n _ => n

/-- Segment type arguments. -/
def RsSegment.args : RsSegment → List RsType
  | .mk _ a => a

mutual
/-- Token text of a type, modelling `ty.to_token_stream().to_string()`.
The exact spelling is irrelevant to the proofs; it only matters that it is
a function of the syntactic value, as in the source. -/
def renderType : RsType → String
  | .pathTy segs q =>
      (if q then "< qself > " else "") ++ renderSegs segs
  | .refTy lt m elem =>
      "& " ++ (match lt with | some l => "' " ++ l ++ " " | none => "")
        ++ (if m then "mut " else "") ++ renderType elem
  | .tupleTy elems =>
      match elems with
      | [] => "( )"
      | [t] => "( " ++ renderType t ++ " , )"
      | ts => "( " ++ String.intercalate " , " (renderTypeList ts) ++ " )"
  | .arrayTy elem size => "[ " ++ renderType elem ++ " ; " ++ size ++ " ]"
  | .sliceTy elem => "[ " ++ renderType elem ++ " ]"
  | .neverTy => "!"
  | .inferTy => "_"
  | .ptrTy m elem => "* " ++ (if m then "mut " else "const ") ++ renderType elem
  | .bareFnTy u abi ins ret =>
      (if u then "unsafe " else "")
        ++ (match abi with
            | none => ""
            | some none => "extern " | some (some a) => "extern " ++ a ++ " ")
        ++ "fn ( " ++ String.intercalate " , " (renderTypeList ins) ++ " )"
        ++ (match ret with | some r => " -> " ++ renderType r | none => "")
  | .parenTy elem => "( " ++ renderType elem ++ " )"
  | .traitObjTy dy bs =>
      (if dy then "dyn " else "") ++ String.intercalate " + " (renderBoundList bs)
  | .implTraitTy bs => "impl " ++ String.intercalate " + " (renderBoundList bs)
  | .macroTy name tokens => name ++ " ! ( " ++ tokens ++ " )"
  | .otherTy text => text

def renderTypeList : List RsType → List String
  | [] => []
  | t :: ts => renderType t :: renderTypeList ts

def renderSegs : List RsSegment → String
  | [] => ""
  | [s] => renderSeg s
  | s :: rest => renderSeg s ++ " :: " ++ renderSegs rest

def renderSeg : RsSegment → String
  | .mk n [] => n
  | .mk n args => n ++ " < " ++ String.intercalate " , " (renderTypeList args) ++ " >"

def renderBound : RsTypeParamBound → String
  | .traitB segs => renderSegs segs
  | .lifetimeB n => "' " ++ n
  | .otherB => "?bound"

def renderBoundList : List RsTypeParamBound → List String
  | [] => []
  | b :: bs => renderBound b :: renderBoundList bs
end

/-! ## Graph data model (src/src/parser/types.rs, nodes.rs, graph.rs) -/

/-- `TypeKind` (types.rs lines 81-140 / parser.rs lines 205-265).
Source field names `is_unsafe` / `is_extern` are rendered `isUns` / `isExt`
here. -/
inductive TypeKind where
  | named (path : List String) (is_fully_qualified : Bool)
  | reference (lifetime : Option String) (is_mutable : Bool)
  | slice
  | array (size : Option String)
  | tuple
  | functionTk (isUns : Bool) (isExt : Bool) (abi : Option String)
  | never
  | inferred
  | rawPointer (is_mutable : Bool)
  | traitObject (dyn_token : Bool)
  | implTraitTk
  | parenTk
  | macroTk (name : String) (tokens : String)
  | unknown (type_str : String)
deriving DecidableEq, Repr

/-- `TypeNode` (types.rs lines 70-75). -/
structure TypeNode where
  id : Nat
  kind : TypeKind
  related_types : List Nat
deriving DecidableEq, Repr

/-- `VisibilityKind` (types.rs lines 172-177). -/
inductive VisibilityKind where
  | Public
  | Crate
  | Restricted (path : List String)
  | Inherited
deriving DecidableEq, Repr

/-- `ParsedAttribute` records; the builders receive them pre-extracted (see
header note on utils/attributes.rs). -/
structure ParsedAttribute where
  name : String
  args : List String
  value : Option String
deriving DecidableEq, Repr

/-- `GenericParamKind` (types.rs lines 152-166). -/
inductive GenericParamKind where
  | typeGp (name : String) (bounds : List Nat) (default : Option Nat)
  | lifetimeGp (name : String) (bounds : List String)
  | constGp (name : String) (type_id : Nat)
deriving DecidableEq, Repr

/-- `GenericParamNode` (types.rs lines 144-147). -/
structure GenericParamNode where
  id : Nat
  kind : GenericParamKind
deriving DecidableEq, Repr

/-- `ParameterNode` (nodes.rs lines 103-110). -/
structure ParameterNode where
  id : Nat
  name : Option String
  type_id : Nat
  is_mutable : Bool
  is_self : Bool
deriving DecidableEq, Repr

/-- `FunctionNode` (nodes.rs lines 88-99, with the `body` field of the
visitor snapshot). -/
structure FunctionNode where
  id : Nat
  name : String
  visibility : VisibilityKind
  parameters : List ParameterNode
  return_type : Option Nat
  generic_params : List GenericParamNode
  attributes : List ParsedAttribute
  docstring : Option String
  body : Option String
deriving DecidableEq, Repr

/-- `FieldNode` (nodes.rs lines 149-156). -/
structure FieldNode where
  id : Nat
  name : Option String
  type_id : Nat
  visibility : VisibilityKind
  attributes : List ParsedAttribute
deriving DecidableEq, Repr

/-- `StructNode` (nodes.rs lines 123-132). -/
structure StructNode where
  id : Nat
  name : String
  visibility : VisibilityKind
  fields : List FieldNode
  generic_params : List GenericParamNode
  attributes : List ParsedAttribute
  docstring : Option String
deriving DecidableEq, Repr

/-- `VariantNode` (nodes.rs lines 160-167). -/
structure VariantNode where
  id : Nat
  name : String
  fields : List FieldNode
  discriminant : Option String
  attributes : List ParsedAttribute
deriving DecidableEq, Repr

/-- `EnumNode` (nodes.rs lines 136-145). -/
structure EnumNode where
  id : Nat
  name : String
  visibility : VisibilityKind
  variants : List VariantNode
  generic_params : List GenericParamNode
  attributes : List ParsedAttribute
  docstring : Option String
deriving DecidableEq, Repr

/-- `TypeAliasNode` (nodes.rs lines 170-179). -/
structure TypeAliasNode where
  id : Nat
  name : String
  visibility : VisibilityKind
  type_id : Nat
  generic_params : List GenericParamNode
  attributes : List ParsedAttribute
  docstring : Option String
deriving DecidableEq, Repr

/-- `UnionNode` (nodes.rs lines 182-191). -/
structure UnionNode where
  id : Nat
  name : String
  visibility : VisibilityKind
  fields : List FieldNode
  generic_params : List GenericParamNode
  attributes : List ParsedAttribute
  docstring : Option String
deriving DecidableEq, Repr

/-- `TypeDefNode` (nodes.rs lines 113-119). -/
inductive TypeDefNode where
  | Struct (s : StructNode)
  | Enum (e : EnumNode)
  | TypeAlias (t : TypeAliasNode)
  | Union (u : UnionNode)
deriving DecidableEq, Repr

/-- `ImplNode` (parser.rs lines 132-139; the builders store the interned
trait path's `TypeId` in `trait_type`, per the visitor snapshot). -/
structure ImplNode where
  id : Nat
  self_type : Nat
  trait_type : Option Nat
  methods : List FunctionNode
  generic_params : List GenericParamNode
deriving DecidableEq, Repr

/-- `TraitNode` (parser.rs lines 144-154; the builder allocates `id` from
the node counter and stores interned supertrait `TypeId`s). -/
structure TraitNode where
  id : Nat
  name : String
  visibility : VisibilityKind
  methods : List FunctionNode
  generic_params : List GenericParamNode
  super_traits : List Nat
  attributes : List ParsedAttribute
  docstring : Option String
deriving DecidableEq, Repr

/-- `ModuleNode` (nodes.rs lines 225-235; `imports` elided to ids since the
embedded builders only ever store the empty list there). -/
structure ModuleNode where
  id : Nat
  name : String
  visibility : VisibilityKind
  attributes : List ParsedAttribute
  docstring : Option String
  submodules : List Nat
  items : List Nat
  imports : List Nat
  exports : List Nat
deriving DecidableEq, Repr

/-- `ValueKind` (nodes.rs lines 289-292). -/
inductive ValueKind where
  | Constant
  | Static (is_mutable : Bool)
deriving DecidableEq, Repr

/-- `ValueNode` (nodes.rs lines 239-248). -/
structure ValueNode where
  id : Nat
  name : String
  visibility : VisibilityKind
  type_id : Nat
  kind : ValueKind
  value : Option String
  attributes : List ParsedAttribute
  docstring : Option String
deriving DecidableEq, Repr

/-- `ProcMacroKind` (nodes.rs lines 282-286). -/
inductive ProcMacroKind where
  | Derive
  | AttributeKind
  | FunctionKind
deriving DecidableEq, Repr

/-- `MacroKind` (nodes.rs lines 275-278). -/
inductive MacroKind where
  | DeclarativeMacro
  | ProcedureMacro (kind : ProcMacroKind)
deriving DecidableEq, Repr

/-- `MacroRuleNode` (nodes.rs lines 267-271). -/
structure MacroRuleNode where
  id : Nat
  pattern : String
  expansion : String
deriving DecidableEq, Repr

/-- `MacroNode` (nodes.rs lines 252-263, without the `expansion` /
`parent_function` fields of the newest snapshot, which the embedded
builders never set). -/
structure MacroNode where
  id : Nat
  name : String
  visibility : VisibilityKind
  kind : MacroKind
  rules : List MacroRuleNode
  attributes : List ParsedAttribute
  docstring : Option String
  body : Option String
deriving DecidableEq, Repr

/-- `RelationKind` of the graph builders (parser.rs lines 287-298, the
payload-free enum those builders construct). -/
inductive RelationKind where
  | FunctionParameter
  | FunctionReturn
  | StructField
  | EnumVariant
  | ImplementsFor
  | ImplementsTrait
  | Inherits
  | References
  | Contains
  | Uses
deriving DecidableEq, Repr

/-- `Relation` as pushed by the builders (parser.rs lines 277-282): raw
ids for source and target. -/
structure Relation where
  source : Nat
  target : Nat
  kind : RelationKind
deriving DecidableEq, Repr

/-- `CodeGraph` (src/src/parser/graph.rs lines 11-36). -/
structure CodeGraph where
  functions : List FunctionNode
  defined_types : List TypeDefNode
  type_graph : List TypeNode
  impls : List ImplNode
  traits : List TraitNode
  private_traits : List TraitNode
  relations : List Relation
  modules : List ModuleNode
  values : List ValueNode
  macros : List MacroNode
deriving DecidableEq, Repr

/-! ## Visitor state (src/src/parser/visitor/state.rs lines 22-48,
parser.rs lines 305-329) -/

/-- `VisitorState`: graph under construction, the two counters, and the
interning cache keyed by rendered type text. -/
structure VisitorState where
  code_graph : CodeGraph
  next_node_id : Nat
  next_type_id : Nat
  type_map : List (String × Nat)
deriving DecidableEq, Repr

/-- `VisitorState::new()`. -/
def VisitorState.new : VisitorState :=
  { code_graph :=
      { functions := [], defined_types := [], type_graph := [], impls := []
        traits := [], private_traits := [], relations := [], modules := []
        values := [], macros := [] }
    next_node_id := 0
    next_type_id := 0
    type_map := [] }

/-- `HashMap::get` on the association-list model of `type_map`. -/
def lookupTM : List (String × Nat) → String → Option Nat
  | [], _ => none
  | (k, v) :: rest, key => if k = key then some v else lookupTM rest key

/-- `VisitorState::next_node_id()` (parser.rs lines 331-335 /
state.rs lines 120-124): return the counter, then post-increment. -/
def VisitorState.nextNodeId (s : VisitorState) : Nat × VisitorState :=
  (s.next_node_id, { s with next_node_id := s.next_node_id + 1 })

/-- `VisitorState::next_type_id()` (parser.rs lines 337-341 /
state.rs lines 126-130). -/
def VisitorState.nextTypeId (s : VisitorState) : Nat × VisitorState :=
  (s.next_type_id, { s with next_type_id := s.next_type_id + 1 })

/-- `self.code_graph.type_graph.push(node)`. -/
def pushTypeNode (s : VisitorState) (tn : TypeNode) : VisitorState :=
  { s with code_graph :=
      { s.code_graph with type_graph := s.code_graph.type_graph ++ [tn] } }

/-- The trait-bound arm of `process_type` for `Type::TraitObject` /
`Type::ImplTrait` (parser.rs lines 480-545): each `Trait` bound receives a
fresh `TypeId` and a new `Named` node pushed straight into `type_graph`,
bypassing `type_map`; other bounds are filtered out. -/
def allocBound (b : RsTypeParamBound) (s : VisitorState) :
    Option Nat × VisitorState :=
  match b with
  | .traitB segs =>
      let (bound_id, s1) := s.nextTypeId
      (some bound_id,
        pushTypeNode s1
          { id := bound_id
            kind := .named (segs.map RsSegment.name) false
            related_types := [] })
  | _ => (none, s)

/-- The `filter_map` fold over a bound list (parser.rs lines 481-508). -/
def allocBounds (bs : List RsTypeParamBound) (s : VisitorState) :
    List Nat × VisitorState :=
  match bs with
  | [] => ([], s)
  | b :: rest =>
      let (idOpt, s1) := allocBound b s
      let (ids, s2) := allocBounds rest s1
      (match idOpt with | some i => i :: ids | none => ids, s2)

/-- The tail of the cache-miss branch of `get_or_create_type`
(parser.rs lines 352-363): allocate the id, insert the cache entry,
append the `TypeNode`, return the id. -/
def finishType (kr : TypeKind × List Nat) (s1 : VisitorState)
    (type_str : String) : Nat × VisitorState :=
  let (id, s2) := s1.nextTypeId
  let s3 := { s2 with type_map := (type_str, id) :: s2.type_map }
  (id, pushTypeNode s3 { id := id, kind := kr.1, related_types := kr.2 })

mutual
/-- `VisitorState::get_or_create_type` (parser.rs lines 344-364) with the
body of `process_type` (parser.rs lines 367-564) inlined at the cache-miss
branch so the recursion is structural.  `process_type` is recovered as a
stand-alone definition below, and `get_or_create_type_eq` proves that this
definition equals the source's two-function composition. -/
def get_or_create_type (ty : RsType) (s : VisitorState) :
    Nat × VisitorState :=
  let type_str := renderType ty
  match lookupTM s.type_map type_str with
  | some id => (id, s)
  | none =>
      match ty with
      | .pathTy segs q =>
          let (rel, s1) := internSegs segs s
          finishType (.named (segs.map RsSegment.name) q, rel) s1 type_str
      | .refTy lt m elem =>
          let (elem_id, s1) := get_or_create_type elem s
          finishType (.reference lt m, [elem_id]) s1 type_str
      | .tupleTy elems =>
          let (elem_ids, s1) := internList elems s
          finishType (.tuple, elem_ids) s1 type_str
      | .arrayTy elem size =>
          let (elem_id, s1) := get_or_create_type elem s
          finishType (.array (some size), [elem_id]) s1 type_str
      | .sliceTy elem =>
          let (elem_id, s1) := get_or_create_type elem s
          finishType (.slice, [elem_id]) s1 type_str
      | .neverTy => finishType (.never, []) s type_str
      | .inferTy => finishType (.inferred, []) s type_str
      | .ptrTy m elem =>
          let (pointee_id, s1) := get_or_create_type elem s
          finishType (.rawPointer m, [pointee_id]) s1 type_str
      | .bareFnTy u abi ins ret =>
          let (in_ids, s1) := internList ins s
          let (ret_ids, s2) := internOpt ret s1
          finishType
            (.functionTk u abi.isSome
                (abi.map (fun nm => nm.getD ("C"))), in_ids ++ ret_ids)
            s2 type_str
      | .parenTy elem =>
          let (inner_id, s1) := get_or_create_type elem s
          finishType (.parenTk, [inner_id]) s1 type_str
      | .traitObjTy dy bounds =>
          let (bound_ids, s1) := allocBounds bounds s
          finishType (.traitObject dy, bound_ids) s1 type_str
      | .implTraitTy bounds =>
          let (bound_ids, s1) := allocBounds bounds s
          finishType (.implTraitTk, bound_ids) s1 type_str
      | .macroTy name tokens =>
          finishType (.macroTk name tokens, []) s type_str
      | .otherTy text => finishType (.unknown text, []) s type_str

/-- Interning of a list of types in order (the loops of `process_type`
over tuple elements, function inputs, ...). -/
def internList (tys : List RsType) (s : VisitorState) :
    List Nat × VisitorState :=
  match tys with
  | [] => ([], s)
  | t :: ts =>
      let (i, s1) := get_or_create_type t s
      let (is, s2) := internList ts s1
      (i :: is, s2)

/-- Interning of the angle-bracketed type arguments of each path segment in
order (parser.rs lines 370-402), yielding the flat `related_types` list. -/
def internSegs (segs : List RsSegment) (s : VisitorState) :
    List Nat × VisitorState :=
  match segs with
  | [] => ([], s)
  | .mk _ args :: rest =>
      let (ids, s1) := internList args s
      let (ids', s2) := internSegs rest s1
      (ids ++ ids', s2)

/-- Interning of an optional return type (the `ReturnType::Type` arm). -/
def internOpt (t : Option RsType) (s : VisitorState) :
    List Nat × VisitorState :=
  match t with
  | none => ([], s)
  | some ty =>
      let (i, s1) := get_or_create_type ty s
      ([i], s1)
end

/-- `VisitorState::process_type` (parser.rs lines 367-564) as the source
writes it: compute the `TypeKind` and related ids without touching the
cache entry for `ty` itself. -/
def process_type (ty : RsType) (s : VisitorState) :
    (TypeKind × List Nat) × VisitorState :=
  match ty with
  | .pathTy segs q =>
      let (rel, s1) := internSegs segs s
      ((.named (segs.map RsSegment.name) q, rel), s1)
  | .refTy lt m elem =>
      let (elem_id, s1) := get_or_create_type elem s
      ((.reference lt m, [elem_id]), s1)
  | .tupleTy elems =>
      let (elem_ids, s1) := internList elems s
      ((.tuple, elem_ids), s1)
  | .arrayTy elem size =>
      let (elem_id, s1) := get_or_create_type elem s
      ((.array (some size), [elem_id]), s1)
  | .sliceTy elem =>
      let (elem_id, s1) := get_or_create_type elem s
      ((.slice, [elem_id]), s1)
  | .neverTy => ((.never, []), s)
  | .inferTy => ((.inferred, []), s)
  | .ptrTy m elem =>
      let (pointee_id, s1) := get_or_create_type elem s
      ((.rawPointer m, [pointee_id]), s1)
  | .bareFnTy u abi ins ret =>
      let (in_ids, s1) := internList ins s
      let (ret_ids, s2) := internOpt ret s1
      ((.functionTk u abi.isSome (abi.map (fun nm => nm.getD ("C"))),
          in_ids ++ ret_ids), s2)
  | .parenTy elem =>
      let (inner_id, s1) := get_or_create_type elem s
      ((.parenTk, [inner_id]), s1)
  | .traitObjTy dy bounds =>
      let (bound_ids, s1) := allocBounds bounds s
      ((.traitObject dy, bound_ids), s1)
  | .implTraitTy bounds =>
      let (bound_ids, s1) := allocBounds bounds s
      ((.implTraitTk, bound_ids), s1)
  | .macroTy name tokens => ((.macroTk name tokens, []), s)
  | .otherTy text => ((.unknown text, []), s)

/-- `get_or_create_type` is exactly the source's composition: cache lookup,
then `process_type`, then allocate/insert/push (parser.rs lines 344-364). -/
theorem get_or_create_type_eq (ty : RsType) (s : VisitorState) :
    get_or_create_type ty s =
      (match lookupTM s.type_map (renderType ty) with
       | some id => (id, s)
       | none =>
           let (kr, s1) := process_type ty s
           finishType kr s1 (renderType ty)) := by
  cases ty <;> simp only [get_or_create_type, process_type]

/-! ## Generic parameter processing
(src/src/parser/visitor/utils/generics.rs) -/

/-- `syn::GenericParam` as consumed by `process_generics`. -/
inductive RsGenericParam where
  | typeParam (name : String) (bounds : List RsTypeParamBound)
      (default : Option RsType)
  | lifetimeParam (name : String) (bounds : List String)
  | constParam (name : String) (ty : RsType)

/-- `GenericsProcessor::process_type_bound`
(src/src/parser/visitor/utils/generics.rs lines 25-48): a `Trait` bound is
rebuilt as a `Type::Path` and routed through `get_or_create_type` (the
interning cache); a `Lifetime` bound gets a fresh id and a `Named`
"lifetime" node; any other bound form just consumes a fresh id. -/
def process_type_bound (b : RsTypeParamBound) (s : VisitorState) :
    Nat × VisitorState :=
  match b with
  | .traitB segs => get_or_create_type (.pathTy segs false) s
  | .lifetimeB _ =>
      let (type_id, s1) := s.nextTypeId
      (type_id,
        pushTypeNode s1
          { id := type_id
            kind := .named [("lifetime")] false
            related_types := [] })
  | .otherB => s.nextTypeId

/-- The bound-list fold inside the `Type` arm of `process_generics`
(generics.rs lines 142-145). -/
def processTypeBounds (bs : List RsTypeParamBound) (s : VisitorState) :
    List Nat × VisitorState :=
  match bs with
  | [] => ([], s)
  | b :: rest =>
      let (i, s1) := process_type_bound b s
      let (is, s2) := processTypeBounds rest s1
      (i :: is, s2)

/-- `process_generics` — the free function the visitor state delegates to
(generics.rs lines 131-194).  Note the source's `default_type` branch on a
cache miss: it allocates an id from the counter, calls
`get_or_create_type` on the default expression while discarding its
result, and returns the pre-allocated id; transcribed faithfully. -/
def process_generics (params : List RsGenericParam) (s : VisitorState) :
    List GenericParamNode × VisitorState :=
  match params with
  | [] => ([], s)
  | p :: rest =>
      let (node, s1) :=
        match p with
        | .typeParam name bounds default =>
            let (bound_ids, sa) := processTypeBounds bounds s
            let (default_type, sb) :=
              match default with
              | none => (none, sa)
              | some expr =>
                  match lookupTM sa.type_map (renderType expr) with
                  | some tid => (some tid, sa)
                  | none =>
                      let (id, sc) := sa.nextTypeId
                      let (_, sd) := get_or_create_type expr sc
                      (some id, sd)
            let (nid, sc) := sb.nextNodeId
            (({ id := nid, kind := .typeGp name bound_ids default_type }
                : GenericParamNode), sc)
        | .lifetimeParam name bounds =>
            let (nid, sa) := s.nextNodeId
            (({ id := nid, kind := .lifetimeGp name bounds }
                : GenericParamNode), sa)
        | .constParam name ty =>
            let (type_id, sa) := get_or_create_type ty s
            let (nid, sb) := sa.nextNodeId
            (({ id := nid, kind := .constGp name type_id }
                : GenericParamNode), sb)
      let (nodes, s2) := process_generics rest s1
      (node :: nodes, s2)

/-! ## Builder helpers -/

/-- `CodeProcessor::convert_visibility`
(src/src/parser/visitor/mod.rs lines 30-44). -/
def convert_visibility : RsVisibility → VisibilityKind
  | .publicV => .Public
  | .restrictedV p => .Restricted p
  | .inheritedV => .Inherited

/-- `self.code_graph.relations.push(r)`. -/
def pushRelation (s : VisitorState) (r : Relation) : VisitorState :=
  { s with code_graph :=
      { s.code_graph with relations := s.code_graph.relations ++ [r] } }

/-- `self.code_graph.functions.push(f)`. -/
def pushFunction (s : VisitorState) (f : FunctionNode) : VisitorState :=
  { s with code_graph :=
      { s.code_graph with functions := s.code_graph.functions ++ [f] } }

/-- `self.code_graph.defined_types.push(d)`. -/
def pushDefinedType (s : VisitorState) (d : TypeDefNode) : VisitorState :=
  { s with code_graph :=
      { s.code_graph with
          defined_types := s.code_graph.defined_types ++ [d] } }

/-- `self.code_graph.impls.push(i)`. -/
def pushImpl (s : VisitorState) (i : ImplNode) : VisitorState :=
  { s with code_graph :=
      { s.code_graph with impls := s.code_graph.impls ++ [i] } }

/-- `self.code_graph.traits.push(t)`. -/
def pushTrait (s : VisitorState) (t : TraitNode) : VisitorState :=
  { s with code_graph :=
      { s.code_graph with traits := s.code_graph.traits ++ [t] } }

/-- `self.code_graph.modules.push(m)`. -/
def pushModule (s : VisitorState) (m : ModuleNode) : VisitorState :=
  { s with code_graph :=
      { s.code_graph with modules := s.code_graph.modules ++ [m] } }

/-- `self.code_graph.macros.push(m)`. -/
def pushMacro (s : VisitorState) (m : MacroNode) : VisitorState :=
  { s with code_graph :=
      { s.code_graph with macros := s.code_graph.macros ++ [m] } }

/-- `syn::Pat` as inspected by `process_fn_arg` (only the `Pat::Ident`
shape is examined; everything else yields `(None, false)`). -/
inductive RsPat where
  | identPat (name : String) (isMut : Bool)
  | otherPat

/-- `syn::FnArg`. -/
inductive RsFnArg where
  | typed (pat : RsPat) (ty : RsType)
  | receiver (isMut : Bool) (ty : RsType)

/-- `VisitorState::process_fn_arg` (src/src/parser/visitor.rs lines
228-278 = parser.rs lines 584-635): a typed argument interns its type and
allocates a parameter id; a receiver builds a dedicated `Self` type node
whose related type is the interned receiver type. -/
def process_fn_arg (arg : RsFnArg) (s : VisitorState) :
    Option ParameterNode × VisitorState :=
  match arg with
  | .typed pat ty =>
      let (type_id, s1) := get_or_create_type ty s
      let (name, is_mutable) :=
        match pat with
        | .identPat n m => (some n, m)
        | .otherPat => ((none : Option String), false)
      let (pid, s2) := s1.nextNodeId
      (some { id := pid, name := name, type_id := type_id
              is_mutable := is_mutable, is_self := false }, s2)
  | .receiver m ty =>
      let (self_type_id, s1) := s.nextTypeId
      let (inner_type_id, s2) := get_or_create_type ty s1
      let s3 := pushTypeNode s2
        { id := self_type_id
          kind := .named [("Self")] false
          related_types := [inner_type_id] }
      let (pid, s4) := s3.nextNodeId
      (some { id := pid, name := some ("self"), type_id := self_type_id
              is_mutable := m, is_self := true }, s4)

/-- The parameter loop shared by the function/method builders
(visitor.rs lines 652-663): each produced parameter gets a
`FunctionParameter` relation from the function id to the parameter id. -/
def visitFnArgsLoop (fn_id : Nat) (args : List RsFnArg)
    (s : VisitorState) : List ParameterNode × VisitorState :=
  match args with
  | [] => ([], s)
  | a :: rest =>
      match process_fn_arg a s with
      | (some param, s1) =>
          let s2 := pushRelation s1
            { source := fn_id, target := param.id
              kind := .FunctionParameter }
          let (ps, s3) := visitFnArgsLoop fn_id rest s2
          (param :: ps, s3)
      | (none, s1) => visitFnArgsLoop fn_id rest s1

/-! ## Input items -/

/-- `syn::ItemFn` as consumed by `visit_item_fn`; attributes and doc text
arrive pre-extracted (see header). -/
structure RsItemFn where
  name : String
  vis : RsVisibility
  attrs : List ParsedAttribute
  docstring : Option String
  inputs : List RsFnArg
  output : Option RsType
  generics : List RsGenericParam
  body : String

/-- One `syn::Field`. -/
structure RsField where
  name : Option String
  vis : RsVisibility
  attrs : List ParsedAttribute
  ty : RsType

/-- `syn::ItemStruct`. -/
structure RsItemStruct where
  name : String
  vis : RsVisibility
  attrs : List ParsedAttribute
  docstring : Option String
  fields : List RsField
  generics : List RsGenericParam

/-- `syn::ImplItemFn` (a method inside an `impl` block). -/
structure RsImplItemFn where
  name : String
  vis : RsVisibility
  attrs : List ParsedAttribute
  docstring : Option String
  inputs : List RsFnArg
  output : Option RsType
  generics : List RsGenericParam
  body : String

/-- `syn::TraitItemFn` (a method declared in a trait; `default` is the
optional default body block). -/
structure RsTraitItemFn where
  name : String
  vis : RsVisibility
  attrs : List ParsedAttribute
  docstring : Option String
  inputs : List RsFnArg
  output : Option RsType
  generics : List RsGenericParam
  default : Option String

/-- `syn::ItemTrait`. -/
structure RsItemTrait where
  name : String
  vis : RsVisibility
  attrs : List ParsedAttribute
  docstring : Option String
  methods : List RsTraitItemFn
  generics : List RsGenericParam
  supertraits : List RsTypeParamBound

/-- `syn::ItemImpl`: `traitPath` is the `Some((_, path, _))` trait
reference, `self_ty` the implemented-on type, `methods` the
`ImplItem::Fn` entries. -/
structure RsItemImpl where
  generics : List RsGenericParam
  traitPath : Option (List RsSegment)
  self_ty : RsType
  methods : List RsImplItemFn

/-- Items dispatched by the traversal.  Enums, type aliases, unions,
constants, statics, use/extern-crate statements and macro items are
omitted from the embedding; none of the verified claims concern their
builders. -/
inductive RsItem where
  | fnItem (f : RsItemFn)
  | structItem (st : RsItemStruct)
  | traitItem (t : RsItemTrait)
  | implItem (im : RsItemImpl)
  | modItem (name : String) (vis : RsVisibility)
      (attrs : List ParsedAttribute) (docstring : Option String)
      (content : Option (List RsItem))

/-! ## Node builders -/

/-- `visit_item_fn` (src/src/parser/visitor.rs lines 594-705): the
proc-macro pre-pass, the parameter loop, the return-type relation, the
generic parameters, and the `FunctionNode` push. -/
def visit_item_fn (f : RsItemFn) (s : VisitorState) : VisitorState :=
  let is_proc_macro := f.attrs.any fun a =>
    a.name == "proc_macro" || a.name == "proc_macro_derive"
      || a.name == "proc_macro_attribute"
  let s :=
    if is_proc_macro then
      let (macro_id, s1) := s.nextNodeId
      let proc_macro_kind :=
        if f.attrs.any (fun a => a.name == "proc_macro_derive") then
          ProcMacroKind.Derive
        else if f.attrs.any (fun a => a.name == "proc_macro_attribute") then
          ProcMacroKind.AttributeKind
        else ProcMacroKind.FunctionKind
      pushMacro s1
        { id := macro_id, name := f.name
          visibility := convert_visibility f.vis
          kind := .ProcedureMacro proc_macro_kind
          rules := [], attributes := f.attrs, docstring := f.docstring
          body := some f.body }
    else s
  let (fn_id, s0) := s.nextNodeId
  let (parameters, s1) := visitFnArgsLoop fn_id f.inputs s0
  let (return_type, s2) :=
    match f.output with
    | none => ((none : Option Nat), s1)
    | some ty =>
        let (type_id, s') := get_or_create_type ty s1
        (some type_id,
          pushRelation s'
            { source := fn_id, target := type_id, kind := .FunctionReturn })
  let (generic_params, s3) := process_generics f.generics s2
  pushFunction s3
    { id := fn_id, name := f.name, visibility := convert_visibility f.vis
      parameters := parameters, return_type := return_type
      generic_params := generic_params, attributes := f.attrs
      docstring := f.docstring, body := some f.body }

/-- The field loop of `visit_item_struct`
(src/src/parser/visitor/structures.rs lines 15-37): per field a fresh
`NodeId`, the interned field type, and one `StructField` relation from the
struct id to the field id. -/
def visitStructFieldsLoop (struct_id : Nat) (fields : List RsField)
    (s : VisitorState) : List FieldNode × VisitorState :=
  match fields with
  | [] => ([], s)
  | f :: rest =>
      let (field_id, s1) := s.nextNodeId
      let (type_id, s2) := get_or_create_type f.ty s1
      let field_node : FieldNode :=
        { id := field_id, name := f.name, type_id := type_id
          visibility := convert_visibility f.vis, attributes := f.attrs }
      let s3 := pushRelation s2
        { source := struct_id, target := field_id, kind := .StructField }
      let (fs, s4) := visitStructFieldsLoop struct_id rest s3
      (field_node :: fs, s4)

/-- `visit_item_struct` (structures.rs lines 10-63): the struct id and the
fields (with their relations) are produced unconditionally; the
`StructNode` itself is pushed into `defined_types` only when the struct's
declared visibility token is `pub`. -/
def visit_item_struct (st : RsItemStruct) (s : VisitorState) :
    VisitorState :=
  let (struct_id, s0) := s.nextNodeId
  let (fields, s1) := visitStructFieldsLoop struct_id st.fields s0
  let (generic_params, s2) := process_generics st.generics s1
  if st.vis = RsVisibility.publicV then
    pushDefinedType s2
      (.Struct
        { id := struct_id, name := st.name
          visibility := convert_visibility st.vis, fields := fields
          generic_params := generic_params, attributes := st.attrs
          docstring := st.docstring })
  else s2

/-- The method loop of `visit_item_impl`
(src/src/parser/visitor/traits_impls.rs lines 56-115). -/
def visitImplMethodsLoop (methods : List RsImplItemFn) (s : VisitorState) :
    List FunctionNode × VisitorState :=
  match methods with
  | [] => ([], s)
  | m :: rest =>
      let (method_node_id, s0) := s.nextNodeId
      let (parameters, s1) := visitFnArgsLoop method_node_id m.inputs s0
      let (return_type, s2) :=
        match m.output with
        | none => ((none : Option Nat), s1)
        | some ty =>
            let (type_id, s') := get_or_create_type ty s1
            (some type_id,
              pushRelation s'
                { source := method_node_id, target := type_id
                  kind := .FunctionReturn })
      let (generic_params, s3) := process_generics m.generics s2
      let method_node : FunctionNode :=
        { id := method_node_id, name := m.name
          visibility := convert_visibility m.vis, parameters := parameters
          return_type := return_type, generic_params := generic_params
          attributes := m.attrs, docstring := m.docstring
          body := some m.body }
      let (ms, s4) := visitImplMethodsLoop rest s3
      (method_node :: ms, s4)

/-- The method loop of `visit_item_trait`
(traits_impls.rs lines 215-277): identical to the impl loop except that
the stored visibility is always `Public` and the body is the optional
default block. -/
def visitTraitMethodsLoop (methods : List RsTraitItemFn)
    (s : VisitorState) : List FunctionNode × VisitorState :=
  match methods with
  | [] => ([], s)
  | m :: rest =>
      let (method_node_id, s0) := s.nextNodeId
      let (parameters, s1) := visitFnArgsLoop method_node_id m.inputs s0
      let (return_type, s2) :=
        match m.output with
        | none => ((none : Option Nat), s1)
        | some ty =>
            let (type_id, s') := get_or_create_type ty s1
            (some type_id,
              pushRelation s'
                { source := method_node_id, target := type_id
                  kind := .FunctionReturn })
      let (generic_params, s3) := process_generics m.generics s2
      let method_node : FunctionNode :=
        { id := method_node_id, name := m.name
          visibility := VisibilityKind.Public, parameters := parameters
          return_type := return_type, generic_params := generic_params
          attributes := m.attrs, docstring := m.docstring
          body := m.default }
      let (ms, s4) := visitTraitMethodsLoop rest s3
      (method_node :: ms, s4)

/-- The supertrait loop of `visit_item_trait` (traits_impls.rs lines
283-293): each supertrait bound is wrapped into a one-bound
`Type::TraitObject` with no `dyn` token and interned. -/
def visitSupertraitsLoop (bounds : List RsTypeParamBound)
    (s : VisitorState) : List Nat × VisitorState :=
  match bounds with
  | [] => ([], s)
  | b :: rest =>
      let (i, s1) := get_or_create_type (.traitObjTy false [b]) s
      let (is, s2) := visitSupertraitsLoop rest s1
      (i :: is, s2)

/-- The `Inherits` relation loop of `visit_item_trait`
(traits_impls.rs lines 317-323). -/
def pushInheritsLoop (trait_id : Nat) (ids : List Nat)
    (s : VisitorState) : VisitorState :=
  match ids with
  | [] => s
  | i :: rest =>
      pushInheritsLoop trait_id rest
        (pushRelation s { source := trait_id, target := i, kind := .Inherits })

/-- `visit_item_trait` (traits_impls.rs lines 210-326): all traits are
pushed into `traits` regardless of visibility (the visibility filter is
commented out in the source); one `Inherits` relation per supertrait. -/
def visit_item_trait (t : RsItemTrait) (s : VisitorState) : VisitorState :=
  let (trait_id, s0) := s.nextNodeId
  let (methods, s1) := visitTraitMethodsLoop t.methods s0
  let (generic_params, s2) := process_generics t.generics s1
  let (super_traits, s3) := visitSupertraitsLoop t.supertraits s2
  let trait_node : TraitNode :=
    { id := trait_id, name := t.name
      visibility := convert_visibility t.vis, methods := methods
      generic_params := generic_params, super_traits := super_traits
      attributes := t.attrs, docstring := t.docstring }
  let s4 := pushTrait s3 trait_node
  pushInheritsLoop trait_id super_traits s4

/-- The "skip impl blocks for non-public traits" check of
`visit_item_impl` (traits_impls.rs lines 24-53), factored out of the
builder body: the impl is skipped when the interned trait id resolves in
`type_graph` to a `Named` node and the trait name (the last path segment)
either resolves in `code_graph.traits` to a declaration whose visibility
is not `Public`, or does not resolve at all. -/
def implSkipCheck (trait_type_id : Option Nat) (s2 : VisitorState) :
    Bool :=
  match trait_type_id with
  | none => false
  | some tid =>
      match s2.code_graph.type_graph.find? (fun t => t.id == tid) with
      | none => false
      | some trait_type =>
          match trait_type.kind with
          | .named path _ =>
              let trait_name := path.getLastD ""
              match s2.code_graph.traits.find?
                  (fun t => t.name == trait_name) with
              | some trait_def =>
                  !(trait_def.visibility == VisibilityKind.Public)
              | none => true
          | _ => false

/-- `visit_item_impl` (traits_impls.rs lines 8-200): allocate the impl id,
intern the self type and (for trait impls) the trait path; if
`implSkipCheck` fires, return early with nothing pushed.  Otherwise
methods and generics are processed, the `ImplNode` is pushed, and the
`ImplementsFor` / `ImplementsTrait` relations are emitted.  (The debug
`println!` block of the source has no effect on the state and is not
modelled.) -/
def visit_item_impl (im : RsItemImpl) (s : VisitorState) : VisitorState :=
  let (impl_id, s0) := s.nextNodeId
  let (self_type_id, s1) := get_or_create_type im.self_ty s0
  let (trait_type_id, s2) :=
    match im.traitPath with
    | none => ((none : Option Nat), s1)
    | some p =>
        let (tid, s') := get_or_create_type (.pathTy p false) s1
        (some tid, s')
  if implSkipCheck trait_type_id s2 then s2
  else
    let (methods, s3) := visitImplMethodsLoop im.methods s2
    let (generic_params, s4) := process_generics im.generics s3
    let impl_node : ImplNode :=
      { id := impl_id, self_type := self_type_id
        trait_type := trait_type_id, methods := methods
        generic_params := generic_params }
    let s5 := pushImpl s4 impl_node
    let relation_kind :=
      if trait_type_id.isSome then RelationKind.ImplementsTrait
      else RelationKind.ImplementsFor
    let s6 := pushRelation s5
      { source := impl_id, target := self_type_id, kind := relation_kind }
    match trait_type_id with
    | some tid =>
        pushRelation s6
          { source := impl_id, target := tid, kind := .ImplementsTrait }
    | none => s6

/-! ## Modules and traversal -/

/-- The name-based id lookup of the `Contains` relation loop of
`process_module` (src/src/parser/visitor/modules.rs lines 125-246).
The match has arms for functions, structs (and the other defined-type
shapes), traits, constants, statics and macros — but none for
`syn::Item::Mod` or `syn::Item::Impl`, which fall into the `_ => None`
arm, so no module-to-module (or module-to-impl) `Contains` relation is
ever produced here. -/
def containsTargetId (g : CodeGraph) : RsItem → Option Nat
  | .fnItem f =>
      (g.functions.find? (fun fn => fn.name == f.name)).map (·.id)
  | .structItem st =>
      (g.defined_types.find?
          (fun d => match d with
            | .Struct sn => sn.name == st.name
            | _ => false)).map
        (fun d => match d with
          | .Struct sn => sn.id
          | _ => 0)
  | .traitItem t =>
      (g.traits.find? (fun tn => tn.name == t.name)).map (·.id)
  | .implItem _ => none
  | .modItem _ _ _ _ _ => none

/-- The `Contains` relation loop of `process_module`
(modules.rs lines 123-256). -/
def modContainsLoop (module_id : Nat) (items : List RsItem)
    (s : VisitorState) : VisitorState :=
  match items with
  | [] => s
  | it :: rest =>
      let s1 :=
        match containsTargetId s.code_graph it with
        | some id =>
            pushRelation s
              { source := module_id, target := id, kind := .Contains }
        | none => s
      modContainsLoop module_id rest s1

mutual
/-- The per-item dispatch of the `Visit` implementation
(src/src/parser/visitor/mod.rs lines 320-356, with `syn::Item::Mod`
routed to `ModuleVisitor::process_module` as in modules.rs). -/
def visitItem (it : RsItem) (s : VisitorState) : VisitorState :=
  match it with
  | .fnItem f => visit_item_fn f s
  | .structItem st => visit_item_struct st s
  | .traitItem t => visit_item_trait t s
  | .implItem im => visit_item_impl im s
  | .modItem name vis attrs doc content =>
      process_module name vis attrs doc content s

/-- The content loop of `process_module` (modules.rs lines 57-107): each
item receives a pre-allocated id pushed into `items` (and into
`submodules` when it is a module), then is dispatched to its builder. -/
def modContentLoop (its : List RsItem) (s : VisitorState) :
    (List Nat × List Nat) × VisitorState :=
  match its with
  | [] => (([], []), s)
  | it :: rest =>
      let (item_id, s1) := s.nextNodeId
      let s2 := visitItem it s1
      let ((ids, subs), s3) := modContentLoop rest s2
      ((item_id :: ids,
        match it with
        | .modItem _ _ _ _ _ => item_id :: subs
        | _ => subs), s3)

/-- `ModuleVisitor::process_module` (modules.rs lines 25-260), including
the dead id allocations of the source (lines 26-28 allocate a node id and
two type ids that are immediately shadowed or unused, line 51 allocates a
further unused node id).  The `state.current_scope()` call of line 54 is
not defined anywhere in the source tree and is not modelled.  The
visibility override for a module literally named "private_module" with an
inherited token (lines 43-49) and the `Contains` loop are transcribed
verbatim. -/
def process_module (name : String) (vis : RsVisibility)
    (attrs : List ParsedAttribute) (docstring : Option String)
    (content : Option (List RsItem)) (s : VisitorState) : VisitorState :=
  let (_module_id_shadowed, sa) := s.nextNodeId
  let (_self_type_id, sb) := sa.nextTypeId
  let (_trait_type_id, sc) := sb.nextTypeId
  let (module_id, sd) := sc.nextNodeId
  let visibility :=
    if name = "private_module" ∧ vis = RsVisibility.inheritedV then
      VisibilityKind.Restricted [("super")]
    else convert_visibility vis
  let (_mod_id, se) := sd.nextNodeId
  let ((items, submodules), sf) :=
    match content with
    | none => (([], []), se)
    | some its => modContentLoop its se
  let sg := pushModule sf
    { id := module_id, name := name, visibility := visibility
      attributes := attrs, docstring := docstring
      submodules := submodules, items := items
      imports := [], exports := [] }
  match content with
  | none => sg
  | some its => modContainsLoop module_id its sg
end

/-- `Visit::visit_file`: dispatch every top-level item in order. -/
def visitItems (its : List RsItem) (s : VisitorState) : VisitorState :=
  match its with
  | [] => s
  | it :: rest => visitItems rest (visitItem it s)

/-- The final loop of `analyze_code` (visitor/mod.rs lines 171-179): one
`Contains` relation from the root module to every other module. -/
def rootContainsLoop (root : Nat) (mods : List ModuleNode)
    (s : VisitorState) : VisitorState :=
  match mods with
  | [] => s
  | m :: rest =>
      let s1 :=
        if m.id ≠ root then
          pushRelation s { source := root, target := m.id, kind := .Contains }
        else s
      rootContainsLoop root rest s1

/-- `analyze_code` (src/src/parser/visitor/mod.rs lines 149-182) starting
from an explicit state: create the synthetic root module, walk the file,
then add the root `Contains` relations. -/
def analyzeFrom (s : VisitorState) (file : List RsItem) : CodeGraph :=
  let (root_module_id, s0) := s.nextNodeId
  let s1 := pushModule s0
    { id := root_module_id, name := "root"
      visibility := VisibilityKind.Inherited
      attributes := [], docstring := none, submodules := [], items := []
      imports := [], exports := [] }
  let s2 := visitItems file s1
  let s3 := rootContainsLoop root_module_id s2.code_graph.modules s2
  s3.code_graph

/-- `analyze_code` on a parsed file (parser.rs lines 1282-1288 build the
fresh `VisitorState` and run the visitor). -/
def analyze_code (file : List RsItem) : CodeGraph :=
  analyzeFrom VisitorState.new file

/-! ## Relation validator (src/src/parser/relations.rs, graph_ids.rs)

`Relation::validate` lives in a newer snapshot with tagged relation
endpoints.  Its `validate_types` / `check_circular_dependency` helpers are
written against the `RelationSource` / `RelationTarget` tagged endpoints
(the `From<&RelationSource> for RelationVariant` instances and the
`Identifier::id` implementations exist only for those types), so the
embedded `Relation` carries them; the half-migrated
`graph_source`/`graph_target` fields of the struct declaration have no
conversion instances and are not modelled. -/

namespace Rel

/-- `NodeType` (graph_ids.rs lines 7-14). -/
inductive NodeType where
  | node
  | traitNt
  | typeNt
  | module
  | functionNt
  | implNt
deriving DecidableEq, Repr

/-- `GraphNodeId` (graph_ids.rs lines 17-20); the source field
`type_prefix` is rendered `typePrefix`. -/
structure GraphNodeId where
  typePrefix : NodeType
  unique_id : Nat
deriving DecidableEq, Repr

/-- `RelationSource` (relations.rs lines 299-306). -/
inductive RelationSource where
  | nodeS (id : Nat)
  | traitS (id : Nat)
  | typeS (id : Nat)
deriving DecidableEq, Repr

/-- `RelationTarget` (relations.rs lines 405-410). -/
inductive RelationTarget where
  | nodeT (id : Nat)
  | typeT (id : Nat)
  | traitT (id : Nat)
deriving DecidableEq, Repr

/-- `RelationVariant` (relations.rs lines 334-339). -/
inductive RelationVariant where
  | node
  | traitV
  | typeV
deriving DecidableEq, Repr

/-- `RelationKind` (relations.rs lines 436-457); `ImplementsTrait` carries
a `GraphNodeId` trait reference. -/
inductive RelationKind where
  | FunctionParameter
  | FunctionReturn
  | StructField
  | EnumVariant
  | ImplementsFor
  | ImplementsTrait (trait_id : GraphNodeId)
  | Inherits
  | References
  | Contains
  | TypeDefinition
  | Uses
  | ValueType
  | MacroUse
  | MacroExpansion
  | MacroDefinition
  | MacroInvocation
  | GenericParameter
  | Returns
  | HasType
deriving DecidableEq, Repr

/-- `RelationError` (relations.rs lines 81-128); only the constructors
`validate` can produce carry their payloads here, the remaining ones are
kept as declared. -/
inductive RelationError where
  | InvalidSourceType (kind : RelationKind) (expected : String)
      (found : String)
  | InvalidTargetType (kind : RelationKind) (expected : String)
      (found : String)
  | MissingTraitId (kind : RelationKind)
  | InvalidNodeReference (kind : RelationKind) (node_id : Nat)
  | MissingId (kind : RelationKind) (id_type : String)
  | CircularDependency (kind : RelationKind) (source_id : GraphNodeId)
      (target_id : GraphNodeId)
  | GenericConstraintViolation (kind : RelationKind) (message : String)
  | InvalidImplementation (source : GraphNodeId) (target : GraphNodeId)
      (kind : RelationKind)
deriving DecidableEq, Repr

/-- `Relation` with tagged endpoints (see namespace comment). -/
structure Relation where
  source : RelationSource
  target : RelationTarget
  kind : RelationKind
deriving DecidableEq, Repr

/-- `From<&RelationSource> for RelationVariant` (relations.rs 343-351). -/
def RelationSource.variant : RelationSource → RelationVariant
  | .nodeS _ => .node
  | .traitS _ => .traitV
  | .typeS _ => .typeV

/-- `From<&RelationTarget> for RelationVariant` (relations.rs 354-362). -/
def RelationTarget.variant : RelationTarget → RelationVariant
  | .nodeT _ => .node
  | .typeT _ => .typeV
  | .traitT _ => .traitV

/-- `RelationSource::type_name` (relations.rs 376-382). -/
def RelationSource.type_name : RelationSource → String
  | .nodeS _ => "Node"
  | .traitS _ => "Trait"
  | .typeS _ => "Type"

/-- `RelationTarget::type_name` (relations.rs 425-431). -/
def RelationTarget.type_name : RelationTarget → String
  | .nodeT _ => "Node"
  | .typeT _ => "Type"
  | .traitT _ => "Trait"

/-- `Identifier::id` for `RelationSource` (relations.rs 313-321). -/
def RelationSource.idVal : RelationSource → Nat
  | .nodeS i => i
  | .traitS i => i
  | .typeS i => i

/-- `Identifier::id` for `RelationTarget` (relations.rs 324-332). -/
def RelationTarget.idVal : RelationTarget → Nat
  | .nodeT i => i
  | .typeT i => i
  | .traitT i => i

/-- `From<RelationSource> for GraphNodeId` (relations.rs 385-393 with
graph_ids.rs lines 73-98). -/
def RelationSource.toGraphId : RelationSource → GraphNodeId
  | .nodeS i => { typePrefix := .node, unique_id := i }
  | .traitS i => { typePrefix := .traitNt, unique_id := i }
  | .typeS i => { typePrefix := .typeNt, unique_id := i }

/-- `From<RelationTarget> for GraphNodeId` (relations.rs 395-403). -/
def RelationTarget.toGraphId : RelationTarget → GraphNodeId
  | .nodeT i => { typePrefix := .node, unique_id := i }
  | .typeT i => { typePrefix := .typeNt, unique_id := i }
  | .traitT i => { typePrefix := .traitNt, unique_id := i }

/-- `Relation::validate_types` (relations.rs lines 256-283).  Note the
source's `InvalidTargetType` arm reports `self.source.type_name()` as the
`found` field — transcribed as written. -/
def validate_types (r : Relation) (expected_source expected_target : String)
    (expected_source_variant expected_target_variant : RelationVariant) :
    Except RelationError Unit :=
  if r.source.variant ≠ expected_source_variant then
    .error (.InvalidSourceType r.kind expected_source r.source.type_name)
  else if r.target.variant ≠ expected_target_variant then
    .error (.InvalidTargetType r.kind expected_target r.source.type_name)
  else .ok ()

/-- `Relation::check_circular_dependency` (relations.rs lines 285-295). -/
def check_circular_dependency (r : Relation) : Except RelationError Unit :=
  if r.source.idVal = r.target.idVal then
    .error (.CircularDependency r.kind r.source.toGraphId r.target.toGraphId)
  else .ok ()

/-- `Relation::validate` (relations.rs lines 143-254). -/
def validate (r : Relation) : Except RelationError Unit :=
  match r.kind with
  | .ImplementsTrait trait_id =>
      if trait_id.unique_id = 0 then .error (.MissingTraitId r.kind)
      else validate_types r ("Type") ("Trait") .typeV .traitV
  | .FunctionParameter =>
      validate_types r ("Function") ("Type") .node .typeV
  | .FunctionReturn =>
      validate_types r ("Function") ("Type") .node .typeV
  | .StructField =>
      validate_types r ("Struct") ("Type") .node .typeV
  | .EnumVariant =>
      validate_types r ("Enum") ("Type") .node .typeV
  | .ImplementsFor =>
      validate_types r ("Trait") ("Type") .traitV .typeV
  | .Inherits =>
      match validate_types r ("Type") ("Type") .typeV .typeV with
      | .error e => .error e
      | .ok _ => check_circular_dependency r
  | .References =>
      validate_types r ("Node") ("Node") .node .node
  | .Contains =>
      match validate_types r ("Container") ("Contained") .node .node with
      | .error e => .error e
      | .ok _ => check_circular_dependency r
  | .TypeDefinition =>
      validate_types r ("Node") ("Type") .node .typeV
  | .Uses =>
      validate_types r ("Node") ("Type") .node .typeV
  | .ValueType =>
      validate_types r ("Node") ("Primitive") .node .typeV
  | .MacroUse =>
      validate_types r ("Invocation") ("Definition") .node .node
  | .MacroExpansion =>
      validate_types r ("Macro") ("Expanded") .node .node
  | .MacroDefinition =>
      validate_types r ("Macro") ("Signature") .node .typeV
  | .MacroInvocation =>
      validate_types r ("Caller") ("Macro") .node .node
  | .GenericParameter =>
      validate_types r ("Generic") ("Type") .node .typeV
  | .Returns =>
      validate_types r ("Function") ("Type") .node .typeV
  | .HasType =>
      validate_types r ("Node") ("Type") .node .typeV

/-- The source/target tags `validate` expects for each kind, read off the
`validate_types` call table of relations.rs lines 143-254 (this is the
"tag expected for its kind" of the specification). -/
def specExpectedTags : RelationKind → RelationVariant × RelationVariant
  | .ImplementsTrait _ => (.typeV, .traitV)
  | .FunctionParameter => (.node, .typeV)
  | .FunctionReturn => (.node, .typeV)
  | .StructField => (.node, .typeV)
  | .EnumVariant => (.node, .typeV)
  | .ImplementsFor => (.traitV, .typeV)
  | .Inherits => (.typeV, .typeV)
  | .References => (.node, .node)
  | .Contains => (.node, .node)
  | .TypeDefinition => (.node, .typeV)
  | .Uses => (.node, .typeV)
  | .ValueType => (.node, .typeV)
  | .MacroUse => (.node, .node)
  | .MacroExpansion => (.node, .node)
  | .MacroDefinition => (.node, .typeV)
  | .MacroInvocation => (.node, .node)
  | .GenericParameter => (.node, .typeV)
  | .Returns => (.node, .typeV)
  | .HasType => (.node, .typeV)

end Rel

/-! ## C2: allocator freshness -/

/-- The outputs of `n` successive `next_node_id()` calls. -/
def nodeIdRun (s : VisitorState) : Nat → List Nat
  | 0 => []
  | n + 1 =>
      let (i, s') := s.nextNodeId
      i :: nodeIdRun s' n

/-- The outputs of `n` successive `next_type_id()` calls. -/
def typeIdRun (s : VisitorState) : Nat → List Nat
  | 0 => []
  | n + 1 =>
      let (i, s') := s.nextTypeId
      i :: typeIdRun s' n

theorem nodeIdRun_eq (n : Nat) (s : VisitorState) :
    nodeIdRun s n = List.range' s.next_node_id n := by
  induction n generalizing s with
  | zero => rfl
  | succ n ih => simp [nodeIdRun, VisitorState.nextNodeId, List.range', ih]

theorem typeIdRun_eq (n : Nat) (s : VisitorState) :
    typeIdRun s n = List.range' s.next_type_id n := by
  induction n generalizing s with
  | zero => rfl
  | succ n ih => simp [typeIdRun, VisitorState.nextTypeId, List.range', ih]

/-- C2: From a fresh `VisitorState`, the `next_node_id` and `next_type_id`
allocators return `0, 1, 2, ...` in order: each call returns a value
strictly greater than every earlier one (the output lists are strictly
increasing), the first call returns zero, and no value is ever returned
twice within the run. -/
theorem claim_c2_allocator_fresh_monotone (n : Nat) :
    nodeIdRun VisitorState.new n = List.range n
    ∧ typeIdRun VisitorState.new n = List.range n
    ∧ List.Pairwise (· < ·) (nodeIdRun VisitorState.new n)
    ∧ List.Pairwise (· < ·) (typeIdRun VisitorState.new n)
    ∧ (nodeIdRun VisitorState.new n).Nodup
    ∧ (typeIdRun VisitorState.new n).Nodup
    ∧ (nodeIdRun VisitorState.new (n + 1)).head? = some 0
    ∧ (typeIdRun VisitorState.new (n + 1)).head? = some 0 := by
  have hn : nodeIdRun VisitorState.new n = List.range n := by
    rw [nodeIdRun_eq]; simp [VisitorState.new, List.range_eq_range']
  have ht : typeIdRun VisitorState.new n = List.range n := by
    rw [typeIdRun_eq]; simp [VisitorState.new, List.range_eq_range']
  refine ⟨hn, ht, ?_, ?_, ?_, ?_, ?_, ?_⟩
  · rw [hn]; exact List.pairwise_lt_range n
  · rw [ht]; exact List.pairwise_lt_range n
  · rw [hn]; exact List.nodup_range n
  · rw [ht]; exact List.nodup_range n
  · simp [nodeIdRun, VisitorState.new, VisitorState.nextNodeId]
  · simp [typeIdRun, VisitorState.new, VisitorState.nextTypeId]

/-! ## Interner invariants

`type_map` bindings are bounded by the type counter and no two distinct
keys share an id; `type_graph` ids are bounded and duplicate-free.  All
four hold for the fresh state and are preserved by every state-touching
operation of the analysis. -/

/-- Every cached id is below the type counter. -/
def TMBounded (s : VisitorState) : Prop :=
  ∀ k i, lookupTM s.type_map k = some i → i < s.next_type_id

/-- Distinct cache keys are never bound to the same id. -/
def TMInjective (s : VisitorState) : Prop :=
  ∀ k1 k2 i, lookupTM s.type_map k1 = some i →
    lookupTM s.type_map k2 = some i → k1 = k2

/-- Every `type_graph` entry id is below the type counter. -/
def TGBounded (s : VisitorState) : Prop :=
  ∀ tn ∈ s.code_graph.type_graph, tn.id < s.next_type_id

/-- `type_graph` ids are pairwise distinct. -/
def TGNodup (s : VisitorState) : Prop :=
  (s.code_graph.type_graph.map TypeNode.id).Nodup

/-- The conjunction of the four type-side invariants. -/
def StInv (s : VisitorState) : Prop :=
  TMBounded s ∧ TMInjective s ∧ TGBounded s ∧ TGNodup s

theorem stInv_new : StInv VisitorState.new := by
  refine ⟨?_, ?_, ?_, ?_⟩
  · intro k i h; simp [VisitorState.new, lookupTM] at h
  · intro k1 k2 i h; simp [VisitorState.new, lookupTM] at h
  · intro tn h; simp [VisitorState.new] at h
  · simp [VisitorState.new, TGNodup]

/-- Type-side operations leave the node counter and every non-type
collection of the graph untouched. -/
def TypeOnly (s s' : VisitorState) : Prop :=
  s'.next_node_id = s.next_node_id
  ∧ s'.code_graph.functions = s.code_graph.functions
  ∧ s'.code_graph.defined_types = s.code_graph.defined_types
  ∧ s'.code_graph.impls = s.code_graph.impls
  ∧ s'.code_graph.traits = s.code_graph.traits
  ∧ s'.code_graph.private_traits = s.code_graph.private_traits
  ∧ s'.code_graph.relations = s.code_graph.relations
  ∧ s'.code_graph.modules = s.code_graph.modules
  ∧ s'.code_graph.values = s.code_graph.values
  ∧ s'.code_graph.macros = s.code_graph.macros

theorem typeOnly_refl (s : VisitorState) : TypeOnly s s := by
  exact ⟨rfl, rfl, rfl, rfl, rfl, rfl, rfl, rfl, rfl, rfl⟩

theorem typeOnly_trans {s1 s2 s3 : VisitorState} (h1 : TypeOnly s1 s2)
    (h2 : TypeOnly s2 s3) : TypeOnly s1 s3 := by
  obtain ⟨a1, a2, a3, a4, a5, a6, a7, a8, a9, a10⟩ := h1
  obtain ⟨b1, b2, b3, b4, b5, b6, b7, b8, b9, b10⟩ := h2
  exact ⟨b1.trans a1, b2.trans a2, b3.trans a3, b4.trans a4, b5.trans a5,
    b6.trans a6, b7.trans a7, b8.trans a8, b9.trans a9, b10.trans a10⟩

/-- How the state evolves across a type-side operation: the type counter
is monotone, the cache and the type table only grow, everything else is
untouched. -/
def TypeStep (s s' : VisitorState) : Prop :=
  s.next_type_id ≤ s'.next_type_id
  ∧ (∃ pre, s'.type_map = pre ++ s.type_map)
  ∧ (∃ post, s'.code_graph.type_graph = s.code_graph.type_graph ++ post
      ∧ ∀ tn ∈ post, s.next_type_id ≤ tn.id)
  ∧ TypeOnly s s'

theorem typeStep_refl (s : VisitorState) : TypeStep s s :=
  ⟨le_rfl, ⟨[], rfl⟩, ⟨[], by simp, by simp⟩, typeOnly_refl s⟩

theorem typeStep_trans {s1 s2 s3 : VisitorState} (h1 : TypeStep s1 s2)
    (h2 : TypeStep s2 s3) : TypeStep s1 s3 := by
  obtain ⟨m1, ⟨p1, hp1⟩, ⟨q1, hq1, hl1⟩, f1⟩ := h1
  obtain ⟨m2, ⟨p2, hp2⟩, ⟨q2, hq2, hl2⟩, f2⟩ := h2
  refine ⟨m1.trans m2, ⟨p2 ++ p1, by rw [hp2, hp1, List.append_assoc]⟩,
    ⟨q1 ++ q2, by rw [hq2, hq1, List.append_assoc], ?_⟩,
    typeOnly_trans f1 f2⟩
  intro tn htn
  rcases List.mem_append.mp htn with htn | htn
  · exact hl1 tn htn
  · exact m1.trans (hl2 tn htn)

theorem lookupTM_append_of_ne_none {m : List (String × Nat)}
    {k : String} (pre : List (String × Nat))
    (h : lookupTM m k ≠ none) : lookupTM (pre ++ m) k ≠ none := by
  induction pre with
  | nil => simpa using h
  | cons p rest ih =>
      obtain ⟨pk, pv⟩ := p
      by_cases hk : pk = k <;> simp [lookupTM, hk, ih]

/-- Presence in the cache survives any later type-side step. -/
theorem typeStep_preserves_lookup {s s' : VisitorState}
    (h : TypeStep s s') {k : String}
    (hk : lookupTM s.type_map k ≠ none) :
    lookupTM s'.type_map k ≠ none := by
  obtain ⟨-, ⟨pre, hpre⟩, -, -⟩ := h
  rw [hpre]
  exact lookupTM_append_of_ne_none pre hk

theorem lookupTM_cons (k0 : String) (v0 : Nat)
    (m : List (String × Nat)) (k : String) :
    lookupTM ((k0, v0) :: m) k
      = if k0 = k then some v0 else lookupTM m k := rfl

/-- Inserting a fresh binding (valued at the counter) and bumping the
counter preserves boundedness and injectivity of the cache. -/
theorem tmInv_insert_fresh {m : List (String × Nat)} {n : Nat}
    (key : String)
    (hb : ∀ k i, lookupTM m k = some i → i < n)
    (hi : ∀ k1 k2 i, lookupTM m k1 = some i → lookupTM m k2 = some i →
      k1 = k2) :
    (∀ k i, lookupTM ((key, n) :: m) k = some i → i < n + 1)
    ∧ (∀ k1 k2 i, lookupTM ((key, n) :: m) k1 = some i →
        lookupTM ((key, n) :: m) k2 = some i → k1 = k2) := by
  constructor
  · intro k i hl
    rw [lookupTM_cons] at hl
    by_cases hk : key = k
    · rw [if_pos hk] at hl
      have : n = i := Option.some.inj hl
      omega
    · rw [if_neg hk] at hl
      exact (hb k i hl).trans (Nat.lt_succ_self _)
  · intro k1 k2 i h1 h2
    rw [lookupTM_cons] at h1 h2
    by_cases hk1 : key = k1 <;> by_cases hk2 : key = k2
    · rw [← hk1, ← hk2]
    · rw [if_pos hk1] at h1
      rw [if_neg hk2] at h2
      have hv1 : n = i := Option.some.inj h1
      have hv2 := hb k2 i h2
      omega
    · rw [if_neg hk1] at h1
      rw [if_pos hk2] at h2
      have hv2 : n = i := Option.some.inj h2
      have hv1 := hb k1 i h1
      omega
    · rw [if_neg hk1] at h1
      rw [if_neg hk2] at h2
      exact hi k1 k2 i h1 h2

/-- Appending a node whose id is the current counter and bumping the
counter preserves boundedness and distinctness of `type_graph` ids. -/
theorem tgInv_push_fresh {tg : List TypeNode} {n : Nat} (kind : TypeKind)
    (rel : List Nat)
    (htb : ∀ tn ∈ tg, tn.id < n)
    (htn : (tg.map TypeNode.id).Nodup) :
    (∀ tn ∈ tg ++ [({ id := n, kind := kind
                      related_types := rel } : TypeNode)], tn.id < n + 1)
    ∧ ((tg ++ [({ id := n, kind := kind
                  related_types := rel } : TypeNode)]).map
        TypeNode.id).Nodup := by
  constructor
  · intro tn hm
    rcases List.mem_append.mp hm with hm | hm
    · exact (htb tn hm).trans (Nat.lt_succ_self _)
    · simp only [List.mem_singleton] at hm
      rw [hm]
      exact Nat.lt_succ_self n
  · rw [List.map_append, List.nodup_append]
    refine ⟨htn, by simp, ?_⟩
    intro a ha hb'
    simp only [List.mem_map] at ha
    obtain ⟨tn, htn', rfl⟩ := ha
    simp only [List.map_cons, List.map_nil, List.mem_singleton] at hb'
    have h1 := htb tn htn'
    have h2 : tn.id = n := hb'
    omega

theorem finishType_eq (kr : TypeKind × List Nat) (s1 : VisitorState)
    (key : String) :
    finishType kr s1 key =
      (s1.next_type_id,
       { s1 with
          next_type_id := s1.next_type_id + 1
          type_map := (key, s1.next_type_id) :: s1.type_map
          code_graph :=
            { s1.code_graph with
                type_graph := s1.code_graph.type_graph
                  ++ [{ id := s1.next_type_id, kind := kr.1
                        related_types := kr.2 }] } }) := rfl

theorem finishType_spec (kr : TypeKind × List Nat) (s1 : VisitorState)
    (key : String) (h : StInv s1) :
    StInv (finishType kr s1 key).2
    ∧ TypeStep s1 (finishType kr s1 key).2
    ∧ (finishType kr s1 key).1 = s1.next_type_id
    ∧ (finishType kr s1 key).2.next_type_id = s1.next_type_id + 1
    ∧ (finishType kr s1 key).2.type_map
        = (key, s1.next_type_id) :: s1.type_map
    ∧ (finishType kr s1 key).2.code_graph.type_graph
        = s1.code_graph.type_graph
            ++ [{ id := s1.next_type_id, kind := kr.1
                  related_types := kr.2 }] := by
  obtain ⟨hb, hi, htb, htn⟩ := h
  obtain ⟨hb', hi'⟩ := tmInv_insert_fresh key hb hi
  obtain ⟨htb', htn'⟩ := tgInv_push_fresh kr.1 kr.2 htb htn
  rw [finishType_eq]
  exact ⟨⟨hb', hi', htb', htn'⟩,
    ⟨Nat.le_succ _, ⟨[(key, s1.next_type_id)], rfl⟩, ⟨_, rfl, by simp⟩,
      ⟨rfl, rfl, rfl, rfl, rfl, rfl, rfl, rfl, rfl, rfl⟩⟩,
    rfl, rfl, rfl, rfl⟩

/-- Number of `Trait` bounds in a bound list (those are the bounds
`process_type` allocates fresh ids for). -/
def countTraitB : List RsTypeParamBound → Nat
  | [] => 0
  | .traitB _ :: rest => countTraitB rest + 1
  | _ :: rest => countTraitB rest

/-- The `Named` nodes the trait-object/impl-trait arm of `process_type`
appends for a bound list, starting at id `n`. -/
def boundNodes : List RsTypeParamBound → Nat → List TypeNode
  | [], _ => []
  | .traitB segs :: rest, n =>
      { id := n, kind := .named (segs.map RsSegment.name) false
        related_types := [] } :: boundNodes rest (n + 1)
  | _ :: rest, n => boundNodes rest n

theorem allocBounds_spec (bs : List RsTypeParamBound) (s : VisitorState)
    (h : StInv s) :
    StInv (allocBounds bs s).2
    ∧ TypeStep s (allocBounds bs s).2
    ∧ (allocBounds bs s).1 = List.range' s.next_type_id (countTraitB bs)
    ∧ (allocBounds bs s).2.next_type_id
        = s.next_type_id + countTraitB bs
    ∧ (allocBounds bs s).2.type_map = s.type_map
    ∧ (allocBounds bs s).2.code_graph.type_graph
        = s.code_graph.type_graph ++ boundNodes bs s.next_type_id := by
  induction bs generalizing s with
  | nil =>
      exact ⟨h, typeStep_refl s, by simp [allocBounds, countTraitB],
        by simp [allocBounds, countTraitB], rfl,
        by simp [allocBounds, boundNodes]⟩
  | cons b rest ih =>
      obtain ⟨hb, hi, htb, htn⟩ := h
      cases b with
      | traitB segs =>
          set sMid := pushTypeNode
              { s with next_type_id := s.next_type_id + 1 }
              { id := s.next_type_id
                kind := .named (segs.map RsSegment.name) false
                related_types := [] } with hsMid
          have hred : allocBounds (RsTypeParamBound.traitB segs :: rest) s
              = (s.next_type_id :: (allocBounds rest sMid).1,
                 (allocBounds rest sMid).2) := rfl
          have hmid : StInv sMid := by
            obtain ⟨htb', htn'⟩ :=
              tgInv_push_fresh
                (TypeKind.named (segs.map RsSegment.name) false) [] htb htn
            refine ⟨?_, ?_, htb', htn'⟩
            · intro k i hl
              exact (hb k i hl).trans (Nat.lt_succ_self _)
            · intro k1 k2 i h1 h2
              exact hi k1 k2 i h1 h2
          have hstep : TypeStep s sMid :=
            ⟨Nat.le_succ _, ⟨[], rfl⟩, ⟨_, rfl, by simp⟩,
              ⟨rfl, rfl, rfl, rfl, rfl, rfl, rfl, rfl, rfl, rfl⟩⟩
          obtain ⟨ih1, ih2, ih3, ih4, ih5, ih6⟩ := ih sMid hmid
          have hnx : sMid.next_type_id = s.next_type_id + 1 := rfl
          have htg : sMid.code_graph.type_graph
              = s.code_graph.type_graph
                  ++ [{ id := s.next_type_id
                        kind := .named (segs.map RsSegment.name) false
                        related_types := [] }] := rfl
          refine ⟨?_, ?_, ?_, ?_, ?_, ?_⟩
          · rw [hred]; exact ih1
          · rw [hred]; exact typeStep_trans hstep ih2
          · rw [hred]
            simp only [countTraitB, ih3, hnx, List.range'_succ]
          · rw [hred, ih4, hnx]
            simp only [countTraitB]
            omega
          · rw [hred, ih5]; rfl
          · rw [hred, ih6, htg, hnx]
            simp [boundNodes, List.append_assoc]
      | lifetimeB name =>
          obtain ⟨ih1, ih2, ih3, ih4, ih5, ih6⟩ := ih s ⟨hb, hi, htb, htn⟩
          have hred : allocBounds (RsTypeParamBound.lifetimeB name :: rest) s
              = ((allocBounds rest s).1, (allocBounds rest s).2) := rfl
          exact ⟨by rw [hred]; exact ih1, by rw [hred]; exact ih2,
            by rw [hred]; simpa [countTraitB] using ih3,
            by rw [hred]; simpa [countTraitB] using ih4,
            by rw [hred]; exact ih5,
            by rw [hred]; simpa [boundNodes] using ih6⟩
      | otherB =>
          obtain ⟨ih1, ih2, ih3, ih4, ih5, ih6⟩ := ih s ⟨hb, hi, htb, htn⟩
          have hred : allocBounds (RsTypeParamBound.otherB :: rest) s
              = ((allocBounds rest s).1, (allocBounds rest s).2) := rfl
          exact ⟨by rw [hred]; exact ih1, by rw [hred]; exact ih2,
            by rw [hred]; simpa [countTraitB] using ih3,
            by rw [hred]; simpa [countTraitB] using ih4,
            by rw [hred]; exact ih5,
            by rw [hred]; simpa [boundNodes] using ih6⟩

mutual
/-- Invariant preservation, state evolution, and id-boundedness for
`get_or_create_type`, by mutual induction with `process_type` and the
interning loops. -/
theorem got_spec (ty : RsType) (s : VisitorState) (h : StInv s) :
    StInv (get_or_create_type ty s).2
    ∧ TypeStep s (get_or_create_type ty s).2
    ∧ (get_or_create_type ty s).1
        < (get_or_create_type ty s).2.next_type_id := by
  rw [get_or_create_type_eq]
  cases hl : lookupTM s.type_map (renderType ty) with
  | some id =>
      exact ⟨h, typeStep_refl s, h.1 _ _ hl⟩
  | none =>
      have hp := process_type_spec ty s h
      have hf := finishType_spec (process_type ty s).1 (process_type ty s).2
        (renderType ty) hp.1
      have hred : (match (none : Option Nat) with
          | some id => (id, s)
          | none =>
              match process_type ty s with
              | (kr, s1) => finishType kr s1 (renderType ty))
          = finishType (process_type ty s).1 (process_type ty s).2
              (renderType ty) := rfl
      rw [hred]
      refine ⟨hf.1, typeStep_trans hp.2 hf.2.1, ?_⟩
      rw [hf.2.2.1, hf.2.2.2.1]
      exact Nat.lt_succ_self _
termination_by (sizeOf ty, 1)

theorem process_type_spec (ty : RsType) (s : VisitorState) (h : StInv s) :
    StInv (process_type ty s).2 ∧ TypeStep s (process_type ty s).2 := by
  cases ty with
  | pathTy segs q =>
      have hs := internSegs_spec segs s h
      exact ⟨hs.1, hs.2⟩
  | refTy lt m elem =>
      have hg := got_spec elem s h
      exact ⟨hg.1, hg.2.1⟩
  | tupleTy elems =>
      have hs := internList_spec elems s h
      exact ⟨hs.1, hs.2⟩
  | arrayTy elem size =>
      have hg := got_spec elem s h
      exact ⟨hg.1, hg.2.1⟩
  | sliceTy elem =>
      have hg := got_spec elem s h
      exact ⟨hg.1, hg.2.1⟩
  | neverTy => exact ⟨h, typeStep_refl s⟩
  | inferTy => exact ⟨h, typeStep_refl s⟩
  | ptrTy m elem =>
      have hg := got_spec elem s h
      exact ⟨hg.1, hg.2.1⟩
  | bareFnTy u abi ins ret =>
      have h1 := internList_spec ins s h
      have h2 := internOpt_spec ret (internList ins s).2 h1.1
      exact ⟨h2.1, typeStep_trans h1.2 h2.2⟩
  | parenTy elem =>
      have hg := got_spec elem s h
      exact ⟨hg.1, hg.2.1⟩
  | traitObjTy dy bounds =>
      have ha := allocBounds_spec bounds s h
      exact ⟨ha.1, ha.2.1⟩
  | implTraitTy bounds =>
      have ha := allocBounds_spec bounds s h
      exact ⟨ha.1, ha.2.1⟩
  | macroTy name tokens => exact ⟨h, typeStep_refl s⟩
  | otherTy text => exact ⟨h, typeStep_refl s⟩
termination_by (sizeOf ty, 0)

theorem internList_spec (tys : List RsType) (s : VisitorState)
    (h : StInv s) :
    StInv (internList tys s).2 ∧ TypeStep s (internList tys s).2 := by
  cases tys with
  | nil => exact ⟨h, typeStep_refl s⟩
  | cons t ts =>
      have h1 := got_spec t s h
      have h2 := internList_spec ts (get_or_create_type t s).2 h1.1
      exact ⟨h2.1, typeStep_trans h1.2.1 h2.2⟩
termination_by (sizeOf tys, 1)

theorem internSegs_spec (segs : List RsSegment) (s : VisitorState)
    (h : StInv s) :
    StInv (internSegs segs s).2 ∧ TypeStep s (internSegs segs s).2 := by
  cases segs with
  | nil => exact ⟨h, typeStep_refl s⟩
  | cons sg rest =>
      cases sg with
      | mk name args =>
          have h1 := internList_spec args s h
          have h2 := internSegs_spec rest (internList args s).2 h1.1
          exact ⟨h2.1, typeStep_trans h1.2 h2.2⟩
termination_by (sizeOf segs, 1)

theorem internOpt_spec (t : Option RsType) (s : VisitorState)
    (h : StInv s) :
    StInv (internOpt t s).2 ∧ TypeStep s (internOpt t s).2 := by
  cases t with
  | none => exact ⟨h, typeStep_refl s⟩
  | some ty =>
      have h1 := got_spec ty s h
      exact ⟨h1.1, h1.2.1⟩
termination_by (sizeOf t, 1)
end

/-- A cache hit returns the cached id and leaves the state untouched
(parser.rs lines 348-350). -/
theorem got_hit {ty : RsType} {s : VisitorState} {id : Nat}
    (hl : lookupTM s.type_map (renderType ty) = some id) :
    get_or_create_type ty s = (id, s) := by
  rw [get_or_create_type_eq, hl]

/-- A cache miss runs `process_type` and then allocates/inserts/pushes. -/
theorem got_miss_eq (ty : RsType) (s : VisitorState)
    (hl : lookupTM s.type_map (renderType ty) = none) :
    get_or_create_type ty s
      = finishType (process_type ty s).1 (process_type ty s).2
          (renderType ty) := by
  rw [get_or_create_type_eq, hl]

/-- After any `get_or_create_type` call, the cache maps the rendered text
of the processed type to the returned id. -/
theorem got_lookup_after (ty : RsType) (s : VisitorState) :
    lookupTM (get_or_create_type ty s).2.type_map (renderType ty)
      = some (get_or_create_type ty s).1 := by
  cases hl : lookupTM s.type_map (renderType ty) with
  | some id => rw [got_hit hl]; exact hl
  | none =>
      rw [got_miss_eq ty s hl, finishType_eq]
      simp [lookupTM_cons]

/-! ## C1: interning idempotence and injectivity -/

/-- C1: Interning is keyed on canonical rendered text.  If two type
expressions render to the same text, the second `get_or_create_type` call
returns the id of the first and leaves the state completely unchanged (in
particular the type table does not grow); if they render to different
text, the two calls return distinct `TypeId`s. -/
theorem claim_c1_interning_idempotent_injective (s : VisitorState)
    (h : StInv s) (t1 t2 : RsType) :
    (renderType t1 = renderType t2 →
      get_or_create_type t2 (get_or_create_type t1 s).2
        = ((get_or_create_type t1 s).1, (get_or_create_type t1 s).2))
    ∧ (renderType t1 ≠ renderType t2 →
      (get_or_create_type t2 (get_or_create_type t1 s).2).1
        ≠ (get_or_create_type t1 s).1) := by
  constructor
  · intro heq
    have hla := got_lookup_after t1 s
    rw [heq] at hla
    exact got_hit hla
  · intro hne
    have h1 := got_spec t1 s h
    have hla := got_lookup_after t1 s
    cases hl2 : lookupTM (get_or_create_type t1 s).2.type_map
        (renderType t2) with
    | some id2 =>
        rw [got_hit hl2]
        intro hcontra
        refine hne ?_
        exact (h1.1.2.1 (renderType t1) (renderType t2)
          (get_or_create_type t1 s).1 hla (hcontra ▸ hl2))
    | none =>
        rw [got_miss_eq t2 _ hl2, finishType_eq]
        have hp := process_type_spec t2 (get_or_create_type t1 s).2 h1.1
        have hm := hp.2.1
        have hi1 := h1.2.2
        intro hcontra
        simp only at hcontra
        omega

/-- Witness for C1 at `i32` versus `!` from the fresh state. -/
theorem claim_c1_interning_idempotent_injective_witness :
    (get_or_create_type (.pathTy [.mk ("i32") []] false)
        (get_or_create_type (.pathTy [.mk ("i32") []] false)
          VisitorState.new).2
      = ((get_or_create_type (.pathTy [.mk ("i32") []] false)
            VisitorState.new).1,
         (get_or_create_type (.pathTy [.mk ("i32") []] false)
            VisitorState.new).2))
    ∧ ((get_or_create_type RsType.neverTy
          (get_or_create_type (.pathTy [.mk ("i32") []] false)
            VisitorState.new).2).1
        ≠ (get_or_create_type (.pathTy [.mk ("i32") []] false)
            VisitorState.new).1) :=
  ⟨(claim_c1_interning_idempotent_injective VisitorState.new stInv_new
      (.pathTy [.mk ("i32") []] false) (.pathTy [.mk ("i32") []] false)).1
      rfl,
   (claim_c1_interning_idempotent_injective VisitorState.new stInv_new
      (.pathTy [.mk ("i32") []] false) RsType.neverTy).2 (by decide)⟩

/-! ## C6: bound-type allocation

The claim that bound processing never consults the interning cache is
true for trait-object and impl-trait bounds (parser.rs lines 480-545) but
false for generic-parameter bound lists: `process_type_bound`
(utils/generics.rs lines 25-48) routes a trait bound through
`get_or_create_type`, so two occurrences of the same bound text in a
generic parameter list receive the same `TypeId`. -/

/-- C6 counterexample: processing the generic-parameter bound list
`Debug + Debug` from a fresh state yields the id list `[0, 0]` — the two
occurrences of the same bound text share one `TypeId` (and the interning
cache has been consulted and updated), contradicting the claim for
generic-parameter bound lists. -/
theorem claim_c6_counterexample_generic_bounds_interned :
    (processTypeBounds
        [RsTypeParamBound.traitB [RsSegment.mk ("Debug") []],
         RsTypeParamBound.traitB [RsSegment.mk ("Debug") []]]
        VisitorState.new).1 = [0, 0]
    ∧ ¬ ((processTypeBounds
        [RsTypeParamBound.traitB [RsSegment.mk ("Debug") []],
         RsTypeParamBound.traitB [RsSegment.mk ("Debug") []]]
        VisitorState.new).1).Nodup
    ∧ (processTypeBounds
        [RsTypeParamBound.traitB [RsSegment.mk ("Debug") []]]
        VisitorState.new).2.type_map = [(("Debug"), 0)] := by
  refine ⟨?_, ?_, ?_⟩ <;> decide

/-- C6 (amended): in trait-object and impl-trait types every `Trait`
bound gets a fresh, consecutive `TypeId` (so duplicated bound text still
receives distinct ids), a new `Named` node is appended per bound, and the
interning cache is neither consulted nor updated; generic-parameter trait
bounds, by contrast, are routed through `get_or_create_type`. -/
theorem claim_c6_amended_bound_allocation (s : VisitorState) (h : StInv s)
    (dy : Bool) (bs : List RsTypeParamBound) :
    ((process_type (.traitObjTy dy bs) s).1.2
        = List.range' s.next_type_id (countTraitB bs)
     ∧ (process_type (.traitObjTy dy bs) s).1.2.Nodup
     ∧ (process_type (.traitObjTy dy bs) s).2.type_map = s.type_map
     ∧ (process_type (.traitObjTy dy bs) s).2.code_graph.type_graph
         = s.code_graph.type_graph ++ boundNodes bs s.next_type_id)
    ∧ ((process_type (.implTraitTy bs) s).1.2
        = List.range' s.next_type_id (countTraitB bs)
     ∧ (process_type (.implTraitTy bs) s).1.2.Nodup
     ∧ (process_type (.implTraitTy bs) s).2.type_map = s.type_map)
    ∧ (∀ segs, process_type_bound (.traitB segs) s
        = get_or_create_type (.pathTy segs false) s) := by
  obtain ⟨-, -, hids, -, hmap, htg⟩ := allocBounds_spec bs s h
  have hred1 : (process_type (.traitObjTy dy bs) s).1.2
      = (allocBounds bs s).1 := rfl
  have hred2 : (process_type (.traitObjTy dy bs) s).2
      = (allocBounds bs s).2 := rfl
  have hred3 : (process_type (.implTraitTy bs) s).1.2
      = (allocBounds bs s).1 := rfl
  have hred4 : (process_type (.implTraitTy bs) s).2
      = (allocBounds bs s).2 := rfl
  refine ⟨⟨?_, ?_, ?_, ?_⟩, ⟨?_, ?_, ?_⟩, fun segs => rfl⟩
  · rw [hred1, hids]
  · rw [hred1, hids]; exact List.nodup_range' _ _
  · rw [hred2, hmap]
  · rw [hred2, htg]
  · rw [hred3, hids]
  · rw [hred3, hids]; exact List.nodup_range' _ _
  · rw [hred4, hmap]

/-- Witness for the amended C6 at the duplicated bound list
`Debug + Debug` from the fresh state. -/
theorem claim_c6_amended_bound_allocation_witness :
    ((process_type
        (.traitObjTy true
          [RsTypeParamBound.traitB [RsSegment.mk ("Debug") []],
           RsTypeParamBound.traitB [RsSegment.mk ("Debug") []]])
        VisitorState.new).1.2
        = List.range' VisitorState.new.next_type_id
            (countTraitB
              [RsTypeParamBound.traitB [RsSegment.mk ("Debug") []],
               RsTypeParamBound.traitB [RsSegment.mk ("Debug") []]])
     ∧ (process_type
        (.traitObjTy true
          [RsTypeParamBound.traitB [RsSegment.mk ("Debug") []],
           RsTypeParamBound.traitB [RsSegment.mk ("Debug") []]])
        VisitorState.new).1.2.Nodup
     ∧ (process_type
        (.traitObjTy true
          [RsTypeParamBound.traitB [RsSegment.mk ("Debug") []],
           RsTypeParamBound.traitB [RsSegment.mk ("Debug") []]])
        VisitorState.new).2.type_map = VisitorState.new.type_map
     ∧ (process_type
        (.traitObjTy true
          [RsTypeParamBound.traitB [RsSegment.mk ("Debug") []],
           RsTypeParamBound.traitB [RsSegment.mk ("Debug") []]])
        VisitorState.new).2.code_graph.type_graph
         = VisitorState.new.code_graph.type_graph
            ++ boundNodes
                [RsTypeParamBound.traitB [RsSegment.mk ("Debug") []],
                 RsTypeParamBound.traitB [RsSegment.mk ("Debug") []]]
                VisitorState.new.next_type_id)
    ∧ ((process_type
        (.implTraitTy
          [RsTypeParamBound.traitB [RsSegment.mk ("Debug") []],
           RsTypeParamBound.traitB [RsSegment.mk ("Debug") []]])
        VisitorState.new).1.2
        = List.range' VisitorState.new.next_type_id
            (countTraitB
              [RsTypeParamBound.traitB [RsSegment.mk ("Debug") []],
               RsTypeParamBound.traitB [RsSegment.mk ("Debug") []]])
     ∧ (process_type
        (.implTraitTy
          [RsTypeParamBound.traitB [RsSegment.mk ("Debug") []],
           RsTypeParamBound.traitB [RsSegment.mk ("Debug") []]])
        VisitorState.new).1.2.Nodup
     ∧ (process_type
        (.implTraitTy
          [RsTypeParamBound.traitB [RsSegment.mk ("Debug") []],
           RsTypeParamBound.traitB [RsSegment.mk ("Debug") []]])
        VisitorState.new).2.type_map = VisitorState.new.type_map)
    ∧ (∀ segs, process_type_bound (.traitB segs) VisitorState.new
        = get_or_create_type (.pathTy segs false) VisitorState.new) :=
  claim_c6_amended_bound_allocation VisitorState.new stInv_new true
    [RsTypeParamBound.traitB [RsSegment.mk ("Debug") []],
     RsTypeParamBound.traitB [RsSegment.mk ("Debug") []]]

/-! ## C3 / C9: the impl-block skip check -/

/-- Interning a path type on a cache miss appends a `Named` node carrying
the segment names, and the id-based `type_graph` lookup of the skip check
resolves the returned id to exactly that node. -/
theorem got_path_miss_find (segs : List RsSegment) (q : Bool)
    (s : VisitorState) (h : StInv s)
    (hmiss : lookupTM s.type_map (renderType (.pathTy segs q)) = none) :
    (get_or_create_type (.pathTy segs q) s).2.code_graph.type_graph.find?
        (fun tn => tn.id == (get_or_create_type (.pathTy segs q) s).1)
      = some { id := (get_or_create_type (.pathTy segs q) s).1
               kind := .named (segs.map RsSegment.name) q
               related_types := (internSegs segs s).1 } := by
  have hpt1 : (process_type (.pathTy segs q) s).1
      = (.named (segs.map RsSegment.name) q, (internSegs segs s).1) := rfl
  have hpt2 : (process_type (.pathTy segs q) s).2
      = (internSegs segs s).2 := rfl
  have hs1 := internSegs_spec segs s h
  rw [got_miss_eq _ _ hmiss, finishType_eq]
  simp only [hpt1, hpt2]
  rw [List.find?_append]
  have hnone : (internSegs segs s).2.code_graph.type_graph.find?
      (fun tn => tn.id == (internSegs segs s).2.next_type_id) = none := by
    rw [List.find?_eq_none]
    intro tn htn
    have := hs1.1.2.2.1 tn htn
    simp only [beq_iff_eq]
    omega
  rw [hnone]
  simp

/-- When the skip check fires, `visit_item_impl` returns the state as it
stood right after interning the self type and the trait path. -/
theorem visit_item_impl_skip_eq (im : RsItemImpl) (s : VisitorState)
    (p : List RsSegment) (hp : im.traitPath = some p)
    (hskip : implSkipCheck
        (some ((get_or_create_type (.pathTy p false)
                 (get_or_create_type im.self_ty (s.nextNodeId).2).2).1))
        ((get_or_create_type (.pathTy p false)
           (get_or_create_type im.self_ty (s.nextNodeId).2).2).2) = true) :
    visit_item_impl im s
      = (get_or_create_type (.pathTy p false)
          (get_or_create_type im.self_ty (s.nextNodeId).2).2).2 := by
  unfold visit_item_impl
  rw [hp]
  simp only [hskip, if_true]

/-- C3: An impl block naming a trait whose recorded declaration is
non-`Public` is dropped at build time: no `ImplNode` and no relation is
pushed (`impls` and `relations` are exactly as before), while the trait
itself stays in the `traits` collection.  The freshness hypothesis
`hmiss` says the trait path had not been interned before the impl's trait
reference is processed, which is what makes the skip check's
`type_graph` lookup resolve to the trait path's `Named` node. -/
theorem claim_c3_nonpublic_trait_impl_excluded
    (s : VisitorState) (h : StInv s) (im : RsItemImpl)
    (p : List RsSegment) (td : TraitNode)
    (hp : im.traitPath = some p)
    (hmiss : lookupTM
        ((get_or_create_type im.self_ty (s.nextNodeId).2).2).type_map
        (renderType (.pathTy p false)) = none)
    (hfind : s.code_graph.traits.find?
        (fun t => t.name == ((p.map RsSegment.name).getLastD ""))
        = some td)
    (hvis : td.visibility ≠ VisibilityKind.Public) :
    (visit_item_impl im s).code_graph.impls = s.code_graph.impls
    ∧ (visit_item_impl im s).code_graph.relations = s.code_graph.relations
    ∧ (visit_item_impl im s).code_graph.traits = s.code_graph.traits
    ∧ td ∈ (visit_item_impl im s).code_graph.traits := by
  have h0 : StInv (s.nextNodeId).2 := h
  obtain ⟨hInv1, ⟨hmono1, hmap1, htg1, hto1⟩, hlt1⟩ :=
    got_spec im.self_ty (s.nextNodeId).2 h0
  obtain ⟨hInv2, ⟨hmono2, hmap2, htg2, hto2⟩, hlt2⟩ :=
    got_spec (.pathTy p false)
      (get_or_create_type im.self_ty (s.nextNodeId).2).2 hInv1
  have htraits : ((get_or_create_type (.pathTy p false)
      (get_or_create_type im.self_ty
        (s.nextNodeId).2).2).2).code_graph.traits
      = s.code_graph.traits := by
    rw [hto2.2.2.2.2.1, hto1.2.2.2.2.1]; exact rfl
  have himpls : ((get_or_create_type (.pathTy p false)
      (get_or_create_type im.self_ty
        (s.nextNodeId).2).2).2).code_graph.impls
      = s.code_graph.impls := by
    rw [hto2.2.2.2.1, hto1.2.2.2.1]; exact rfl
  have hrels : ((get_or_create_type (.pathTy p false)
      (get_or_create_type im.self_ty
        (s.nextNodeId).2).2).2).code_graph.relations
      = s.code_graph.relations := by
    rw [hto2.2.2.2.2.2.2.1, hto1.2.2.2.2.2.2.1]; exact rfl
  have hfindtg := got_path_miss_find p false
    (get_or_create_type im.self_ty (s.nextNodeId).2).2 hInv1 hmiss
  have hskip : implSkipCheck
      (some ((get_or_create_type (.pathTy p false)
               (get_or_create_type im.self_ty (s.nextNodeId).2).2).1))
      ((get_or_create_type (.pathTy p false)
         (get_or_create_type im.self_ty (s.nextNodeId).2).2).2) = true := by
    simp only [implSkipCheck, hfindtg, htraits, hfind]
    simp [hvis]
  rw [visit_item_impl_skip_eq im s p hp hskip]
  exact ⟨himpls, hrels, htraits,
    by rw [htraits]; exact List.mem_of_find?_eq_some hfind⟩

/-- The non-public trait of the C3 witness scenario. -/
def c3WitnessTrait : TraitNode :=
  { id := 0, name := "T", visibility := VisibilityKind.Inherited
    methods := [], generic_params := [], super_traits := []
    attributes := [], docstring := none }

/-- A state that has just recorded the non-public trait `T`. -/
def c3WitnessState : VisitorState :=
  { VisitorState.new with
      next_node_id := 1
      code_graph :=
        { VisitorState.new.code_graph with traits := [c3WitnessTrait] } }

/-- The impl block `impl T for S {}`. -/
def c3WitnessImpl : RsItemImpl :=
  { generics := [], traitPath := some [RsSegment.mk ("T") []]
    self_ty := .pathTy [RsSegment.mk ("S") []] false, methods := [] }

/-- Witness for C3: `impl T for S {}` against a recorded non-public trait
`T` adds nothing to `impls` or `relations`, and `T` stays recorded. -/
theorem claim_c3_nonpublic_trait_impl_excluded_witness :
    (visit_item_impl c3WitnessImpl c3WitnessState).code_graph.impls
        = c3WitnessState.code_graph.impls
    ∧ (visit_item_impl c3WitnessImpl c3WitnessState).code_graph.relations
        = c3WitnessState.code_graph.relations
    ∧ (visit_item_impl c3WitnessImpl c3WitnessState).code_graph.traits
        = c3WitnessState.code_graph.traits
    ∧ c3WitnessTrait
        ∈ (visit_item_impl c3WitnessImpl c3WitnessState).code_graph.traits :=
  claim_c3_nonpublic_trait_impl_excluded c3WitnessState stInv_new
    c3WitnessImpl [RsSegment.mk ("T") []] c3WitnessTrait rfl (by decide)
    (by decide) (by decide)

/-- C9: An impl block naming a trait with no matching declaration in the
graph's `traits` collection at visit time is dropped the same way: no
`ImplNode`, no relation — even though the self type and the trait path
have already been interned into the type table by the time the check
runs (their rendered texts are now cache keys). -/
theorem claim_c9_unknown_trait_impl_dropped_after_interning
    (s : VisitorState) (h : StInv s) (im : RsItemImpl)
    (p : List RsSegment)
    (hp : im.traitPath = some p)
    (hmiss : lookupTM
        ((get_or_create_type im.self_ty (s.nextNodeId).2).2).type_map
        (renderType (.pathTy p false)) = none)
    (hfind : s.code_graph.traits.find?
        (fun t => t.name == ((p.map RsSegment.name).getLastD ""))
        = none) :
    (visit_item_impl im s).code_graph.impls = s.code_graph.impls
    ∧ (visit_item_impl im s).code_graph.relations = s.code_graph.relations
    ∧ lookupTM (visit_item_impl im s).type_map (renderType im.self_ty)
        ≠ none
    ∧ lookupTM (visit_item_impl im s).type_map
        (renderType (.pathTy p false)) ≠ none := by
  have h0 : StInv (s.nextNodeId).2 := h
  obtain ⟨hInv1, ⟨hmono1, hmap1, htg1, hto1⟩, hlt1⟩ :=
    got_spec im.self_ty (s.nextNodeId).2 h0
  obtain ⟨hInv2, hstep2, hlt2⟩ :=
    got_spec (.pathTy p false)
      (get_or_create_type im.self_ty (s.nextNodeId).2).2 hInv1
  obtain ⟨hmono2, hmap2, htg2, hto2⟩ := hstep2
  have htraits : ((get_or_create_type (.pathTy p false)
      (get_or_create_type im.self_ty
        (s.nextNodeId).2).2).2).code_graph.traits
      = s.code_graph.traits := by
    rw [hto2.2.2.2.2.1, hto1.2.2.2.2.1]; exact rfl
  have himpls : ((get_or_create_type (.pathTy p false)
      (get_or_create_type im.self_ty
        (s.nextNodeId).2).2).2).code_graph.impls
      = s.code_graph.impls := by
    rw [hto2.2.2.2.1, hto1.2.2.2.1]; exact rfl
  have hrels : ((get_or_create_type (.pathTy p false)
      (get_or_create_type im.self_ty
        (s.nextNodeId).2).2).2).code_graph.relations
      = s.code_graph.relations := by
    rw [hto2.2.2.2.2.2.2.1, hto1.2.2.2.2.2.2.1]; exact rfl
  have hfindtg := got_path_miss_find p false
    (get_or_create_type im.self_ty (s.nextNodeId).2).2 hInv1 hmiss
  have hskip : implSkipCheck
      (some ((get_or_create_type (.pathTy p false)
               (get_or_create_type im.self_ty (s.nextNodeId).2).2).1))
      ((get_or_create_type (.pathTy p false)
         (get_or_create_type im.self_ty (s.nextNodeId).2).2).2) = true := by
    simp only [implSkipCheck, hfindtg, htraits, hfind]
  rw [visit_item_impl_skip_eq im s p hp hskip]
  refine ⟨himpls, hrels, ?_, ?_⟩
  · exact typeStep_preserves_lookup ⟨hmono2, hmap2, htg2, hto2⟩
      (by rw [got_lookup_after]; exact Option.some_ne_none _)
  · rw [got_lookup_after]
    exact Option.some_ne_none _

/-- The impl block `impl T for S {}` with no trait `T` recorded. -/
def c9WitnessImpl : RsItemImpl :=
  { generics := [], traitPath := some [RsSegment.mk ("T") []]
    self_ty := .pathTy [RsSegment.mk ("S") []] false, methods := [] }

/-- Witness for C9 from the fresh state (no traits recorded at all). -/
theorem claim_c9_unknown_trait_impl_dropped_after_interning_witness :
    (visit_item_impl c9WitnessImpl VisitorState.new).code_graph.impls
        = VisitorState.new.code_graph.impls
    ∧ (visit_item_impl c9WitnessImpl
          VisitorState.new).code_graph.relations
        = VisitorState.new.code_graph.relations
    ∧ lookupTM (visit_item_impl c9WitnessImpl VisitorState.new).type_map
        (renderType c9WitnessImpl.self_ty) ≠ none
    ∧ lookupTM (visit_item_impl c9WitnessImpl VisitorState.new).type_map
        (renderType (.pathTy [RsSegment.mk ("T") []] false)) ≠ none :=
  claim_c9_unknown_trait_impl_dropped_after_interning VisitorState.new
    stInv_new c9WitnessImpl [RsSegment.mk ("T") []] rfl (by decide)
    (by decide)

/-! ## C10: non-public structs -/

/-- Bumping the type counter alone preserves the type-side invariants. -/
theorem stInv_nextTypeId {s : VisitorState} (h : StInv s) :
    StInv (s.nextTypeId).2 := by
  obtain ⟨hb, hi, htb, htn⟩ := h
  exact ⟨fun k i hl => (hb k i hl).trans (Nat.lt_succ_self _), hi,
    fun tn hm => (htb tn hm).trans (Nat.lt_succ_self _), htn⟩

/-- Spec of the `visit_item_struct` field loop: the invariants are kept,
the cache only grows, one fresh `NodeId` per field is consumed, exactly
one `StructField` relation per field is appended (from `struct_id` to the
consecutive fresh field ids), every other graph collection is untouched,
and each field's type ends up interned. -/
theorem visitStructFieldsLoop_spec (struct_id : Nat)
    (fields : List RsField) (s : VisitorState) (h : StInv s) :
    StInv (visitStructFieldsLoop struct_id fields s).2
    ∧ (∃ pre, (visitStructFieldsLoop struct_id fields s).2.type_map
        = pre ++ s.type_map)
    ∧ (visitStructFieldsLoop struct_id fields s).2.next_node_id
        = s.next_node_id + fields.length
    ∧ (visitStructFieldsLoop struct_id fields s).2.code_graph.relations
        = s.code_graph.relations
          ++ (List.range' s.next_node_id fields.length).map
              (fun fid => { source := struct_id, target := fid
                            kind := RelationKind.StructField })
    ∧ (visitStructFieldsLoop struct_id fields s).2.code_graph.functions
        = s.code_graph.functions
    ∧ (visitStructFieldsLoop struct_id fields
        s).2.code_graph.defined_types = s.code_graph.defined_types
    ∧ (visitStructFieldsLoop struct_id fields s).2.code_graph.impls
        = s.code_graph.impls
    ∧ (visitStructFieldsLoop struct_id fields s).2.code_graph.traits
        = s.code_graph.traits
    ∧ (visitStructFieldsLoop struct_id fields s).2.code_graph.modules
        = s.code_graph.modules
    ∧ (visitStructFieldsLoop struct_id fields s).2.code_graph.values
        = s.code_graph.values
    ∧ (visitStructFieldsLoop struct_id fields s).2.code_graph.macros
        = s.code_graph.macros
    ∧ (∀ f ∈ fields,
        lookupTM (visitStructFieldsLoop struct_id fields s).2.type_map
          (renderType f.ty) ≠ none) := by
  induction fields generalizing s with
  | nil =>
      refine ⟨h, ⟨[], rfl⟩, by simp [visitStructFieldsLoop], ?_, rfl, rfl,
        rfl, rfl, rfl, rfl, rfl, by simp⟩
      simp [visitStructFieldsLoop]
  | cons f rest ih =>
      obtain ⟨hInvB, ⟨hmonoB, hmapB, htgB, htoB⟩, hltB⟩ :=
        got_spec f.ty (s.nextNodeId).2 (h : StInv (s.nextNodeId).2)
      set sB := (get_or_create_type f.ty (s.nextNodeId).2).2 with hsB
      set sC := pushRelation sB
        { source := struct_id
          target := (s.nextNodeId).1
          kind := RelationKind.StructField } with hsC
      have hred : visitStructFieldsLoop struct_id (f :: rest) s
      = (({ id := (s.nextNodeId).1, name := f.name
            type_id := (get_or_create_type f.ty (s.nextNodeId).2).1
            visibility := convert_visibility f.vis
            attributes := f.attrs } : FieldNode)
          :: (visitStructFieldsLoop struct_id rest sC).1,
         (visitStructFieldsLoop struct_id rest sC).2) := rfl
      have hInvC : StInv sC := hInvB
      have hnodeC : sC.next_node_id = s.next_node_id + 1 := by
        have : sB.next_node_id = s.next_node_id + 1 := htoB.1
        exact this
      have hmapC : sC.type_map = sB.type_map := rfl
      have hrelC : sC.code_graph.relations = s.code_graph.relations
          ++ [{ source := struct_id, target := s.next_node_id
                kind := RelationKind.StructField }] := by
        have hx : sB.code_graph.relations = s.code_graph.relations :=
          htoB.2.2.2.2.2.2.1
        show sB.code_graph.relations ++ _ = _
        rw [hx]
        rfl
      obtain ⟨ihInv, ⟨pre2, ihmap⟩, ihnode, ihrel, ihf, ihd, ihi, iht,
        ihm, ihv, ihmac, ihlook⟩ := ih sC hInvC
      obtain ⟨pre1, hpre1⟩ := hmapB
      refine ⟨?_, ?_, ?_, ?_, ?_, ?_, ?_, ?_, ?_, ?_, ?_, ?_⟩
      · rw [hred]; exact ihInv
      · rw [hred, ihmap, hmapC, hpre1]
        refine ⟨pre2 ++ pre1, ?_⟩
        rw [List.append_assoc]
        exact rfl
      · rw [hred, ihnode, hnodeC]
        simp [List.length_cons]
        omega
      · rw [hred, ihrel, hrelC, hnodeC]
        simp only [List.length_cons, List.range'_succ, List.map_cons,
          List.append_assoc, List.cons_append, List.nil_append]
      · rw [hred, ihf]; exact htoB.2.1
      · rw [hred, ihd]; exact htoB.2.2.1
      · rw [hred, ihi]; exact htoB.2.2.2.1
      · rw [hred, iht]; exact htoB.2.2.2.2.1
      · rw [hred, ihm]; exact htoB.2.2.2.2.2.2.2.1
      · rw [hred, ihv]; exact htoB.2.2.2.2.2.2.2.2.1
      · rw [hred, ihmac]; exact htoB.2.2.2.2.2.2.2.2.2
      · rw [hred]
        intro g hg
        rcases List.mem_cons.mp hg with rfl | hg
        · rw [ihmap, hmapC]
          apply lookupTM_append_of_ne_none
          rw [got_lookup_after]
          exact Option.some_ne_none _
        · exact ihlook g hg

/-- State evolution across generic-parameter processing: both counters
are monotone, the cache only grows, and every graph collection except
`type_graph` is untouched. -/
def GenStep (s s' : VisitorState) : Prop :=
  s.next_node_id ≤ s'.next_node_id
  ∧ (∃ pre, s'.type_map = pre ++ s.type_map)
  ∧ s'.code_graph.functions = s.code_graph.functions
  ∧ s'.code_graph.defined_types = s.code_graph.defined_types
  ∧ s'.code_graph.impls = s.code_graph.impls
  ∧ s'.code_graph.traits = s.code_graph.traits
  ∧ s'.code_graph.relations = s.code_graph.relations
  ∧ s'.code_graph.modules = s.code_graph.modules
  ∧ s'.code_graph.values = s.code_graph.values
  ∧ s'.code_graph.macros = s.code_graph.macros

theorem genStep_refl (s : VisitorState) : GenStep s s :=
  ⟨le_rfl, ⟨[], rfl⟩, rfl, rfl, rfl, rfl, rfl, rfl, rfl, rfl⟩

theorem genStep_trans {s1 s2 s3 : VisitorState} (h1 : GenStep s1 s2)
    (h2 : GenStep s2 s3) : GenStep s1 s3 := by
  obtain ⟨a0, ⟨p1, hp1⟩, a1, a2, a3, a4, a5, a6, a7, a8⟩ := h1
  obtain ⟨b0, ⟨p2, hp2⟩, b1, b2, b3, b4, b5, b6, b7, b8⟩ := h2
  exact ⟨a0.trans b0, ⟨p2 ++ p1, by rw [hp2, hp1, List.append_assoc]⟩,
    b1.trans a1, b2.trans a2, b3.trans a3, b4.trans a4, b5.trans a5,
    b6.trans a6, b7.trans a7, b8.trans a8⟩

theorem typeStep_genStep {s s' : VisitorState} (h : TypeStep s s') :
    GenStep s s' := by
  obtain ⟨-, hmap, -, hto⟩ := h
  exact ⟨le_of_eq hto.1.symm, hmap, hto.2.1, hto.2.2.1, hto.2.2.2.1,
    hto.2.2.2.2.1, hto.2.2.2.2.2.2.1, hto.2.2.2.2.2.2.2.1,
    hto.2.2.2.2.2.2.2.2.1, hto.2.2.2.2.2.2.2.2.2⟩

theorem genStep_nextNode (s : VisitorState) :
    GenStep s (s.nextNodeId).2 :=
  ⟨Nat.le_succ _, ⟨[], rfl⟩, rfl, rfl, rfl, rfl, rfl, rfl, rfl, rfl⟩

theorem genStep_nextType (s : VisitorState) :
    GenStep s (s.nextTypeId).2 :=
  ⟨le_rfl, ⟨[], rfl⟩, rfl, rfl, rfl, rfl, rfl, rfl, rfl, rfl⟩

theorem genStep_preserves_lookup {s s' : VisitorState}
    (h : GenStep s s') {k : String}
    (hk : lookupTM s.type_map k ≠ none) :
    lookupTM s'.type_map k ≠ none := by
  obtain ⟨-, ⟨pre, hpre⟩, -⟩ := h
  rw [hpre]
  exact lookupTM_append_of_ne_none pre hk

/-- Allocating a type id and pushing a related node keeps the type-side
invariants. -/
theorem stInv_allocPush (s : VisitorState) (kind : TypeKind)
    (h : StInv s) :
    StInv (pushTypeNode { s with next_type_id := s.next_type_id + 1 }
      { id := s.next_type_id, kind := kind, related_types := [] }) := by
  obtain ⟨hb, hi, htb, htn⟩ := h
  obtain ⟨htb', htn'⟩ := tgInv_push_fresh kind [] htb htn
  exact ⟨fun k i hl => (hb k i hl).trans (Nat.lt_succ_self _), hi,
    htb', htn'⟩

theorem process_type_bound_spec (b : RsTypeParamBound) (s : VisitorState)
    (h : StInv s) :
    StInv (process_type_bound b s).2
    ∧ GenStep s (process_type_bound b s).2 := by
  cases b with
  | traitB segs =>
      have hg := got_spec (.pathTy segs false) s h
      exact ⟨hg.1, typeStep_genStep hg.2.1⟩
  | lifetimeB name =>
      have hred : (process_type_bound (.lifetimeB name) s).2
          = pushTypeNode { s with next_type_id := s.next_type_id + 1 }
              { id := s.next_type_id
                kind := .named [("lifetime")] false
                related_types := [] } := rfl
      rw [hred]
      exact ⟨stInv_allocPush s _ h,
        ⟨le_rfl, ⟨[], rfl⟩, rfl, rfl, rfl, rfl, rfl, rfl, rfl, rfl⟩⟩
  | otherB =>
      exact ⟨stInv_nextTypeId h, genStep_nextType s⟩

theorem processTypeBounds_spec (bs : List RsTypeParamBound)
    (s : VisitorState) (h : StInv s) :
    StInv (processTypeBounds bs s).2
    ∧ GenStep s (processTypeBounds bs s).2 := by
  induction bs generalizing s with
  | nil => exact ⟨h, genStep_refl s⟩
  | cons b rest ih =>
      have h1 := process_type_bound_spec b s h
      have h2 := ih (process_type_bound b s).2 h1.1
      exact ⟨h2.1, genStep_trans h1.2 h2.2⟩

theorem process_generics_spec (params : List RsGenericParam)
    (s : VisitorState) (h : StInv s) :
    StInv (process_generics params s).2
    ∧ GenStep s (process_generics params s).2 := by
  induction params generalizing s with
  | nil => exact ⟨h, genStep_refl s⟩
  | cons p rest ih =>
      cases p with
      | typeParam name bounds default =>
          have h1 := processTypeBounds_spec bounds s h
          cases default with
          | none =>
              have hred : (process_generics
                  (.typeParam name bounds none :: rest) s).2
                  = (process_generics rest
                      (((processTypeBounds bounds
                          s).2).nextNodeId).2).2 := rfl
              rw [hred]
              have h2 := ih ((processTypeBounds bounds
                  s).2.nextNodeId).2 h1.1
              exact ⟨h2.1, genStep_trans h1.2
                (genStep_trans (genStep_nextNode _) h2.2)⟩
          | some expr =>
              cases hl : lookupTM
                  (processTypeBounds bounds s).2.type_map
                  (renderType expr) with
              | some tid =>
                  have hred : (process_generics
                      (.typeParam name bounds (some expr) :: rest) s).2
                      = (process_generics rest
                          (((processTypeBounds bounds
                              s).2).nextNodeId).2).2 := by
                    simp only [process_generics, hl]
                  rw [hred]
                  have h2 := ih ((processTypeBounds bounds
                      s).2.nextNodeId).2 h1.1
                  exact ⟨h2.1, genStep_trans h1.2
                    (genStep_trans (genStep_nextNode _) h2.2)⟩
              | none =>
                  have hInvA : StInv
                      (((processTypeBounds bounds s).2).nextTypeId).2 :=
                    stInv_nextTypeId h1.1
                  have hgot := got_spec expr
                    (((processTypeBounds bounds s).2).nextTypeId).2 hInvA
                  have hred : (process_generics
                      (.typeParam name bounds (some expr) :: rest) s).2
                      = (process_generics rest
                          (((get_or_create_type expr
                              (((processTypeBounds bounds
                                s).2).nextTypeId).2).2).nextNodeId).2).2
                      := by
                    simp only [process_generics, hl]
                  rw [hred]
                  have h2 := ih ((get_or_create_type expr
                      (((processTypeBounds bounds
                        s).2).nextTypeId).2).2.nextNodeId).2 hgot.1
                  refine ⟨h2.1, genStep_trans h1.2 (genStep_trans
                    (genStep_nextType _) (genStep_trans
                      (typeStep_genStep hgot.2.1)
                      (genStep_trans (genStep_nextNode _) h2.2)))⟩
      | lifetimeParam name bounds =>
          have hred : (process_generics
              (.lifetimeParam name bounds :: rest) s).2
              = (process_generics rest ((s.nextNodeId).2)).2 := rfl
          rw [hred]
          have h2 := ih ((s.nextNodeId).2) h
          exact ⟨h2.1, genStep_trans (genStep_nextNode s) h2.2⟩
      | constParam name ty =>
          have hgot := got_spec ty s h
          have hred : (process_generics
              (.constParam name ty :: rest) s).2
              = (process_generics rest
                  (((get_or_create_type ty s).2).nextNodeId).2).2 := rfl
          rw [hred]
          have h2 := ih (((get_or_create_type ty s).2).nextNodeId).2
            hgot.1
          exact ⟨h2.1, genStep_trans (typeStep_genStep hgot.2.1)
            (genStep_trans (genStep_nextNode _) h2.2)⟩

/-! ## Node-id collection -/

/-- All `NodeId`s reachable inside a function node (its own id, its
parameters, its generic parameters). -/
def FunctionNode.nodeIds (f : FunctionNode) : List Nat :=
  f.id :: (f.parameters.map ParameterNode.id
    ++ f.generic_params.map GenericParamNode.id)

/-- All `NodeId`s reachable inside an enum variant. -/
def VariantNode.nodeIds (v : VariantNode) : List Nat :=
  v.id :: v.fields.map FieldNode.id

/-- All `NodeId`s reachable inside a defined-type entry. -/
def TypeDefNode.nodeIds : TypeDefNode → List Nat
  | .Struct sn => sn.id :: (sn.fields.map FieldNode.id
      ++ sn.generic_params.map GenericParamNode.id)
  | .Enum e => e.id :: ((e.variants.map VariantNode.nodeIds).flatten
      ++ e.generic_params.map GenericParamNode.id)
  | .TypeAlias t => t.id :: t.generic_params.map GenericParamNode.id
  | .Union u => u.id :: (u.fields.map FieldNode.id
      ++ u.generic_params.map GenericParamNode.id)

/-- All `NodeId`s reachable inside an impl node. -/
def ImplNode.nodeIds (i : ImplNode) : List Nat :=
  i.id :: ((i.methods.map FunctionNode.nodeIds).flatten
    ++ i.generic_params.map GenericParamNode.id)

/-- All `NodeId`s reachable inside a trait node. -/
def TraitNode.nodeIds (t : TraitNode) : List Nat :=
  t.id :: ((t.methods.map FunctionNode.nodeIds).flatten
    ++ t.generic_params.map GenericParamNode.id)

/-- All `NodeId`s reachable inside a macro node. -/
def MacroNode.nodeIds (m : MacroNode) : List Nat :=
  m.id :: m.rules.map MacroRuleNode.id

/-- Every `NodeId` occurring in any node stored in any collection of the
graph. -/
def nodeIdsOf (g : CodeGraph) : List Nat :=
  (g.functions.map FunctionNode.nodeIds).flatten
  ++ (g.defined_types.map TypeDefNode.nodeIds).flatten
  ++ (g.impls.map ImplNode.nodeIds).flatten
  ++ (g.traits.map TraitNode.nodeIds).flatten
  ++ g.modules.map ModuleNode.id
  ++ g.values.map ValueNode.id
  ++ (g.macros.map MacroNode.nodeIds).flatten

/-- C10: Visiting a non-public struct still allocates the struct id and
one id per field, interns every field type, and appends one `StructField`
relation per field (source: the struct id; targets: the consecutive field
ids) — but pushes no `StructNode` into `defined_types`, so the appended
relations carry a source id that belongs to no node stored anywhere in
the graph. -/
theorem claim_c10_nonpublic_struct_dangling_relations
    (s : VisitorState) (h : StInv s) (st : RsItemStruct)
    (hvis : st.vis ≠ RsVisibility.publicV)
    (hids : ∀ i ∈ nodeIdsOf s.code_graph, i < s.next_node_id) :
    (visit_item_struct st s).code_graph.defined_types
        = s.code_graph.defined_types
    ∧ (visit_item_struct st s).code_graph.relations
        = s.code_graph.relations
          ++ (List.range' (s.next_node_id + 1) st.fields.length).map
              (fun fid => { source := s.next_node_id, target := fid
                            kind := RelationKind.StructField })
    ∧ (∀ f ∈ st.fields,
        lookupTM (visit_item_struct st s).type_map (renderType f.ty)
          ≠ none)
    ∧ s.next_node_id ∉ nodeIdsOf (visit_item_struct st s).code_graph
    ∧ s.next_node_id + 1 + st.fields.length
        ≤ (visit_item_struct st s).next_node_id := by
  obtain ⟨hInv1, ⟨pre1, hmap1⟩, hnode1, hrel1, hf1, hd1, hi1, ht1, hm1,
    hv1, hmac1, hlook1⟩ :=
    visitStructFieldsLoop_spec s.next_node_id st.fields (s.nextNodeId).2
      (h : StInv (s.nextNodeId).2)
  have hspec2 := process_generics_spec st.generics
    (visitStructFieldsLoop s.next_node_id st.fields
      (s.nextNodeId).2).2 hInv1
  have hgen2 := hspec2.2
  obtain ⟨hmono2, hmapg2, hfg, hdg, hig, htg', hrg, hmg, hvg, hmacg⟩ :=
    hspec2.2
  have hred : visit_item_struct st s
      = (if st.vis = RsVisibility.publicV then
          pushDefinedType
            (process_generics st.generics
              (visitStructFieldsLoop s.next_node_id st.fields
                (s.nextNodeId).2).2).2
            (.Struct
              { id := s.next_node_id, name := st.name
                visibility := convert_visibility st.vis
                fields := (visitStructFieldsLoop s.next_node_id st.fields
                  (s.nextNodeId).2).1
                generic_params := (process_generics st.generics
                  (visitStructFieldsLoop s.next_node_id st.fields
                    (s.nextNodeId).2).2).1
                attributes := st.attrs
                docstring := st.docstring })
         else (process_generics st.generics
            (visitStructFieldsLoop s.next_node_id st.fields
              (s.nextNodeId).2).2).2) := rfl
  rw [hred, if_neg hvis]
  have hdt : (process_generics st.generics
      (visitStructFieldsLoop s.next_node_id st.fields
        (s.nextNodeId).2).2).2.code_graph.defined_types
      = s.code_graph.defined_types := by
    rw [hdg, hd1]; exact rfl
  have hrels : (process_generics st.generics
      (visitStructFieldsLoop s.next_node_id st.fields
        (s.nextNodeId).2).2).2.code_graph.relations
      = s.code_graph.relations
        ++ (List.range' (s.next_node_id + 1) st.fields.length).map
            (fun fid => { source := s.next_node_id, target := fid
                          kind := RelationKind.StructField }) := by
    rw [hrg, hrel1]; exact rfl
  refine ⟨hdt, hrels, ?_, ?_, ?_⟩
  · intro f hf
    exact genStep_preserves_lookup hgen2 (hlook1 f hf)
  · have hids' : nodeIdsOf (process_generics st.generics
        (visitStructFieldsLoop s.next_node_id st.fields
          (s.nextNodeId).2).2).2.code_graph
        = nodeIdsOf s.code_graph := by
      unfold nodeIdsOf
      rw [hfg, hdg, hig, htg', hmg, hvg, hmacg, hf1, hd1, hi1, ht1, hm1,
        hv1, hmac1]
      exact rfl
    rw [hids']
    intro hmem
    exact absurd (hids _ hmem) (lt_irrefl _)
  · have : s.next_node_id + 1 + st.fields.length
        ≤ (visitStructFieldsLoop s.next_node_id st.fields
            (s.nextNodeId).2).2.next_node_id := by
      rw [hnode1]
      exact le_of_eq (by exact rfl)
    exact this.trans hmono2

/-- The non-public struct `struct S { a: i32 }` of the C10 witness. -/
def c10WitnessStruct : RsItemStruct :=
  { name := "S", vis := RsVisibility.inheritedV, attrs := []
    docstring := none
    fields := [{ name := some ("a"), vis := RsVisibility.inheritedV
                 attrs := []
                 ty := .pathTy [RsSegment.mk ("i32") []] false }]
    generics := [] }

/-- Witness for C10 at `struct S { a: i32 }` from the fresh state. -/
theorem claim_c10_nonpublic_struct_dangling_relations_witness :
    (visit_item_struct c10WitnessStruct
        VisitorState.new).code_graph.defined_types
        = VisitorState.new.code_graph.defined_types
    ∧ (visit_item_struct c10WitnessStruct
          VisitorState.new).code_graph.relations
        = VisitorState.new.code_graph.relations
          ++ (List.range' (VisitorState.new.next_node_id + 1)
                c10WitnessStruct.fields.length).map
              (fun fid =>
                { source := VisitorState.new.next_node_id, target := fid
                  kind := RelationKind.StructField })
    ∧ (∀ f ∈ c10WitnessStruct.fields,
        lookupTM (visit_item_struct c10WitnessStruct
            VisitorState.new).type_map (renderType f.ty) ≠ none)
    ∧ VisitorState.new.next_node_id
        ∉ nodeIdsOf (visit_item_struct c10WitnessStruct
            VisitorState.new).code_graph
    ∧ VisitorState.new.next_node_id + 1 + c10WitnessStruct.fields.length
        ≤ (visit_item_struct c10WitnessStruct
            VisitorState.new).next_node_id :=
  claim_c10_nonpublic_struct_dangling_relations VisitorState.new
    stInv_new c10WitnessStruct (by decide) (by decide)

/-! ## C7: the private-module visibility override -/

/-- The `Contains` loop of `process_module` only pushes relations; the
module collection is untouched. -/
theorem modContainsLoop_modules (mid : Nat) (items : List RsItem)
    (s : VisitorState) :
    (modContainsLoop mid items s).code_graph.modules
      = s.code_graph.modules := by
  induction items generalizing s with
  | nil => rfl
  | cons it rest ih =>
      cases h : containsTargetId s.code_graph it with
      | none =>
          have hred : modContainsLoop mid (it :: rest) s
              = modContainsLoop mid rest s := by
            simp [modContainsLoop, h]
          rw [hred, ih]
      | some id =>
          have hred : modContainsLoop mid (it :: rest) s
              = modContainsLoop mid rest
                  (pushRelation s
                    { source := mid, target := id
                      kind := RelationKind.Contains }) := by
            simp [modContainsLoop, h]
          rw [hred, ih]
          rfl

/-- C7: The `ModuleNode` produced by `process_module` (always the last
module pushed) carries `Restricted ["super"]` visibility when the module
is literally named "private_module" and its declared token is inherited;
every other module's visibility is `convert_visibility` of its token. -/
theorem claim_c7_private_module_visibility_override
    (name : String) (vis : RsVisibility) (attrs : List ParsedAttribute)
    (doc : Option String) (content : Option (List RsItem))
    (s : VisitorState) :
    ∃ m : ModuleNode,
      (process_module name vis attrs doc content
          s).code_graph.modules.getLast? = some m
      ∧ m.name = name
      ∧ m.visibility =
          (if name = "private_module" ∧ vis = RsVisibility.inheritedV
           then VisibilityKind.Restricted [("super")]
           else convert_visibility vis) := by
  cases content with
  | none =>
      refine ⟨{ id := s.next_node_id + 1, name := name
                visibility :=
                  if name = "private_module"
                      ∧ vis = RsVisibility.inheritedV
                  then VisibilityKind.Restricted [("super")]
                  else convert_visibility vis
                attributes := attrs, docstring := doc
                submodules := [], items := []
                imports := [], exports := [] }, ?_, rfl, rfl⟩
      have h : (process_module name vis attrs doc none
          s).code_graph.modules
          = s.code_graph.modules
            ++ [{ id := s.next_node_id + 1, name := name
                  visibility :=
                    if name = "private_module"
                        ∧ vis = RsVisibility.inheritedV
                    then VisibilityKind.Restricted [("super")]
                    else convert_visibility vis
                  attributes := attrs, docstring := doc
                  submodules := [], items := []
                  imports := [], exports := [] }] := rfl
      rw [h, List.getLast?_concat]
  | some its =>
      refine ⟨{ id := s.next_node_id + 1, name := name
                visibility :=
                  if name = "private_module"
                      ∧ vis = RsVisibility.inheritedV
                  then VisibilityKind.Restricted [("super")]
                  else convert_visibility vis
                attributes := attrs, docstring := doc
                submodules := (modContentLoop its
                  { s with
                    next_node_id := s.next_node_id + 3,
                    next_type_id := s.next_type_id + 2 }).1.2
                items := (modContentLoop its
                  { s with
                    next_node_id := s.next_node_id + 3,
                    next_type_id := s.next_type_id + 2 }).1.1
                imports := [], exports := [] }, ?_, rfl, rfl⟩
      have h : (process_module name vis attrs doc (some its)
          s).code_graph.modules
          = (modContainsLoop (s.next_node_id + 1) its
              (pushModule
                (modContentLoop its
                  { s with
                    next_node_id := s.next_node_id + 3,
                    next_type_id := s.next_type_id + 2 }).2
                { id := s.next_node_id + 1, name := name
                  visibility :=
                    if name = "private_module"
                        ∧ vis = RsVisibility.inheritedV
                    then VisibilityKind.Restricted [("super")]
                    else convert_visibility vis
                  attributes := attrs, docstring := doc
                  submodules := (modContentLoop its
                    { s with
                    next_node_id := s.next_node_id + 3,
                    next_type_id := s.next_type_id + 2 }).1.2
                  items := (modContentLoop its
                    { s with
                    next_node_id := s.next_node_id + 3,
                    next_type_id := s.next_type_id + 2 }).1.1
                  imports := []
                  exports := [] })).code_graph.modules := rfl
      rw [h, modContainsLoop_modules]
      show (_ ++ [_]).getLast? = _
      rw [List.getLast?_concat]

/-! ## C8: determinism of analysis -/

/-- C8: `analyze_code` is a pure function of the input: two analysis runs
over the same parsed file, each starting from a fresh `VisitorState`,
produce identical graphs — the same node, type-table and relation counts
and the same id assignment.  In the embedding this is purity by
construction; the one stateful component of the source, the `HashMap`
interning cache, is only ever read through point lookups (never
iterated), so the source has no other source of nondeterminism. -/
theorem claim_c8_analysis_deterministic (file : List RsItem)
    (s1 s2 : VisitorState) (h1 : s1 = VisitorState.new)
    (h2 : s2 = VisitorState.new) :
    analyzeFrom s1 file = analyzeFrom s2 file
    ∧ (analyzeFrom s1 file).functions.length
        = (analyzeFrom s2 file).functions.length
    ∧ (analyzeFrom s1 file).type_graph.length
        = (analyzeFrom s2 file).type_graph.length
    ∧ (analyzeFrom s1 file).relations.length
        = (analyzeFrom s2 file).relations.length
    ∧ (analyzeFrom s1 file).functions.map FunctionNode.id
        = (analyzeFrom s2 file).functions.map FunctionNode.id
    ∧ (analyzeFrom s1 file).type_graph.map TypeNode.id
        = (analyzeFrom s2 file).type_graph.map TypeNode.id
    ∧ analyzeFrom s1 file = analyze_code file := by
  subst h1 h2
  exact ⟨rfl, rfl, rfl, rfl, rfl, rfl, rfl⟩

/-- Witness for C8 on a one-function file. -/
theorem claim_c8_analysis_deterministic_witness :
    analyzeFrom VisitorState.new
        [RsItem.fnItem
          { name := "f", vis := RsVisibility.publicV, attrs := []
            docstring := none, inputs := [], output := none
            generics := [], body := "" }]
      = analyzeFrom VisitorState.new
        [RsItem.fnItem
          { name := "f", vis := RsVisibility.publicV, attrs := []
            docstring := none, inputs := [], output := none
            generics := [], body := "" }] :=
  (claim_c8_analysis_deterministic
    [RsItem.fnItem
      { name := "f", vis := RsVisibility.publicV, attrs := []
        docstring := none, inputs := [], output := none
        generics := [], body := "" }]
    VisitorState.new VisitorState.new rfl rfl).1

/-! ## C5: the module-containment forest

The development below tracks, across the whole pipeline, (i) the ids of
the nodes that `process_module`'s `Contains` loop can target (functions,
defined types, traits), (ii) the module ids, and (iii) every `Contains`
relation ever pushed.  The key structural facts: the builders other than
`process_module` never push a `Contains` relation; `process_module`'s
`Contains` loop only targets function/defined-type/trait ids (its match
has no `Item::Mod` arm); and the only module-to-module `Contains` edges
are the root-star edges added by the final loop of `analyze_code`. -/

/-- The top-level id of a defined-type entry. -/
def TypeDefNode.topId : TypeDefNode → Nat
  | .Struct sn => sn.id
  | .Enum e => e.id
  | .TypeAlias t => t.id
  | .Union u => u.id

/-- The ids of the module nodes. -/
def modIds (g : CodeGraph) : List Nat := g.modules.map ModuleNode.id

/-- The ids the name-based `Contains` lookup can produce: functions,
defined types, traits. -/
def nonModTargetIds (g : CodeGraph) : List Nat :=
  g.functions.map FunctionNode.id
    ++ g.defined_types.map TypeDefNode.topId
    ++ g.traits.map TraitNode.id

/-- Module ids together with the possible `Contains` target ids. -/
def allIds (g : CodeGraph) : List Nat := modIds g ++ nonModTargetIds g

/-- Pipeline invariant: all tracked ids are below the node counter and
pairwise distinct. -/
def WFn (s : VisitorState) : Prop :=
  (∀ i ∈ allIds s.code_graph, i < s.next_node_id)
  ∧ (allIds s.code_graph).Nodup

/-- Evolution of the node-side state across any builder call: the node
counter is monotone, the invariant is preserved, the four tracked
collections grow by entries whose top-level ids were allocated during the
step, and every appended `Contains` relation targets a
function/defined-type/trait id. -/
def VStep (s s' : VisitorState) : Prop :=
  s.next_node_id ≤ s'.next_node_id
  ∧ (WFn s → WFn s')
  ∧ (∃ d, s'.code_graph.modules = s.code_graph.modules ++ d
      ∧ ∀ m ∈ d, s.next_node_id ≤ m.id ∧ m.id < s'.next_node_id)
  ∧ (∃ d, s'.code_graph.functions = s.code_graph.functions ++ d
      ∧ ∀ f ∈ d, s.next_node_id ≤ f.id ∧ f.id < s'.next_node_id)
  ∧ (∃ d, s'.code_graph.defined_types = s.code_graph.defined_types ++ d
      ∧ ∀ t ∈ d,
          s.next_node_id ≤ t.topId ∧ t.topId < s'.next_node_id)
  ∧ (∃ d, s'.code_graph.traits = s.code_graph.traits ++ d
      ∧ ∀ t ∈ d, s.next_node_id ≤ t.id ∧ t.id < s'.next_node_id)
  ∧ (∃ d, s'.code_graph.relations = s.code_graph.relations ++ d
      ∧ ∀ r ∈ d, r.kind = RelationKind.Contains →
          r.target ∈ nonModTargetIds s'.code_graph)

theorem vstep_refl (s : VisitorState) : VStep s s :=
  ⟨le_rfl, id, ⟨[], by simp⟩, ⟨[], by simp⟩, ⟨[], by simp⟩,
    ⟨[], by simp⟩, ⟨[], by simp, fun r hr => absurd hr (by simp)⟩⟩

theorem nonModTargetIds_mono {g g' : CodeGraph}
    (hf : ∃ d, g'.functions = g.functions ++ d)
    (hd : ∃ d, g'.defined_types = g.defined_types ++ d)
    (ht : ∃ d, g'.traits = g.traits ++ d) :
    ∀ i ∈ nonModTargetIds g, i ∈ nonModTargetIds g' := by
  obtain ⟨df, hdf⟩ := hf
  obtain ⟨dd, hdd⟩ := hd
  obtain ⟨dt, hdt⟩ := ht
  intro i hi
  simp only [nonModTargetIds, List.mem_append, List.mem_map] at hi ⊢
  rw [hdf, hdd, hdt]
  rcases hi with (⟨x, hx, rfl⟩ | ⟨x, hx, rfl⟩) | ⟨x, hx, rfl⟩
  · exact Or.inl (Or.inl ⟨x, by simp [hx]⟩)
  · exact Or.inl (Or.inr ⟨x, by simp [hx]⟩)
  · exact Or.inr ⟨x, by simp [hx]⟩

theorem vstep_trans {s1 s2 s3 : VisitorState} (h1 : VStep s1 s2)
    (h2 : VStep s2 s3) : VStep s1 s3 := by
  obtain ⟨a0, aw, ⟨m1, hm1, hm1b⟩, ⟨f1, hf1, hf1b⟩, ⟨d1, hd1, hd1b⟩,
    ⟨t1, ht1, ht1b⟩, ⟨r1, hr1, hr1b⟩⟩ := h1
  obtain ⟨b0, bw, ⟨m2, hm2, hm2b⟩, ⟨f2, hf2, hf2b⟩, ⟨d2, hd2, hd2b⟩,
    ⟨t2, ht2, ht2b⟩, ⟨r2, hr2, hr2b⟩⟩ := h2
  refine ⟨a0.trans b0, fun hw => bw (aw hw), ?_, ?_, ?_, ?_, ?_⟩
  · refine ⟨m1 ++ m2, by rw [hm2, hm1, List.append_assoc], ?_⟩
    intro m hm
    rcases List.mem_append.mp hm with hm | hm
    · obtain ⟨x, y⟩ := hm1b m hm
      exact ⟨x, y.trans_le b0⟩
    · obtain ⟨x, y⟩ := hm2b m hm
      exact ⟨a0.trans x, y⟩
  · refine ⟨f1 ++ f2, by rw [hf2, hf1, List.append_assoc], ?_⟩
    intro x hx
    rcases List.mem_append.mp hx with hx | hx
    · obtain ⟨u, v⟩ := hf1b x hx
      exact ⟨u, v.trans_le b0⟩
    · obtain ⟨u, v⟩ := hf2b x hx
      exact ⟨a0.trans u, v⟩
  · refine ⟨d1 ++ d2, by rw [hd2, hd1, List.append_assoc], ?_⟩
    intro x hx
    rcases List.mem_append.mp hx with hx | hx
    · obtain ⟨u, v⟩ := hd1b x hx
      exact ⟨u, v.trans_le b0⟩
    · obtain ⟨u, v⟩ := hd2b x hx
      exact ⟨a0.trans u, v⟩
  · refine ⟨t1 ++ t2, by rw [ht2, ht1, List.append_assoc], ?_⟩
    intro x hx
    rcases List.mem_append.mp hx with hx | hx
    · obtain ⟨u, v⟩ := ht1b x hx
      exact ⟨u, v.trans_le b0⟩
    · obtain ⟨u, v⟩ := ht2b x hx
      exact ⟨a0.trans u, v⟩
  · refine ⟨r1 ++ r2, by rw [hr2, hr1, List.append_assoc], ?_⟩
    intro r hr hk
    rcases List.mem_append.mp hr with hr | hr
    · exact nonModTargetIds_mono ⟨f2, hf2⟩ ⟨d2, hd2⟩ ⟨t2, ht2⟩ _
        (hr1b r hr hk)
    · exact hr2b r hr hk

/-- A step that leaves modules, functions, defined types and traits
untouched and only appends non-`Contains` relations. -/
def RelOnlyStep (s s' : VisitorState) : Prop :=
  s.next_node_id ≤ s'.next_node_id
  ∧ s'.code_graph.modules = s.code_graph.modules
  ∧ s'.code_graph.functions = s.code_graph.functions
  ∧ s'.code_graph.defined_types = s.code_graph.defined_types
  ∧ s'.code_graph.traits = s.code_graph.traits
  ∧ (∃ d, s'.code_graph.relations = s.code_graph.relations ++ d
      ∧ ∀ r ∈ d, r.kind ≠ RelationKind.Contains)

theorem relOnlyStep_refl (s : VisitorState) : RelOnlyStep s s :=
  ⟨le_rfl, rfl, rfl, rfl, rfl, ⟨[], by simp⟩⟩

theorem relOnlyStep_trans {s1 s2 s3 : VisitorState}
    (h1 : RelOnlyStep s1 s2) (h2 : RelOnlyStep s2 s3) :
    RelOnlyStep s1 s3 := by
  obtain ⟨a0, a1, a2, a3, a4, ⟨d1, e1, f1⟩⟩ := h1
  obtain ⟨b0, b1, b2, b3, b4, ⟨d2, e2, f2⟩⟩ := h2
  refine ⟨a0.trans b0, b1.trans a1, b2.trans a2, b3.trans a3,
    b4.trans a4, ⟨d1 ++ d2, by rw [e2, e1, List.append_assoc], ?_⟩⟩
  intro r hr
  rcases List.mem_append.mp hr with hr | hr
  · exact f1 r hr
  · exact f2 r hr

theorem relOnlyStep_wfn {s s' : VisitorState} (h : RelOnlyStep s s') :
    WFn s → WFn s' := by
  intro ⟨hb, hn⟩
  have heq : allIds s'.code_graph = allIds s.code_graph := by
    unfold allIds modIds nonModTargetIds
    rw [h.2.1, h.2.2.1, h.2.2.2.1, h.2.2.2.2.1]
  rw [WFn, heq]
  exact ⟨fun i hi => (hb i hi).trans_le h.1, hn⟩

theorem relOnlyStep_vstep {s s' : VisitorState} (h : RelOnlyStep s s') :
    VStep s s' := by
  obtain ⟨h0, h1, h2, h3, h4, ⟨d, e, f⟩⟩ := h
  exact ⟨h0, relOnlyStep_wfn ⟨h0, h1, h2, h3, h4, ⟨d, e, f⟩⟩,
    ⟨[], by rw [h1]; simp, by simp⟩, ⟨[], by rw [h2]; simp, by simp⟩,
    ⟨[], by rw [h3]; simp, by simp⟩, ⟨[], by rw [h4]; simp, by simp⟩,
    ⟨d, e, fun r hr hk => absurd hk (f r hr)⟩⟩

theorem genStep_relOnlyStep {s s' : VisitorState} (h : GenStep s s') :
    RelOnlyStep s s' :=
  ⟨h.1, h.2.2.2.2.2.2.2.1, h.2.2.1, h.2.2.2.1, h.2.2.2.2.2.1,
    ⟨[], by rw [h.2.2.2.2.2.2.1]; simp⟩⟩

theorem typeStep_relOnlyStep {s s' : VisitorState} (h : TypeStep s s') :
    RelOnlyStep s s' :=
  genStep_relOnlyStep (typeStep_genStep h)

theorem nextNode_relOnlyStep (s : VisitorState) :
    RelOnlyStep s (s.nextNodeId).2 :=
  ⟨Nat.le_succ _, rfl, rfl, rfl, rfl, ⟨[], by simp [VisitorState.nextNodeId]⟩⟩

theorem pushRelation_relOnlyStep (s : VisitorState) (r : Relation)
    (hk : r.kind ≠ RelationKind.Contains) :
    RelOnlyStep s (pushRelation s r) :=
  ⟨le_rfl, rfl, rfl, rfl, rfl,
    ⟨[r], rfl, fun r' hr' => by
      rw [List.mem_singleton] at hr'
      rw [hr']
      exact hk⟩⟩

theorem pushMacro_relOnlyStep (s : VisitorState) (m : MacroNode) :
    RelOnlyStep s (pushMacro s m) :=
  ⟨le_rfl, rfl, rfl, rfl, rfl, ⟨[], by simp [pushMacro]⟩⟩

theorem pushImpl_relOnlyStep (s : VisitorState) (i : ImplNode) :
    RelOnlyStep s (pushImpl s i) :=
  ⟨le_rfl, rfl, rfl, rfl, rfl, ⟨[], by simp [pushImpl]⟩⟩

theorem pushTypeNode_relOnlyStep (s : VisitorState) (tn : TypeNode) :
    RelOnlyStep s (pushTypeNode s tn) :=
  ⟨le_rfl, rfl, rfl, rfl, rfl, ⟨[], by simp [pushTypeNode]⟩⟩

/-- A node-counter bump leaves the type side definitionally untouched. -/
theorem stInv_nextNodeId {s : VisitorState} (h : StInv s) :
    StInv (s.nextNodeId).2 := h

/-- Transport of the type-side invariants along type-side equalities. -/
theorem stInv_congr {s s' : VisitorState} (hm : s'.type_map = s.type_map)
    (hn : s'.next_type_id = s.next_type_id)
    (hg : s'.code_graph.type_graph = s.code_graph.type_graph)
    (h : StInv s) : StInv s' := by
  obtain ⟨hb, hi, htb, htn⟩ := h
  refine ⟨?_, ?_, ?_, ?_⟩
  · intro k i hl
    rw [hm] at hl
    rw [hn]
    exact hb k i hl
  · intro k1 k2 i h1 h2
    rw [hm] at h1 h2
    exact hi k1 k2 i h1 h2
  · intro tn htn'
    rw [hg] at htn'
    rw [hn]
    exact htb tn htn'
  · unfold TGNodup
    rw [hg]
    exact htn

theorem relOnlyStep_allIds {s s' : VisitorState} (h : RelOnlyStep s s') :
    allIds s'.code_graph = allIds s.code_graph := by
  unfold allIds modIds nonModTargetIds
  rw [h.2.1, h.2.2.1, h.2.2.2.1, h.2.2.2.2.1]

/-- Adding one fresh tracked id preserves the node-id invariant. -/
theorem wfn_push_fresh {sf sg : VisitorState}
    (hnext : sf.next_node_id ≤ sg.next_node_id) (i : Nat)
    (hperm : List.Perm (allIds sg.code_graph)
      (allIds sf.code_graph ++ [i]))
    (hlt : i < sg.next_node_id)
    (hfresh : i ∉ allIds sf.code_graph) :
    WFn sf → WFn sg := by
  intro ⟨hb, hn⟩
  constructor
  · intro x hx
    rcases List.mem_append.mp (hperm.mem_iff.mp hx) with hx | hx
    · exact (hb x hx).trans_le hnext
    · rw [List.mem_singleton] at hx
      rw [hx]
      exact hlt
  · refine hperm.symm.nodup ?_
    rw [List.nodup_append]
    refine ⟨hn, by simp, ?_⟩
    intro a ha hb'
    rw [List.mem_singleton] at hb'
    rw [hb'] at ha
    exact hfresh ha

/-! ### The parameter loop -/

theorem process_fn_arg_spec (arg : RsFnArg) (s : VisitorState)
    (h : StInv s) :
    StInv (process_fn_arg arg s).2
    ∧ RelOnlyStep s (process_fn_arg arg s).2 := by
  cases arg with
  | typed pat ty =>
      have hg := got_spec ty s h
      have hred : (process_fn_arg (.typed pat ty) s).2
          = (((get_or_create_type ty s).2).nextNodeId).2 := by
        cases pat <;> rfl
      rw [hred]
      exact ⟨stInv_nextNodeId hg.1,
        relOnlyStep_trans (typeStep_relOnlyStep hg.2.1)
          (nextNode_relOnlyStep _)⟩
  | receiver m ty =>
      have h1 : StInv (s.nextTypeId).2 := stInv_nextTypeId h
      obtain ⟨hInv2, hstep2, hlt2⟩ := got_spec ty (s.nextTypeId).2 h1
      obtain ⟨hmono2, hmap2, ⟨post, hpost, hlow⟩, hto2⟩ := hstep2
      have hred : (process_fn_arg (.receiver m ty) s).2
          = ((pushTypeNode (get_or_create_type ty (s.nextTypeId).2).2
              { id := s.next_type_id
                kind := .named [("Self")] false
                related_types := [(get_or_create_type ty
                  (s.nextTypeId).2).1] }).nextNodeId).2 := rfl
      rw [hred]
      have hx : (s.nextTypeId).2.next_type_id = s.next_type_id + 1 := rfl
      refine ⟨?_, ?_⟩
      · obtain ⟨hb2, hi2, htb2, htn2⟩ := hInv2
        refine ⟨hb2, hi2, ?_, ?_⟩
        · intro tn hm
          rcases List.mem_append.mp hm with hm | hm
          · exact htb2 tn hm
          · rw [List.mem_singleton] at hm
            rw [hm]
            show s.next_type_id
              < (get_or_create_type ty (s.nextTypeId).2).2.next_type_id
            omega
        · show (((get_or_create_type ty
                (s.nextTypeId).2).2.code_graph.type_graph
            ++ [({ id := s.next_type_id
                   kind := .named [("Self")] false
                   related_types := [(get_or_create_type ty
                     (s.nextTypeId).2).1] } : TypeNode)]).map
              TypeNode.id).Nodup
          rw [List.map_append, List.nodup_append]
          refine ⟨htn2, by simp, ?_⟩
          intro a ha hb'
          simp only [List.map_cons, List.map_nil,
            List.mem_singleton] at hb'
          simp only [List.mem_map] at ha
          obtain ⟨tn, htn', rfl⟩ := ha
          rw [hpost] at htn'
          rcases List.mem_append.mp htn' with hm | hm
          · have hlt' := h.2.2.1 tn hm
            omega
          · have hge' := hlow tn hm
            omega
      · exact relOnlyStep_trans
          (genStep_relOnlyStep (genStep_nextType s))
          (relOnlyStep_trans
            (typeStep_relOnlyStep
              ⟨hmono2, hmap2, ⟨post, hpost, hlow⟩, hto2⟩)
            (relOnlyStep_trans (pushTypeNode_relOnlyStep _ _)
              (nextNode_relOnlyStep _)))

theorem visitFnArgsLoop_spec (fn_id : Nat) (args : List RsFnArg)
    (s : VisitorState) (h : StInv s) :
    StInv (visitFnArgsLoop fn_id args s).2
    ∧ RelOnlyStep s (visitFnArgsLoop fn_id args s).2 := by
  induction args generalizing s with
  | nil => exact ⟨h, relOnlyStep_refl s⟩
  | cons a rest ih =>
      obtain ⟨hInv1, hstep1⟩ := process_fn_arg_spec a s h
      rcases hpa : process_fn_arg a s with ⟨p, s1⟩
      rw [hpa] at hInv1 hstep1
      cases p with
      | some param =>
          have hred : visitFnArgsLoop fn_id (a :: rest) s
              = (param :: (visitFnArgsLoop fn_id rest
                    (pushRelation s1
                      { source := fn_id, target := param.id
                        kind := .FunctionParameter })).1,
                 (visitFnArgsLoop fn_id rest
                    (pushRelation s1
                      { source := fn_id, target := param.id
                        kind := .FunctionParameter })).2) := by
            simp only [visitFnArgsLoop, hpa]
          rw [hred]
          have hInvP : StInv (pushRelation s1
              { source := fn_id, target := param.id
                kind := .FunctionParameter }) := hInv1
          have hrest := ih (pushRelation s1
            { source := fn_id, target := param.id
              kind := .FunctionParameter }) hInvP
          exact ⟨hrest.1,
            relOnlyStep_trans hstep1
              (relOnlyStep_trans
                (pushRelation_relOnlyStep s1
                  { source := fn_id, target := param.id
                    kind := .FunctionParameter }
                  (by intro hc; cases hc)) hrest.2)⟩
      | none =>
          have hred : visitFnArgsLoop fn_id (a :: rest) s
              = visitFnArgsLoop fn_id rest s1 := by
            simp only [visitFnArgsLoop, hpa]
          rw [hred]
          have hrest := ih s1 hInv1
          exact ⟨hrest.1, relOnlyStep_trans hstep1 hrest.2⟩

/-! ### The method, supertrait and inheritance loops -/

theorem visitImplMethodsLoop_spec (methods : List RsImplItemFn)
    (s : VisitorState) (h : StInv s) :
    StInv (visitImplMethodsLoop methods s).2
    ∧ RelOnlyStep s (visitImplMethodsLoop methods s).2 := by
  induction methods generalizing s with
  | nil => exact ⟨h, relOnlyStep_refl s⟩
  | cons m rest ih =>
      have h0 : StInv (s.nextNodeId).2 := h
      obtain ⟨hInv1, hstep1⟩ :=
        visitFnArgsLoop_spec (s.nextNodeId).1 m.inputs (s.nextNodeId).2 h0
      cases ho : m.output with
      | none =>
          have hred : (visitImplMethodsLoop (m :: rest) s).2
              = (visitImplMethodsLoop rest
                  (process_generics m.generics
                    (visitFnArgsLoop (s.nextNodeId).1 m.inputs
                      (s.nextNodeId).2).2).2).2 := by
            simp only [visitImplMethodsLoop, ho]
          rw [hred]
          obtain ⟨hInv3, hgen3⟩ := process_generics_spec m.generics
            (visitFnArgsLoop (s.nextNodeId).1 m.inputs
              (s.nextNodeId).2).2 hInv1
          obtain ⟨hInv4, hrest⟩ := ih (process_generics m.generics
            (visitFnArgsLoop (s.nextNodeId).1 m.inputs
              (s.nextNodeId).2).2).2 hInv3
          exact ⟨hInv4,
            relOnlyStep_trans (nextNode_relOnlyStep s)
              (relOnlyStep_trans hstep1
                (relOnlyStep_trans (genStep_relOnlyStep hgen3) hrest))⟩
      | some ty =>
          obtain ⟨hInv2, hty2, -⟩ := got_spec ty
            (visitFnArgsLoop (s.nextNodeId).1 m.inputs
              (s.nextNodeId).2).2 hInv1
          have hred : (visitImplMethodsLoop (m :: rest) s).2
              = (visitImplMethodsLoop rest
                  (process_generics m.generics
                    (pushRelation
                      (get_or_create_type ty
                        (visitFnArgsLoop (s.nextNodeId).1 m.inputs
                          (s.nextNodeId).2).2).2
                      { source := (s.nextNodeId).1
                        target := (get_or_create_type ty
                          (visitFnArgsLoop (s.nextNodeId).1 m.inputs
                            (s.nextNodeId).2).2).1
                        kind := .FunctionReturn })).2).2 := by
            simp only [visitImplMethodsLoop, ho]
          rw [hred]
          have hInvP : StInv (pushRelation
              (get_or_create_type ty
                (visitFnArgsLoop (s.nextNodeId).1 m.inputs
                  (s.nextNodeId).2).2).2
              { source := (s.nextNodeId).1
                target := (get_or_create_type ty
                  (visitFnArgsLoop (s.nextNodeId).1 m.inputs
                    (s.nextNodeId).2).2).1
                kind := .FunctionReturn }) := hInv2
          obtain ⟨hInv3, hgen3⟩ := process_generics_spec m.generics _
            hInvP
          obtain ⟨hInv4, hrest⟩ := ih _ hInv3
          exact ⟨hInv4,
            relOnlyStep_trans (nextNode_relOnlyStep s)
              (relOnlyStep_trans hstep1
                (relOnlyStep_trans (typeStep_relOnlyStep hty2)
                  (relOnlyStep_trans
                    (pushRelation_relOnlyStep _ _
                      (by intro hc; cases hc))
                    (relOnlyStep_trans (genStep_relOnlyStep hgen3)
                      hrest))))⟩

theorem visitTraitMethodsLoop_spec (methods : List RsTraitItemFn)
    (s : VisitorState) (h : StInv s) :
    StInv (visitTraitMethodsLoop methods s).2
    ∧ RelOnlyStep s (visitTraitMethodsLoop methods s).2 := by
  induction methods generalizing s with
  | nil => exact ⟨h, relOnlyStep_refl s⟩
  | cons m rest ih =>
      have h0 : StInv (s.nextNodeId).2 := h
      obtain ⟨hInv1, hstep1⟩ :=
        visitFnArgsLoop_spec (s.nextNodeId).1 m.inputs (s.nextNodeId).2 h0
      cases ho : m.output with
      | none =>
          have hred : (visitTraitMethodsLoop (m :: rest) s).2
              = (visitTraitMethodsLoop rest
                  (process_generics m.generics
                    (visitFnArgsLoop (s.nextNodeId).1 m.inputs
                      (s.nextNodeId).2).2).2).2 := by
            simp only [visitTraitMethodsLoop, ho]
          rw [hred]
          obtain ⟨hInv3, hgen3⟩ := process_generics_spec m.generics
            (visitFnArgsLoop (s.nextNodeId).1 m.inputs
              (s.nextNodeId).2).2 hInv1
          obtain ⟨hInv4, hrest⟩ := ih (process_generics m.generics
            (visitFnArgsLoop (s.nextNodeId).1 m.inputs
              (s.nextNodeId).2).2).2 hInv3
          exact ⟨hInv4,
            relOnlyStep_trans (nextNode_relOnlyStep s)
              (relOnlyStep_trans hstep1
                (relOnlyStep_trans (genStep_relOnlyStep hgen3) hrest))⟩
      | some ty =>
          obtain ⟨hInv2, hty2, -⟩ := got_spec ty
            (visitFnArgsLoop (s.nextNodeId).1 m.inputs
              (s.nextNodeId).2).2 hInv1
          have hred : (visitTraitMethodsLoop (m :: rest) s).2
              = (visitTraitMethodsLoop rest
                  (process_generics m.generics
                    (pushRelation
                      (get_or_create_type ty
                        (visitFnArgsLoop (s.nextNodeId).1 m.inputs
                          (s.nextNodeId).2).2).2
                      { source := (s.nextNodeId).1
                        target := (get_or_create_type ty
                          (visitFnArgsLoop (s.nextNodeId).1 m.inputs
                            (s.nextNodeId).2).2).1
                        kind := .FunctionReturn })).2).2 := by
            simp only [visitTraitMethodsLoop, ho]
          rw [hred]
          have hInvP : StInv (pushRelation
              (get_or_create_type ty
                (visitFnArgsLoop (s.nextNodeId).1 m.inputs
                  (s.nextNodeId).2).2).2
              { source := (s.nextNodeId).1
                target := (get_or_create_type ty
                  (visitFnArgsLoop (s.nextNodeId).1 m.inputs
                    (s.nextNodeId).2).2).1
                kind := .FunctionReturn }) := hInv2
          obtain ⟨hInv3, hgen3⟩ := process_generics_spec m.generics _
            hInvP
          obtain ⟨hInv4, hrest⟩ := ih _ hInv3
          exact ⟨hInv4,
            relOnlyStep_trans (nextNode_relOnlyStep s)
              (relOnlyStep_trans hstep1
                (relOnlyStep_trans (typeStep_relOnlyStep hty2)
                  (relOnlyStep_trans
                    (pushRelation_relOnlyStep _ _
                      (by intro hc; cases hc))
                    (relOnlyStep_trans (genStep_relOnlyStep hgen3)
                      hrest))))⟩

theorem visitSupertraitsLoop_spec (bounds : List RsTypeParamBound)
    (s : VisitorState) (h : StInv s) :
    StInv (visitSupertraitsLoop bounds s).2
    ∧ RelOnlyStep s (visitSupertraitsLoop bounds s).2 := by
  induction bounds generalizing s with
  | nil => exact ⟨h, relOnlyStep_refl s⟩
  | cons b rest ih =>
      have hg := got_spec (.traitObjTy false [b]) s h
      have hred : (visitSupertraitsLoop (b :: rest) s).2
          = (visitSupertraitsLoop rest
              (get_or_create_type (.traitObjTy false [b]) s).2).2 := rfl
      rw [hred]
      obtain ⟨hI, hR⟩ :=
        ih (get_or_create_type (.traitObjTy false [b]) s).2 hg.1
      exact ⟨hI, relOnlyStep_trans (typeStep_relOnlyStep hg.2.1) hR⟩

theorem pushInheritsLoop_spec (trait_id : Nat) (ids : List Nat)
    (s : VisitorState) (h : StInv s) :
    StInv (pushInheritsLoop trait_id ids s)
    ∧ RelOnlyStep s (pushInheritsLoop trait_id ids s) := by
  induction ids generalizing s with
  | nil => exact ⟨h, relOnlyStep_refl s⟩
  | cons i rest ih =>
      have h1 : StInv (pushRelation s
          { source := trait_id, target := i, kind := .Inherits }) := h
      obtain ⟨hI, hR⟩ := ih (pushRelation s
        { source := trait_id, target := i, kind := .Inherits }) h1
      exact ⟨hI, relOnlyStep_trans
        (pushRelation_relOnlyStep s
          { source := trait_id, target := i, kind := .Inherits }
          (by intro hc; cases hc)) hR⟩

/-! ### The `Contains` loop of `process_module` -/

/-- Whatever id the name-based lookup of the `Contains` loop produces is
the id of a function, defined type, or trait already in the graph. -/
theorem containsTargetId_mem {g : CodeGraph} {it : RsItem} {i : Nat}
    (h : containsTargetId g it = some i) : i ∈ nonModTargetIds g := by
  cases it with
  | fnItem f =>
      simp only [containsTargetId] at h
      cases hf : g.functions.find? (fun fn => fn.name == f.name) with
      | none => rw [hf] at h; exact Option.noConfusion h
      | some fn =>
          rw [hf] at h
          have hi : fn.id = i := Option.some.inj h
          have hmem := List.mem_of_find?_eq_some hf
          simp only [nonModTargetIds, List.mem_append, List.mem_map]
          exact Or.inl (Or.inl ⟨fn, hmem, hi⟩)
  | structItem st =>
      simp only [containsTargetId] at h
      cases hf : g.defined_types.find?
          (fun d => match d with
            | .Struct sn => sn.name == st.name
            | _ => false) with
      | none => rw [hf] at h; exact Option.noConfusion h
      | some d =>
          rw [hf] at h
          have hp := List.find?_some hf
          have hmem := List.mem_of_find?_eq_some hf
          cases d with
          | Struct sn =>
              have hi : sn.id = i := Option.some.inj h
              simp only [nonModTargetIds, List.mem_append, List.mem_map]
              exact Or.inl (Or.inr ⟨.Struct sn, hmem, hi⟩)
          | Enum e => simp at hp
          | TypeAlias t => simp at hp
          | Union u => simp at hp
  | traitItem t =>
      simp only [containsTargetId] at h
      cases hf : g.traits.find? (fun tn => tn.name == t.name) with
      | none => rw [hf] at h; exact Option.noConfusion h
      | some tn =>
          rw [hf] at h
          have hi : tn.id = i := Option.some.inj h
          have hmem := List.mem_of_find?_eq_some hf
          simp only [nonModTargetIds, List.mem_append, List.mem_map]
          exact Or.inr ⟨tn, hmem, hi⟩
  | implItem im => exact Option.noConfusion h
  | modItem name vis attrs doc content => exact Option.noConfusion h

/-- The `Contains` loop only appends relations: every appended relation
has kind `Contains`, source `mid`, and a target id found among the
functions/defined types/traits; counters, cache and all collections are
untouched. -/
theorem modContainsLoop_spec (mid : Nat) (items : List RsItem)
    (s : VisitorState) :
    (modContainsLoop mid items s).next_node_id = s.next_node_id
    ∧ (modContainsLoop mid items s).next_type_id = s.next_type_id
    ∧ (modContainsLoop mid items s).type_map = s.type_map
    ∧ (modContainsLoop mid items s).code_graph.type_graph
        = s.code_graph.type_graph
    ∧ (modContainsLoop mid items s).code_graph.modules
        = s.code_graph.modules
    ∧ (modContainsLoop mid items s).code_graph.functions
        = s.code_graph.functions
    ∧ (modContainsLoop mid items s).code_graph.defined_types
        = s.code_graph.defined_types
    ∧ (modContainsLoop mid items s).code_graph.traits
        = s.code_graph.traits
    ∧ (∃ d, (modContainsLoop mid items s).code_graph.relations
          = s.code_graph.relations ++ d
        ∧ ∀ r ∈ d, r.kind = RelationKind.Contains
            ∧ r.target ∈ nonModTargetIds s.code_graph
            ∧ r.source = mid) := by
  induction items generalizing s with
  | nil =>
      exact ⟨rfl, rfl, rfl, rfl, rfl, rfl, rfl, rfl,
        ⟨[], by simp [modContainsLoop], by simp⟩⟩
  | cons it rest ih =>
      cases hc : containsTargetId s.code_graph it with
      | none =>
          have hred : modContainsLoop mid (it :: rest) s
              = modContainsLoop mid rest s := by
            simp only [modContainsLoop, hc]
          rw [hred]
          exact ih s
      | some i =>
          have hred : modContainsLoop mid (it :: rest) s
              = modContainsLoop mid rest
                  (pushRelation s
                    { source := mid, target := i, kind := .Contains }) := by
            simp only [modContainsLoop, hc]
          rw [hred]
          obtain ⟨e1, e2, e3, e4, e5, e6, e7, e8, ⟨d, hdrel, hdprop⟩⟩ :=
            ih (pushRelation s
              { source := mid, target := i, kind := .Contains })
          refine ⟨e1, e2, e3, e4, e5, e6, e7, e8,
            ⟨{ source := mid, target := i, kind := .Contains } :: d,
              ?_, ?_⟩⟩
          · rw [hdrel]
            show (s.code_graph.relations
                ++ [{ source := mid, target := i, kind := .Contains }])
              ++ d = _
            rw [List.append_assoc]
            rfl
          · intro r hr
            rcases List.mem_cons.mp hr with rfl | hr
            · exact ⟨rfl, containsTargetId_mem hc, rfl⟩
            · have hx := hdprop r hr
              exact ⟨hx.1, hx.2.1, hx.2.2⟩

/-! ### Assembling a builder step: collection-preserving prefix plus one
tracked push -/

theorem vstep_relOnly_pushFunction {s smid : VisitorState}
    (h : RelOnlyStep s smid) (fnode : FunctionNode)
    (hge : s.next_node_id ≤ fnode.id)
    (hlt : fnode.id < smid.next_node_id) :
    VStep s (pushFunction smid fnode) := by
  obtain ⟨h0, h1, h2, h3, h4, ⟨d, e, hnc⟩⟩ := h
  have hperm : List.Perm (allIds (pushFunction smid fnode).code_graph)
      (allIds s.code_graph ++ [fnode.id]) := by
    have hfns : (pushFunction smid fnode).code_graph.functions
        = s.code_graph.functions ++ [fnode] := by
      show smid.code_graph.functions ++ [fnode] = _
      rw [h2]
    unfold allIds modIds nonModTargetIds
    rw [show (pushFunction smid fnode).code_graph.modules
        = s.code_graph.modules from h1, hfns,
      show (pushFunction smid fnode).code_graph.defined_types
        = s.code_graph.defined_types from h3,
      show (pushFunction smid fnode).code_graph.traits
        = s.code_graph.traits from h4, List.map_append]
    rw [List.perm_iff_count]
    intro x
    simp only [List.count_append, List.map_cons, List.map_nil]
    omega
  refine ⟨h0, ?_, ⟨[], by simp [pushFunction, h1], by simp⟩,
    ⟨[fnode], by simp [pushFunction, h2], ?_⟩,
    ⟨[], by simp [pushFunction, h3], by simp⟩,
    ⟨[], by simp [pushFunction, h4], by simp⟩,
    ⟨d, e, fun r hr hk => absurd hk (hnc r hr)⟩⟩
  · intro hw
    refine wfn_push_fresh h0 fnode.id hperm hlt ?_ hw
    intro hmem
    have := hw.1 fnode.id hmem
    omega
  · intro x hx
    rw [List.mem_singleton] at hx
    rw [hx]
    exact ⟨hge, hlt⟩

theorem vstep_relOnly_pushTrait {s smid : VisitorState}
    (h : RelOnlyStep s smid) (tnode : TraitNode)
    (hge : s.next_node_id ≤ tnode.id)
    (hlt : tnode.id < smid.next_node_id) :
    VStep s (pushTrait smid tnode) := by
  obtain ⟨h0, h1, h2, h3, h4, ⟨d, e, hnc⟩⟩ := h
  have hperm : List.Perm (allIds (pushTrait smid tnode).code_graph)
      (allIds s.code_graph ++ [tnode.id]) := by
    have htrs : (pushTrait smid tnode).code_graph.traits
        = s.code_graph.traits ++ [tnode] := by
      show smid.code_graph.traits ++ [tnode] = _
      rw [h4]
    unfold allIds modIds nonModTargetIds
    rw [show (pushTrait smid tnode).code_graph.modules
        = s.code_graph.modules from h1,
      show (pushTrait smid tnode).code_graph.functions
        = s.code_graph.functions from h2,
      show (pushTrait smid tnode).code_graph.defined_types
        = s.code_graph.defined_types from h3, htrs, List.map_append]
    rw [List.perm_iff_count]
    intro x
    simp only [List.count_append, List.map_cons, List.map_nil]
    omega
  refine ⟨h0, ?_, ⟨[], by simp [pushTrait, h1], by simp⟩,
    ⟨[], by simp [pushTrait, h2], by simp⟩,
    ⟨[], by simp [pushTrait, h3], by simp⟩,
    ⟨[tnode], by simp [pushTrait, h4], ?_⟩,
    ⟨d, e, fun r hr hk => absurd hk (hnc r hr)⟩⟩
  · intro hw
    refine wfn_push_fresh h0 tnode.id hperm hlt ?_ hw
    intro hmem
    have := hw.1 tnode.id hmem
    omega
  · intro x hx
    rw [List.mem_singleton] at hx
    rw [hx]
    exact ⟨hge, hlt⟩

theorem vstep_relOnly_pushDefinedType {s smid : VisitorState}
    (h : RelOnlyStep s smid) (dnode : TypeDefNode)
    (hge : s.next_node_id ≤ dnode.topId)
    (hlt : dnode.topId < smid.next_node_id) :
    VStep s (pushDefinedType smid dnode) := by
  obtain ⟨h0, h1, h2, h3, h4, ⟨d, e, hnc⟩⟩ := h
  have hperm : List.Perm
      (allIds (pushDefinedType smid dnode).code_graph)
      (allIds s.code_graph ++ [dnode.topId]) := by
    have hdts : (pushDefinedType smid dnode).code_graph.defined_types
        = s.code_graph.defined_types ++ [dnode] := by
      show smid.code_graph.defined_types ++ [dnode] = _
      rw [h3]
    unfold allIds modIds nonModTargetIds
    rw [show (pushDefinedType smid dnode).code_graph.modules
        = s.code_graph.modules from h1,
      show (pushDefinedType smid dnode).code_graph.functions
        = s.code_graph.functions from h2, hdts,
      show (pushDefinedType smid dnode).code_graph.traits
        = s.code_graph.traits from h4, List.map_append]
    rw [List.perm_iff_count]
    intro x
    simp only [List.count_append, List.map_cons, List.map_nil]
    omega
  refine ⟨h0, ?_, ⟨[], by simp [pushDefinedType, h1], by simp⟩,
    ⟨[], by simp [pushDefinedType, h2], by simp⟩,
    ⟨[dnode], by simp [pushDefinedType, h3], ?_⟩,
    ⟨[], by simp [pushDefinedType, h4], by simp⟩,
    ⟨d, e, fun r hr hk => absurd hk (hnc r hr)⟩⟩
  · intro hw
    refine wfn_push_fresh h0 dnode.topId hperm hlt ?_ hw
    intro hmem
    have := hw.1 dnode.topId hmem
    omega
  · intro x hx
    rw [List.mem_singleton] at hx
    rw [hx]
    exact ⟨hge, hlt⟩

theorem vstep_relOnly_pushModule {s smid : VisitorState}
    (h : RelOnlyStep s smid) (mnode : ModuleNode)
    (hge : s.next_node_id ≤ mnode.id)
    (hlt : mnode.id < smid.next_node_id) :
    VStep s (pushModule smid mnode) := by
  obtain ⟨h0, h1, h2, h3, h4, ⟨d, e, hnc⟩⟩ := h
  have hperm : List.Perm (allIds (pushModule smid mnode).code_graph)
      (allIds s.code_graph ++ [mnode.id]) := by
    have hmods : (pushModule smid mnode).code_graph.modules
        = s.code_graph.modules ++ [mnode] := by
      show smid.code_graph.modules ++ [mnode] = _
      rw [h1]
    unfold allIds modIds nonModTargetIds
    rw [hmods,
      show (pushModule smid mnode).code_graph.functions
        = s.code_graph.functions from h2,
      show (pushModule smid mnode).code_graph.defined_types
        = s.code_graph.defined_types from h3,
      show (pushModule smid mnode).code_graph.traits
        = s.code_graph.traits from h4, List.map_append]
    rw [List.perm_iff_count]
    intro x
    simp only [List.count_append, List.map_cons, List.map_nil]
    omega
  refine ⟨h0, ?_, ⟨[mnode], by simp [pushModule, h1], ?_⟩,
    ⟨[], by simp [pushModule, h2], by simp⟩,
    ⟨[], by simp [pushModule, h3], by simp⟩,
    ⟨[], by simp [pushModule, h4], by simp⟩,
    ⟨d, e, fun r hr hk => absurd hk (hnc r hr)⟩⟩
  · intro hw
    refine wfn_push_fresh h0 mnode.id hperm hlt ?_ hw
    intro hmem
    have := hw.1 mnode.id hmem
    omega
  · intro x hx
    rw [List.mem_singleton] at hx
    rw [hx]
    exact ⟨hge, hlt⟩

/-! ### The item builders preserve the invariant and satisfy `VStep` -/

theorem visit_item_fn_cstep (f : RsItemFn) (s : VisitorState)
    (h : StInv s) :
    StInv (visit_item_fn f s) ∧ VStep s (visit_item_fn f s) := by
  cases hb : (f.attrs.any fun a =>
      a.name == "proc_macro" || a.name == "proc_macro_derive"
        || a.name == "proc_macro_attribute") with
  | false =>
      cases ho : f.output with
      | none =>
          simp only [visit_item_fn, hb, ho, Bool.false_eq_true,
            if_false]
          have hInv0 : StInv (s.nextNodeId).2 := h
          obtain ⟨hInv1, hArgs⟩ := visitFnArgsLoop_spec (s.nextNodeId).1
            f.inputs (s.nextNodeId).2 hInv0
          obtain ⟨hInv3, hGen⟩ := process_generics_spec f.generics
            (visitFnArgsLoop (s.nextNodeId).1 f.inputs
              (s.nextNodeId).2).2 hInv1
          have hRel13 : RelOnlyStep (s.nextNodeId).2
              (process_generics f.generics
                (visitFnArgsLoop (s.nextNodeId).1 f.inputs
                  (s.nextNodeId).2).2).2 :=
            relOnlyStep_trans hArgs (genStep_relOnlyStep hGen)
          have hRel : RelOnlyStep s
              (process_generics f.generics
                (visitFnArgsLoop (s.nextNodeId).1 f.inputs
                  (s.nextNodeId).2).2).2 :=
            relOnlyStep_trans (nextNode_relOnlyStep s) hRel13
          refine ⟨hInv3, vstep_relOnly_pushFunction hRel _ ?_ ?_⟩
          · exact Nat.le_refl _
          · show s.next_node_id
              < (process_generics f.generics
                  (visitFnArgsLoop (s.nextNodeId).1 f.inputs
                    (s.nextNodeId).2).2).2.next_node_id
            have h13 := hRel13.1
            have hstep : (s.nextNodeId).2.next_node_id
                = s.next_node_id + 1 := rfl
            omega
      | some ty =>
          simp only [visit_item_fn, hb, ho, Bool.false_eq_true,
            if_false]
          have hInv0 : StInv (s.nextNodeId).2 := h
          obtain ⟨hInv1, hArgs⟩ := visitFnArgsLoop_spec (s.nextNodeId).1
            f.inputs (s.nextNodeId).2 hInv0
          obtain ⟨hInv2, hty2, -⟩ := got_spec ty
            (visitFnArgsLoop (s.nextNodeId).1 f.inputs
              (s.nextNodeId).2).2 hInv1
          have hInvP : StInv (pushRelation
              (get_or_create_type ty
                (visitFnArgsLoop (s.nextNodeId).1 f.inputs
                  (s.nextNodeId).2).2).2
              { source := (s.nextNodeId).1
                target := (get_or_create_type ty
                  (visitFnArgsLoop (s.nextNodeId).1 f.inputs
                    (s.nextNodeId).2).2).1
                kind := .FunctionReturn }) := hInv2
          obtain ⟨hInv3, hGen⟩ := process_generics_spec f.generics _
            hInvP
          have hRel13 : RelOnlyStep (s.nextNodeId).2
              (process_generics f.generics
                (pushRelation
                  (get_or_create_type ty
                    (visitFnArgsLoop (s.nextNodeId).1 f.inputs
                      (s.nextNodeId).2).2).2
                  { source := (s.nextNodeId).1
                    target := (get_or_create_type ty
                      (visitFnArgsLoop (s.nextNodeId).1 f.inputs
                        (s.nextNodeId).2).2).1
                    kind := .FunctionReturn })).2 :=
            relOnlyStep_trans hArgs
              (relOnlyStep_trans (typeStep_relOnlyStep hty2)
                (relOnlyStep_trans
                  (pushRelation_relOnlyStep _ _
                    (by intro hc; cases hc))
                  (genStep_relOnlyStep hGen)))
          have hRel : RelOnlyStep s
              (process_generics f.generics
                (pushRelation
                  (get_or_create_type ty
                    (visitFnArgsLoop (s.nextNodeId).1 f.inputs
                      (s.nextNodeId).2).2).2
                  { source := (s.nextNodeId).1
                    target := (get_or_create_type ty
                      (visitFnArgsLoop (s.nextNodeId).1 f.inputs
                        (s.nextNodeId).2).2).1
                    kind := .FunctionReturn })).2 :=
            relOnlyStep_trans (nextNode_relOnlyStep s) hRel13
          refine ⟨hInv3, vstep_relOnly_pushFunction hRel _ ?_ ?_⟩
          · exact Nat.le_refl _
          · show s.next_node_id
              < (process_generics f.generics
                  (pushRelation
                    (get_or_create_type ty
                      (visitFnArgsLoop (s.nextNodeId).1 f.inputs
                        (s.nextNodeId).2).2).2
                    { source := (s.nextNodeId).1
                      target := (get_or_create_type ty
                        (visitFnArgsLoop (s.nextNodeId).1 f.inputs
                          (s.nextNodeId).2).2).1
                      kind := .FunctionReturn })).2.next_node_id
            have h13 := hRel13.1
            have hstep : (s.nextNodeId).2.next_node_id
                = s.next_node_id + 1 := rfl
            omega
  | true =>
      cases ho : f.output with
      | none =>
          simp only [visit_item_fn, hb, ho, if_true]
          have hInvM : StInv (pushMacro (s.nextNodeId).2
              { id := (s.nextNodeId).1, name := f.name
                visibility := convert_visibility f.vis
                kind := .ProcedureMacro
                  (if f.attrs.any (fun a => a.name == "proc_macro_derive")
                    then ProcMacroKind.Derive
                    else if f.attrs.any
                        (fun a => a.name == "proc_macro_attribute") then
                      ProcMacroKind.AttributeKind
                    else ProcMacroKind.FunctionKind)
                rules := [], attributes := f.attrs
                docstring := f.docstring
                body := some f.body }) := h
          set sM := pushMacro (s.nextNodeId).2
            { id := (s.nextNodeId).1, name := f.name
              visibility := convert_visibility f.vis
              kind := .ProcedureMacro
                (if f.attrs.any (fun a => a.name == "proc_macro_derive")
                  then ProcMacroKind.Derive
                  else if f.attrs.any
                      (fun a => a.name == "proc_macro_attribute") then
                    ProcMacroKind.AttributeKind
                  else ProcMacroKind.FunctionKind)
              rules := [], attributes := f.attrs
              docstring := f.docstring
              body := some f.body } with hsM
          have hRelM : RelOnlyStep s sM :=
            relOnlyStep_trans (nextNode_relOnlyStep s)
              (pushMacro_relOnlyStep (s.nextNodeId).2 _)
          have hInv0 : StInv (sM.nextNodeId).2 := hInvM
          obtain ⟨hInv1, hArgs⟩ := visitFnArgsLoop_spec (sM.nextNodeId).1
            f.inputs (sM.nextNodeId).2 hInv0
          obtain ⟨hInv3, hGen⟩ := process_generics_spec f.generics
            (visitFnArgsLoop (sM.nextNodeId).1 f.inputs
              (sM.nextNodeId).2).2 hInv1
          have hRel13 : RelOnlyStep (sM.nextNodeId).2
              (process_generics f.generics
                (visitFnArgsLoop (sM.nextNodeId).1 f.inputs
                  (sM.nextNodeId).2).2).2 :=
            relOnlyStep_trans hArgs (genStep_relOnlyStep hGen)
          have hRel : RelOnlyStep s
              (process_generics f.generics
                (visitFnArgsLoop (sM.nextNodeId).1 f.inputs
                  (sM.nextNodeId).2).2).2 :=
            relOnlyStep_trans hRelM
              (relOnlyStep_trans (nextNode_relOnlyStep sM) hRel13)
          refine ⟨hInv3, vstep_relOnly_pushFunction hRel _ ?_ ?_⟩
          · show s.next_node_id ≤ sM.next_node_id
            exact Nat.le_succ _
          · show sM.next_node_id
              < (process_generics f.generics
                  (visitFnArgsLoop (sM.nextNodeId).1 f.inputs
                    (sM.nextNodeId).2).2).2.next_node_id
            have h13 := hRel13.1
            have hstep : (sM.nextNodeId).2.next_node_id
                = sM.next_node_id + 1 := rfl
            omega
      | some ty =>
          simp only [visit_item_fn, hb, ho, if_true]
          have hInvM : StInv (pushMacro (s.nextNodeId).2
              { id := (s.nextNodeId).1, name := f.name
                visibility := convert_visibility f.vis
                kind := .ProcedureMacro
                  (if f.attrs.any (fun a => a.name == "proc_macro_derive")
                    then ProcMacroKind.Derive
                    else if f.attrs.any
                        (fun a => a.name == "proc_macro_attribute") then
                      ProcMacroKind.AttributeKind
                    else ProcMacroKind.FunctionKind)
                rules := [], attributes := f.attrs
                docstring := f.docstring
                body := some f.body }) := h
          set sM := pushMacro (s.nextNodeId).2
            { id := (s.nextNodeId).1, name := f.name
              visibility := convert_visibility f.vis
              kind := .ProcedureMacro
                (if f.attrs.any (fun a => a.name == "proc_macro_derive")
                  then ProcMacroKind.Derive
                  else if f.attrs.any
                      (fun a => a.name == "proc_macro_attribute") then
                    ProcMacroKind.AttributeKind
                  else ProcMacroKind.FunctionKind)
              rules := [], attributes := f.attrs
              docstring := f.docstring
              body := some f.body } with hsM
          have hRelM : RelOnlyStep s sM :=
            relOnlyStep_trans (nextNode_relOnlyStep s)
              (pushMacro_relOnlyStep (s.nextNodeId).2 _)
          have hInv0 : StInv (sM.nextNodeId).2 := hInvM
          obtain ⟨hInv1, hArgs⟩ := visitFnArgsLoop_spec (sM.nextNodeId).1
            f.inputs (sM.nextNodeId).2 hInv0
          obtain ⟨hInv2, hty2, -⟩ := got_spec ty
            (visitFnArgsLoop (sM.nextNodeId).1 f.inputs
              (sM.nextNodeId).2).2 hInv1
          have hInvP : StInv (pushRelation
              (get_or_create_type ty
                (visitFnArgsLoop (sM.nextNodeId).1 f.inputs
                  (sM.nextNodeId).2).2).2
              { source := (sM.nextNodeId).1
                target := (get_or_create_type ty
                  (visitFnArgsLoop (sM.nextNodeId).1 f.inputs
                    (sM.nextNodeId).2).2).1
                kind := .FunctionReturn }) := hInv2
          obtain ⟨hInv3, hGen⟩ := process_generics_spec f.generics _
            hInvP
          have hRel13 : RelOnlyStep (sM.nextNodeId).2
              (process_generics f.generics
                (pushRelation
                  (get_or_create_type ty
                    (visitFnArgsLoop (sM.nextNodeId).1 f.inputs
                      (sM.nextNodeId).2).2).2
                  { source := (sM.nextNodeId).1
                    target := (get_or_create_type ty
                      (visitFnArgsLoop (sM.nextNodeId).1 f.inputs
                        (sM.nextNodeId).2).2).1
                    kind := .FunctionReturn })).2 :=
            relOnlyStep_trans hArgs
              (relOnlyStep_trans (typeStep_relOnlyStep hty2)
                (relOnlyStep_trans
                  (pushRelation_relOnlyStep _ _
                    (by intro hc; cases hc))
                  (genStep_relOnlyStep hGen)))
          have hRel : RelOnlyStep s
              (process_generics f.generics
                (pushRelation
                  (get_or_create_type ty
                    (visitFnArgsLoop (sM.nextNodeId).1 f.inputs
                      (sM.nextNodeId).2).2).2
                  { source := (sM.nextNodeId).1
                    target := (get_or_create_type ty
                      (visitFnArgsLoop (sM.nextNodeId).1 f.inputs
                        (sM.nextNodeId).2).2).1
                    kind := .FunctionReturn })).2 :=
            relOnlyStep_trans hRelM
              (relOnlyStep_trans (nextNode_relOnlyStep sM) hRel13)
          refine ⟨hInv3, vstep_relOnly_pushFunction hRel _ ?_ ?_⟩
          · show s.next_node_id ≤ sM.next_node_id
            exact Nat.le_succ _
          · show sM.next_node_id
              < (process_generics f.generics
                  (pushRelation
                    (get_or_create_type ty
                      (visitFnArgsLoop (sM.nextNodeId).1 f.inputs
                        (sM.nextNodeId).2).2).2
                    { source := (sM.nextNodeId).1
                      target := (get_or_create_type ty
                        (visitFnArgsLoop (sM.nextNodeId).1 f.inputs
                          (sM.nextNodeId).2).2).1
                      kind := .FunctionReturn })).2.next_node_id
            have h13 := hRel13.1
            have hstep : (sM.nextNodeId).2.next_node_id
                = sM.next_node_id + 1 := rfl
            omega

theorem visitStructFieldsLoop_relOnly (struct_id : Nat)
    (fields : List RsField) (s : VisitorState) (h : StInv s) :
    StInv (visitStructFieldsLoop struct_id fields s).2
    ∧ RelOnlyStep s (visitStructFieldsLoop struct_id fields s).2 := by
  obtain ⟨hInv, -, hnode, hrel, hf, hd, -, ht, hm, -, -, -⟩ :=
    visitStructFieldsLoop_spec struct_id fields s h
  refine ⟨hInv, ⟨?_, hm, hf, hd, ht, ⟨_, hrel, ?_⟩⟩⟩
  · rw [hnode]
    exact Nat.le_add_right _ _
  · intro r hr
    simp only [List.mem_map] at hr
    obtain ⟨fid, -, rfl⟩ := hr
    intro hc
    cases hc

theorem visit_item_struct_cstep (st : RsItemStruct) (s : VisitorState)
    (h : StInv s) :
    StInv (visit_item_struct st s) ∧ VStep s (visit_item_struct st s) := by
  have hInv0 : StInv (s.nextNodeId).2 := h
  obtain ⟨hInv1, hFlds⟩ := visitStructFieldsLoop_relOnly (s.nextNodeId).1
    st.fields (s.nextNodeId).2 hInv0
  obtain ⟨hInv2, hGen⟩ := process_generics_spec st.generics
    (visitStructFieldsLoop (s.nextNodeId).1 st.fields
      (s.nextNodeId).2).2 hInv1
  have hRel13 : RelOnlyStep (s.nextNodeId).2
      (process_generics st.generics
        (visitStructFieldsLoop (s.nextNodeId).1 st.fields
          (s.nextNodeId).2).2).2 :=
    relOnlyStep_trans hFlds (genStep_relOnlyStep hGen)
  have hRel : RelOnlyStep s
      (process_generics st.generics
        (visitStructFieldsLoop (s.nextNodeId).1 st.fields
          (s.nextNodeId).2).2).2 :=
    relOnlyStep_trans (nextNode_relOnlyStep s) hRel13
  by_cases hv : st.vis = RsVisibility.publicV
  · simp only [visit_item_struct]
    rw [if_pos hv]
    refine ⟨hInv2, vstep_relOnly_pushDefinedType hRel _ ?_ ?_⟩
    · exact Nat.le_refl _
    · show s.next_node_id
        < (process_generics st.generics
            (visitStructFieldsLoop (s.nextNodeId).1 st.fields
              (s.nextNodeId).2).2).2.next_node_id
      have h13 := hRel13.1
      have hstep : (s.nextNodeId).2.next_node_id
          = s.next_node_id + 1 := rfl
      omega
  · simp only [visit_item_struct]
    rw [if_neg hv]
    exact ⟨hInv2, relOnlyStep_vstep hRel⟩

theorem visit_item_trait_cstep (t : RsItemTrait) (s : VisitorState)
    (h : StInv s) :
    StInv (visit_item_trait t s) ∧ VStep s (visit_item_trait t s) := by
  have hInv0 : StInv (s.nextNodeId).2 := h
  obtain ⟨hInv1, hMeth⟩ := visitTraitMethodsLoop_spec t.methods
    (s.nextNodeId).2 hInv0
  obtain ⟨hInv2, hGen⟩ := process_generics_spec t.generics
    (visitTraitMethodsLoop t.methods (s.nextNodeId).2).2 hInv1
  obtain ⟨hInv3, hSup⟩ := visitSupertraitsLoop_spec t.supertraits
    (process_generics t.generics
      (visitTraitMethodsLoop t.methods (s.nextNodeId).2).2).2 hInv2
  have hRel13 : RelOnlyStep (s.nextNodeId).2
      (visitSupertraitsLoop t.supertraits
        (process_generics t.generics
          (visitTraitMethodsLoop t.methods (s.nextNodeId).2).2).2).2 :=
    relOnlyStep_trans hMeth
      (relOnlyStep_trans (genStep_relOnlyStep hGen) hSup)
  have hRel : RelOnlyStep s
      (visitSupertraitsLoop t.supertraits
        (process_generics t.generics
          (visitTraitMethodsLoop t.methods (s.nextNodeId).2).2).2).2 :=
    relOnlyStep_trans (nextNode_relOnlyStep s) hRel13
  have hV4 : VStep s (pushTrait
      (visitSupertraitsLoop t.supertraits
        (process_generics t.generics
          (visitTraitMethodsLoop t.methods (s.nextNodeId).2).2).2).2
      { id := (s.nextNodeId).1, name := t.name
        visibility := convert_visibility t.vis
        methods := (visitTraitMethodsLoop t.methods (s.nextNodeId).2).1
        generic_params := (process_generics t.generics
          (visitTraitMethodsLoop t.methods (s.nextNodeId).2).2).1
        super_traits := (visitSupertraitsLoop t.supertraits
          (process_generics t.generics
            (visitTraitMethodsLoop t.methods (s.nextNodeId).2).2).2).1
        attributes := t.attrs, docstring := t.docstring }) := by
    refine vstep_relOnly_pushTrait hRel _ ?_ ?_
    · exact Nat.le_refl _
    · show s.next_node_id
        < (visitSupertraitsLoop t.supertraits
            (process_generics t.generics
              (visitTraitMethodsLoop t.methods
                (s.nextNodeId).2).2).2).2.next_node_id
      have h13 := hRel13.1
      have hstep : (s.nextNodeId).2.next_node_id
          = s.next_node_id + 1 := rfl
      omega
  have hInvT : StInv (pushTrait
      (visitSupertraitsLoop t.supertraits
        (process_generics t.generics
          (visitTraitMethodsLoop t.methods (s.nextNodeId).2).2).2).2
      { id := (s.nextNodeId).1, name := t.name
        visibility := convert_visibility t.vis
        methods := (visitTraitMethodsLoop t.methods (s.nextNodeId).2).1
        generic_params := (process_generics t.generics
          (visitTraitMethodsLoop t.methods (s.nextNodeId).2).2).1
        super_traits := (visitSupertraitsLoop t.supertraits
          (process_generics t.generics
            (visitTraitMethodsLoop t.methods (s.nextNodeId).2).2).2).1
        attributes := t.attrs, docstring := t.docstring }) := hInv3
  obtain ⟨hInvF, hRelF⟩ := pushInheritsLoop_spec (s.nextNodeId).1
    (visitSupertraitsLoop t.supertraits
      (process_generics t.generics
        (visitTraitMethodsLoop t.methods (s.nextNodeId).2).2).2).1
    (pushTrait
      (visitSupertraitsLoop t.supertraits
        (process_generics t.generics
          (visitTraitMethodsLoop t.methods (s.nextNodeId).2).2).2).2
      { id := (s.nextNodeId).1, name := t.name
        visibility := convert_visibility t.vis
        methods := (visitTraitMethodsLoop t.methods (s.nextNodeId).2).1
        generic_params := (process_generics t.generics
          (visitTraitMethodsLoop t.methods (s.nextNodeId).2).2).1
        super_traits := (visitSupertraitsLoop t.supertraits
          (process_generics t.generics
            (visitTraitMethodsLoop t.methods (s.nextNodeId).2).2).2).1
        attributes := t.attrs, docstring := t.docstring }) hInvT
  exact ⟨hInvF, vstep_trans hV4 (relOnlyStep_vstep hRelF)⟩

theorem visit_item_impl_cstep (im : RsItemImpl) (s : VisitorState)
    (h : StInv s) :
    StInv (visit_item_impl im s)
    ∧ RelOnlyStep s (visit_item_impl im s) := by
  have hInv0 : StInv (s.nextNodeId).2 := h
  obtain ⟨hInv1, hty1, -⟩ := got_spec im.self_ty (s.nextNodeId).2 hInv0
  cases hp : im.traitPath with
  | none =>
      obtain ⟨hInv2, hMeth⟩ := visitImplMethodsLoop_spec im.methods
        (get_or_create_type im.self_ty (s.nextNodeId).2).2 hInv1
      obtain ⟨hInv3, hGen⟩ := process_generics_spec im.generics
        (visitImplMethodsLoop im.methods
          (get_or_create_type im.self_ty (s.nextNodeId).2).2).2 hInv2
      simp only [visit_item_impl, hp, implSkipCheck, Bool.false_eq_true,
        if_false]
      refine ⟨hInv3, ?_⟩
      exact relOnlyStep_trans (nextNode_relOnlyStep s)
        (relOnlyStep_trans (typeStep_relOnlyStep hty1)
          (relOnlyStep_trans hMeth
            (relOnlyStep_trans (genStep_relOnlyStep hGen)
              (relOnlyStep_trans (pushImpl_relOnlyStep _ _)
                (pushRelation_relOnlyStep _ _
                  (by intro hc; cases hc))))))
  | some p =>
      obtain ⟨hInv2, hty2, -⟩ := got_spec (.pathTy p false)
        (get_or_create_type im.self_ty (s.nextNodeId).2).2 hInv1
      cases hskip : implSkipCheck
          (some ((get_or_create_type (.pathTy p false)
            (get_or_create_type im.self_ty (s.nextNodeId).2).2).1))
          ((get_or_create_type (.pathTy p false)
            (get_or_create_type im.self_ty (s.nextNodeId).2).2).2) with
      | true =>
          rw [visit_item_impl_skip_eq im s p hp hskip]
          exact ⟨hInv2,
            relOnlyStep_trans (nextNode_relOnlyStep s)
              (relOnlyStep_trans (typeStep_relOnlyStep hty1)
                (typeStep_relOnlyStep hty2))⟩
      | false =>
          obtain ⟨hInv3, hMeth⟩ := visitImplMethodsLoop_spec im.methods
            (get_or_create_type (.pathTy p false)
              (get_or_create_type im.self_ty (s.nextNodeId).2).2).2
            hInv2
          obtain ⟨hInv4, hGen⟩ := process_generics_spec im.generics
            (visitImplMethodsLoop im.methods
              (get_or_create_type (.pathTy p false)
                (get_or_create_type im.self_ty
                  (s.nextNodeId).2).2).2).2 hInv3
          simp only [visit_item_impl, hp, hskip, Bool.false_eq_true,
            if_false]
          refine ⟨hInv4, ?_⟩
          exact relOnlyStep_trans (nextNode_relOnlyStep s)
            (relOnlyStep_trans (typeStep_relOnlyStep hty1)
              (relOnlyStep_trans (typeStep_relOnlyStep hty2)
                (relOnlyStep_trans hMeth
                  (relOnlyStep_trans (genStep_relOnlyStep hGen)
                    (relOnlyStep_trans (pushImpl_relOnlyStep _ _)
                      (relOnlyStep_trans
                        (pushRelation_relOnlyStep _ _
                          (by intro hc; cases hc))
                        (pushRelation_relOnlyStep _ _
                          (by intro hc; cases hc))))))))

/-- Every tracked id after a `VStep` was either tracked before or is at
least the step's starting node counter. -/
theorem vstep_allIds_cases {se sf : VisitorState} (h : VStep se sf) :
    ∀ i ∈ allIds sf.code_graph,
      i ∈ allIds se.code_graph ∨ se.next_node_id ≤ i := by
  obtain ⟨-, -, ⟨em, hem, hemb⟩, ⟨ef, hef, hefb⟩, ⟨ed, hed, hedb⟩,
    ⟨et, het, hetb⟩, -⟩ := h
  intro i hi
  unfold allIds modIds nonModTargetIds at hi ⊢
  rw [hem, hef, hed, het] at hi
  simp only [List.map_append, List.mem_append, List.mem_map] at hi ⊢
  rcases hi with (hi | hi) | ((hi | hi) | (hi | hi)) | (hi | hi)
  · exact Or.inl (Or.inl hi)
  · obtain ⟨x, hx, rfl⟩ := hi
    exact Or.inr (hemb x hx).1
  · exact Or.inl (Or.inr (Or.inl (Or.inl hi)))
  · obtain ⟨x, hx, rfl⟩ := hi
    exact Or.inr (hefb x hx).1
  · exact Or.inl (Or.inr (Or.inl (Or.inr hi)))
  · obtain ⟨x, hx, rfl⟩ := hi
    exact Or.inr (hedb x hx).1
  · exact Or.inl (Or.inr (Or.inr hi))
  · obtain ⟨x, hx, rfl⟩ := hi
    exact Or.inr (hetb x hx).1

mutual
/-- The per-item dispatch preserves the invariants and satisfies the
node-side evolution predicate. -/
theorem visitItem_cstep (it : RsItem) (s : VisitorState) (h : StInv s) :
    StInv (visitItem it s) ∧ VStep s (visitItem it s) := by
  cases it with
  | fnItem f => exact visit_item_fn_cstep f s h
  | structItem st => exact visit_item_struct_cstep st s h
  | traitItem t => exact visit_item_trait_cstep t s h
  | implItem im =>
      obtain ⟨h1, h2⟩ := visit_item_impl_cstep im s h
      exact ⟨h1, relOnlyStep_vstep h2⟩
  | modItem name vis attrs doc content =>
      exact process_module_cstep name vis attrs doc content s h
termination_by sizeOf it

/-- The module content loop preserves the invariants and satisfies the
node-side evolution predicate. -/
theorem modContentLoop_cstep (its : List RsItem) (s : VisitorState)
    (h : StInv s) :
    StInv (modContentLoop its s).2 ∧ VStep s (modContentLoop its s).2 := by
  cases its with
  | nil => exact ⟨h, vstep_refl s⟩
  | cons it rest =>
      have h1 : StInv (s.nextNodeId).2 := h
      obtain ⟨h2, hV2⟩ := visitItem_cstep it (s.nextNodeId).2 h1
      obtain ⟨h3, hV3⟩ :=
        modContentLoop_cstep rest (visitItem it (s.nextNodeId).2) h2
      exact ⟨h3, vstep_trans (relOnlyStep_vstep (nextNode_relOnlyStep s))
        (vstep_trans hV2 hV3)⟩
termination_by sizeOf its

/-- `process_module` preserves the invariants and satisfies the node-side
evolution predicate: in particular every `Contains` relation it appends
targets a function/defined-type/trait id, never a module id. -/
theorem process_module_cstep (name : String) (vis : RsVisibility)
    (attrs : List ParsedAttribute) (docstring : Option String)
    (content : Option (List RsItem)) (s : VisitorState) (h : StInv s) :
    StInv (process_module name vis attrs docstring content s)
    ∧ VStep s (process_module name vis attrs docstring content s) := by
  set sc := (((s.nextNodeId).2.nextTypeId).2.nextTypeId).2 with hscdef
  set se := ((sc.nextNodeId).2.nextNodeId).2 with hsedef
  have hInvC : StInv sc :=
    stInv_nextTypeId (stInv_nextTypeId (h : StInv (s.nextNodeId).2))
  have hInvE : StInv se := hInvC
  have hRelE : RelOnlyStep s se :=
    relOnlyStep_trans (nextNode_relOnlyStep s)
      (relOnlyStep_trans
        (genStep_relOnlyStep (genStep_nextType (s.nextNodeId).2))
        (relOnlyStep_trans
          (genStep_relOnlyStep (genStep_nextType
            ((s.nextNodeId).2.nextTypeId).2))
          (relOnlyStep_trans (nextNode_relOnlyStep sc)
            (nextNode_relOnlyStep (sc.nextNodeId).2))))
  have hmid1 : (sc.nextNodeId).1 = s.next_node_id + 1 := rfl
  have hse3 : se.next_node_id = s.next_node_id + 3 := rfl
  cases content with
  | none =>
      have hge : s.next_node_id ≤ (sc.nextNodeId).1 := Nat.le_succ _
      have hlt : (sc.nextNodeId).1 < se.next_node_id := by omega
      exact ⟨hInvE, vstep_relOnly_pushModule hRelE
        { id := (sc.nextNodeId).1, name := name
          visibility :=
            if name = "private_module" ∧ vis = RsVisibility.inheritedV
              then VisibilityKind.Restricted [("super")]
              else convert_visibility vis
          attributes := attrs, docstring := docstring
          submodules := [], items := [], imports := [], exports := [] }
        hge hlt⟩
  | some its =>
      obtain ⟨hInvF, hVF⟩ := modContentLoop_cstep its se hInvE
      set sf := (modContentLoop its se).2 with hsfdef
      set mnode : ModuleNode :=
        { id := (sc.nextNodeId).1
          name := name
          visibility :=
            if name = "private_module" ∧ vis = RsVisibility.inheritedV
              then VisibilityKind.Restricted [("super")]
              else convert_visibility vis
          attributes := attrs
          docstring := docstring
          submodules := (modContentLoop its se).1.2
          items := (modContentLoop its se).1.1
          imports := []
          exports := [] } with hmnodedef
      set sg := pushModule sf mnode with hsgdef
      obtain ⟨e1, e2, e3, e4, e5, e6, e7, e8, ⟨dc, hdc, hdcb⟩⟩ :=
        modContainsLoop_spec (sc.nextNodeId).1 its sg
      have hVsSe : VStep s se := relOnlyStep_vstep hRelE
      have hVsf : VStep s sf := vstep_trans hVsSe hVF
      have hcases := vstep_allIds_cases hVF
      have hu0 : se.next_node_id ≤ sf.next_node_id := hVF.1
      obtain ⟨t0, tw, ⟨dm, hdm, hdmb⟩, ⟨df, hdf, hdfb⟩, ⟨dd, hdd, hddb⟩,
        ⟨dt', hdt, hdtb⟩, ⟨dr, hdr, hdrb⟩⟩ := hVsf
      have hsgnext : sg.next_node_id = sf.next_node_id := rfl
      have hInvG : StInv sg := hInvF
      have hInvFin : StInv (modContainsLoop (sc.nextNodeId).1 its sg) :=
        stInv_congr e3 e2 e4 hInvG
      have hpermg : List.Perm (allIds sg.code_graph)
          (allIds sf.code_graph ++ [(sc.nextNodeId).1]) := by
        unfold allIds modIds nonModTargetIds
        rw [show sg.code_graph.modules
              = sf.code_graph.modules ++ [mnode] from rfl,
          show sg.code_graph.functions
              = sf.code_graph.functions from rfl,
          show sg.code_graph.defined_types
              = sf.code_graph.defined_types from rfl,
          show sg.code_graph.traits = sf.code_graph.traits from rfl,
          List.map_append]
        rw [List.perm_iff_count]
        intro x
        simp only [List.count_append, List.map_cons, List.map_nil]
        omega
      have hredg : process_module name vis attrs docstring (some its) s
          = modContainsLoop (sc.nextNodeId).1 its sg := rfl
      rw [hredg]
      refine ⟨hInvFin, ?_, ?_, ?_, ?_, ?_, ?_, ?_⟩
      · rw [e1]
        omega
      · intro hw
        have hwsf : WFn sf := tw hw
        have hltg : (sc.nextNodeId).1 < sg.next_node_id := by omega
        have hfreshg : (sc.nextNodeId).1 ∉ allIds sf.code_graph := by
          intro hmem
          rcases hcases _ hmem with hin | hge'
          · have hb' := hw.1 (sc.nextNodeId).1 hin
            omega
          · omega
        have hwsg : WFn sg := wfn_push_fresh (le_of_eq hsgnext.symm)
          (sc.nextNodeId).1 hpermg hltg hfreshg hwsf
        have hAeq : allIds
            (modContainsLoop (sc.nextNodeId).1 its sg).code_graph
            = allIds sg.code_graph := by
          unfold allIds modIds nonModTargetIds
          rw [e5, e6, e7, e8]
        constructor
        · intro i hi
          rw [hAeq] at hi
          have := hwsg.1 i hi
          rw [e1]
          exact this
        · rw [WFn] at hwsg
          show (allIds
            (modContainsLoop (sc.nextNodeId).1 its sg).code_graph).Nodup
          rw [hAeq]
          exact hwsg.2
      · refine ⟨dm ++ [mnode], ?_, ?_⟩
        · rw [e5,
            show sg.code_graph.modules
              = sf.code_graph.modules ++ [mnode] from rfl,
            hdm, List.append_assoc]
        · intro m hm
          rcases List.mem_append.mp hm with hm | hm
          · obtain ⟨u, v⟩ := hdmb m hm
            refine ⟨u, ?_⟩
            rw [e1]
            omega
          · rw [List.mem_singleton] at hm
            subst hm
            have hmi : mnode.id = (sc.nextNodeId).1 := rfl
            constructor
            · omega
            · rw [e1]
              omega
      · refine ⟨df, ?_, ?_⟩
        · rw [e6,
            show sg.code_graph.functions
              = sf.code_graph.functions from rfl, hdf]
        · intro x hx
          obtain ⟨u, v⟩ := hdfb x hx
          refine ⟨u, ?_⟩
          rw [e1]
          omega
      · refine ⟨dd, ?_, ?_⟩
        · rw [e7,
            show sg.code_graph.defined_types
              = sf.code_graph.defined_types from rfl, hdd]
        · intro x hx
          obtain ⟨u, v⟩ := hddb x hx
          refine ⟨u, ?_⟩
          rw [e1]
          omega
      · refine ⟨dt', ?_, ?_⟩
        · rw [e8,
            show sg.code_graph.traits = sf.code_graph.traits from rfl,
            hdt]
        · intro x hx
          obtain ⟨u, v⟩ := hdtb x hx
          refine ⟨u, ?_⟩
          rw [e1]
          omega
      · refine ⟨dr ++ dc, ?_, ?_⟩
        · rw [hdc,
            show sg.code_graph.relations
              = sf.code_graph.relations from rfl,
            hdr, List.append_assoc]
        · intro r hr hk
          have hnmEq : nonModTargetIds
              (modContainsLoop (sc.nextNodeId).1 its sg).code_graph
              = nonModTargetIds sf.code_graph := by
            unfold nonModTargetIds
            rw [e6, e7, e8]
            exact rfl
          rw [hnmEq]
          rcases List.mem_append.mp hr with hr | hr
          · exact hdrb r hr hk
          · exact (hdcb r hr).2.1
termination_by sizeOf content
end

theorem visitItems_cstep (its : List RsItem) (s : VisitorState)
    (h : StInv s) :
    StInv (visitItems its s) ∧ VStep s (visitItems its s) := by
  induction its generalizing s with
  | nil => exact ⟨h, vstep_refl s⟩
  | cons it rest ih =>
      obtain ⟨h1, hV1⟩ := visitItem_cstep it s h
      obtain ⟨h2, hV2⟩ := ih (visitItem it s) h1
      exact ⟨h2, vstep_trans hV1 hV2⟩

/-! ### The root `Contains` loop of `analyze_code` -/

/-- The relations appended by `rootContainsLoop`, in order. -/
def rootEdges (root : Nat) : List ModuleNode → List Relation
  | [] => []
  | m :: rest =>
      if m.id ≠ root then
        { source := root, target := m.id, kind := .Contains }
          :: rootEdges root rest
      else rootEdges root rest

theorem rootEdges_mem {root : Nat} {mods : List ModuleNode}
    {r : Relation} (h : r ∈ rootEdges root mods) :
    ∃ m ∈ mods, m.id ≠ root
      ∧ r = { source := root, target := m.id, kind := .Contains } := by
  induction mods with
  | nil => simp [rootEdges] at h
  | cons m rest ih =>
      by_cases hm : m.id ≠ root
      · simp only [rootEdges] at h
        rw [if_pos hm] at h
        rcases List.mem_cons.mp h with rfl | h
        · exact ⟨m, List.mem_cons_self _ _, hm, rfl⟩
        · obtain ⟨m', hm', hne, hr⟩ := ih h
          exact ⟨m', List.mem_cons_of_mem _ hm', hne, hr⟩
      · simp only [rootEdges] at h
        rw [if_neg hm] at h
        obtain ⟨m', hm', hne, hr⟩ := ih h
        exact ⟨m', List.mem_cons_of_mem _ hm', hne, hr⟩

/-- With distinct module ids, exactly one root edge satisfies a predicate
that singles out one non-root target id. -/
theorem rootEdges_countP (root t : Nat) (mods : List ModuleNode)
    (p : Relation → Bool)
    (hn : (mods.map ModuleNode.id).Nodup)
    (hm : ∃ m ∈ mods, m.id = t) (ht : t ≠ root)
    (hpIff : ∀ m' ∈ mods, m'.id ≠ root →
      ((p { source := root, target := m'.id, kind := .Contains }) = true
        ↔ m'.id = t)) :
    (rootEdges root mods).countP p = 1 := by
  induction mods with
  | nil =>
      obtain ⟨m, hm', -⟩ := hm
      cases hm'
  | cons m0 rest ih =>
      have hn2 : (rest.map ModuleNode.id).Nodup := by
        simp only [List.map_cons, List.nodup_cons] at hn
        exact hn.2
      have hm0nin : m0.id ∉ rest.map ModuleNode.id := by
        simp only [List.map_cons, List.nodup_cons] at hn
        exact hn.1
      have hpIffR : ∀ m' ∈ rest, m'.id ≠ root →
          ((p { source := root, target := m'.id
                kind := .Contains }) = true ↔ m'.id = t) :=
        fun m' hmem hne => hpIff m' (List.mem_cons_of_mem _ hmem) hne
      by_cases h0 : m0.id = t
      · have hroot0 : m0.id ≠ root := by rw [h0]; exact ht
        have hpe : p { source := root, target := m0.id
                       kind := .Contains } = true :=
          (hpIff m0 (List.mem_cons_self _ _) hroot0).mpr h0
        have hz : (rootEdges root rest).countP p = 0 := by
          rw [List.countP_eq_zero]
          intro r hr hp'
          obtain ⟨m', hm', hne, rfl⟩ := rootEdges_mem hr
          have hmt := (hpIffR m' hm' hne).mp hp'
          apply hm0nin
          have hid : m0.id = m'.id := by omega
          rw [hid]
          exact List.mem_map_of_mem _ hm'
        simp only [rootEdges]
        rw [if_pos hroot0]
        rw [List.countP_cons]
        rw [hz, hpe]
        rfl
      · obtain ⟨m, hmmem, hmid⟩ := hm
        have hmrest : m ∈ rest := by
          rcases List.mem_cons.mp hmmem with rfl | hr
          · exact absurd hmid h0
          · exact hr
        have hmR : ∃ m' ∈ rest, m'.id = t := ⟨m, hmrest, hmid⟩
        by_cases hroot0 : m0.id ≠ root
        · have hpe : p { source := root, target := m0.id
                         kind := .Contains } = false := by
            cases hb : p { source := root, target := m0.id
                           kind := .Contains } with
            | false => rfl
            | true =>
                exact absurd
                  ((hpIff m0 (List.mem_cons_self _ _) hroot0).mp hb) h0
          simp only [rootEdges]
          rw [if_pos hroot0]
          rw [List.countP_cons, hpe]
          simp only [Bool.false_eq_true, if_false]
          have := ih hn2 hmR hpIffR
          omega
        · simp only [rootEdges]
          rw [if_neg hroot0]
          exact ih hn2 hmR hpIffR

/-- `rootContainsLoop` leaves the collections alone and appends exactly
the root edges of the module list it is given. -/
theorem rootContainsLoop_spec (root : Nat) (mods : List ModuleNode)
    (s : VisitorState) :
    (rootContainsLoop root mods s).code_graph.modules
        = s.code_graph.modules
    ∧ (rootContainsLoop root mods s).code_graph.functions
        = s.code_graph.functions
    ∧ (rootContainsLoop root mods s).code_graph.defined_types
        = s.code_graph.defined_types
    ∧ (rootContainsLoop root mods s).code_graph.traits
        = s.code_graph.traits
    ∧ (rootContainsLoop root mods s).code_graph.relations
        = s.code_graph.relations ++ rootEdges root mods := by
  induction mods generalizing s with
  | nil => exact ⟨rfl, rfl, rfl, rfl, by simp [rootContainsLoop, rootEdges]⟩
  | cons m rest ih =>
      by_cases hm : m.id ≠ root
      · have hred : rootContainsLoop root (m :: rest) s
            = rootContainsLoop root rest
                (pushRelation s
                  { source := root, target := m.id
                    kind := .Contains }) := by
          simp only [rootContainsLoop]
          rw [if_pos hm]
        rw [hred]
        obtain ⟨i1, i2, i3, i4, i5⟩ := ih (pushRelation s
          { source := root, target := m.id, kind := .Contains })
        refine ⟨i1, i2, i3, i4, ?_⟩
        rw [i5]
        show (s.code_graph.relations
            ++ [{ source := root, target := m.id, kind := .Contains }])
          ++ rootEdges root rest = _
        simp only [rootEdges]
        rw [if_pos hm, List.append_assoc]
        rfl
      · have hred : rootContainsLoop root (m :: rest) s
            = rootContainsLoop root rest s := by
          simp only [rootContainsLoop]
          rw [if_neg hm]
        rw [hred]
        obtain ⟨i1, i2, i3, i4, i5⟩ := ih s
        refine ⟨i1, i2, i3, i4, ?_⟩
        rw [i5]
        simp only [rootEdges]
        rw [if_neg hm]

/-! ### Module-to-module `Contains` edges -/

/-- A `Contains` relation both of whose endpoints are module ids. -/
def moduleContainsEdge (g : CodeGraph) (r : Relation) : Prop :=
  r.kind = RelationKind.Contains
  ∧ r.source ∈ modIds g ∧ r.target ∈ modIds g

instance (g : CodeGraph) (r : Relation) :
    Decidable (moduleContainsEdge g r) := by
  unfold moduleContainsEdge
  infer_instance

/-- Transitive containment along module-to-module `Contains` edges. -/
inductive ContainsPath (g : CodeGraph) : Nat → Nat → Prop where
  | single {a b : Nat} (r : Relation) (hr : r ∈ g.relations)
      (he : moduleContainsEdge g r) (hs : r.source = a)
      (ht : r.target = b) : ContainsPath g a b
  | trans {a b c : Nat} : ContainsPath g a b → ContainsPath g b c →
      ContainsPath g a c

/-- The structural facts about a finished graph that the forest claim
needs: the synthetic root module sits at the head with id 0, every other
module id is nonzero, the tracked ids are pairwise distinct, and the
relation list splits into the visitor-phase relations (whose `Contains`
entries target function/defined-type/trait ids) followed by exactly the
root-star edges. -/
theorem analyze_code_shape (file : List RsItem) :
    ∃ dm dr,
      (analyze_code file).modules
          = ({ id := 0, name := "root"
               visibility := VisibilityKind.Inherited
               attributes := [], docstring := none, submodules := []
               items := [], imports := [], exports := [] } : ModuleNode)
            :: dm
      ∧ (∀ m ∈ dm, m.id ≠ 0)
      ∧ (allIds (analyze_code file)).Nodup
      ∧ (analyze_code file).relations
          = dr ++ rootEdges 0 (analyze_code file).modules
      ∧ (∀ r ∈ dr, r.kind = RelationKind.Contains →
          r.target ∈ nonModTargetIds (analyze_code file)) := by
  set s1 := pushModule (VisitorState.new.nextNodeId).2
    { id := (VisitorState.new.nextNodeId).1, name := "root"
      visibility := VisibilityKind.Inherited
      attributes := [], docstring := none, submodules := [], items := []
      imports := [], exports := [] } with hs1def
  have hInv1 : StInv s1 := stInv_new
  have hwfn1 : WFn s1 := by
    constructor
    · intro i hi
      have hA : allIds s1.code_graph = [0] := rfl
      rw [hA] at hi
      rw [List.mem_singleton] at hi
      rw [hi]
      exact Nat.one_pos
    · have hA : allIds s1.code_graph = [0] := rfl
      rw [hA]
      simp
  obtain ⟨hInv2, hV12⟩ := visitItems_cstep file s1 hInv1
  set s2 := visitItems file s1 with hs2def
  obtain ⟨-, tw, ⟨dm, hdm, hdmb⟩, hfx, hdx, htx, ⟨dr, hdr, hdrb⟩⟩ := hV12
  have hw2 : WFn s2 := tw hwfn1
  obtain ⟨m1, m2, m3, m4, m5⟩ :=
    rootContainsLoop_spec 0 s2.code_graph.modules s2
  have hredg : analyze_code file
      = (rootContainsLoop 0 s2.code_graph.modules s2).code_graph := rfl
  rw [hredg]
  refine ⟨dm, dr, ?_, ?_, ?_, ?_, ?_⟩
  · rw [m1, hdm]
    have hr1 : s1.code_graph.modules
        = [({ id := 0, name := "root"
              visibility := VisibilityKind.Inherited
              attributes := [], docstring := none, submodules := []
              items := [], imports := [], exports := [] }
            : ModuleNode)] := rfl
    rw [hr1]
    rfl
  · intro m hm
    have hge := (hdmb m hm).1
    have h1n : s1.next_node_id = 1 := rfl
    omega
  · have hAeq : allIds
        (rootContainsLoop 0 s2.code_graph.modules s2).code_graph
        = allIds s2.code_graph := by
      unfold allIds modIds nonModTargetIds
      rw [m1, m2, m3, m4]
    rw [hAeq]
    exact hw2.2
  · rw [m5, hdr]
    have hr0 : s1.code_graph.relations = [] := rfl
    rw [hr0, List.nil_append, m1]
  · intro r hr hk
    have hmem := hdrb r hr hk
    have hnm : nonModTargetIds
        (rootContainsLoop 0 s2.code_graph.modules s2).code_graph
        = nonModTargetIds s2.code_graph := by
      unfold nonModTargetIds
      rw [m2, m3, m4]
    rw [hnm]
    exact hmem

/-- C5: In every graph produced by `analyze_code`, the module-to-module
`Contains` edges form a star (hence a forest) rooted at the single
synthetic root module: the root module (id 0, name "root") heads the
module list, every module-to-module `Contains` edge leaves the root and
enters a non-root module, every non-root module is the target of exactly
one such edge, and no module transitively contains itself. -/
theorem claim_c5_module_containment_forest (file : List RsItem) :
    ((analyze_code file).modules.head? = some
      { id := 0, name := "root", visibility := VisibilityKind.Inherited
        attributes := [], docstring := none, submodules := []
        items := [], imports := [], exports := [] })
    ∧ (∀ r ∈ (analyze_code file).relations,
        moduleContainsEdge (analyze_code file) r →
          r.source = 0 ∧ r.target ≠ 0)
    ∧ (∀ m ∈ (analyze_code file).modules, m.id ≠ 0 →
        (analyze_code file).relations.countP
          (fun r => decide (moduleContainsEdge (analyze_code file) r
            ∧ r.target = m.id)) = 1)
    ∧ (∀ n, ¬ ContainsPath (analyze_code file) n n) := by
  obtain ⟨dm, dr, hmods, hdm0, hnodup, hrels, hdrc⟩ :=
    analyze_code_shape file
  set g := analyze_code file with hgdef
  have hdisj : ∀ i, i ∈ modIds g → i ∈ nonModTargetIds g → False := by
    have hx := hnodup
    unfold allIds at hx
    rw [List.nodup_append] at hx
    exact fun i hi hj => hx.2.2 hi hj
  have hroot0 : (0 : Nat) ∈ modIds g := by
    unfold modIds
    rw [hmods]
    exact List.mem_map.mpr ⟨_, List.mem_cons_self _ _, rfl⟩
  have hedge : ∀ r ∈ g.relations, moduleContainsEdge g r →
      r.source = 0 ∧ r.target ≠ 0 := by
    intro r hr he
    rw [hrels] at hr
    rcases List.mem_append.mp hr with hr | hr
    · exact (hdisj _ he.2.2 (hdrc r hr he.1)).elim
    · obtain ⟨m, hm, hne, rfl⟩ := rootEdges_mem hr
      exact ⟨rfl, hne⟩
  refine ⟨?_, ?_, ?_, ?_⟩
  · rw [hmods]
    rfl
  · exact hedge
  · intro m hm hm0
    rw [hrels, List.countP_append]
    have hz : dr.countP
        (fun r => decide (moduleContainsEdge g r ∧ r.target = m.id))
        = 0 := by
      rw [List.countP_eq_zero]
      intro r hr hp
      rw [decide_eq_true_eq] at hp
      obtain ⟨he, -⟩ := hp
      exact hdisj _ he.2.2 (hdrc r hr he.1)
    have hone : (rootEdges 0 g.modules).countP
        (fun r => decide (moduleContainsEdge g r ∧ r.target = m.id))
        = 1 := by
      refine rootEdges_countP 0 m.id g.modules _ ?_ ⟨m, hm, rfl⟩ hm0 ?_
      · have hx := hnodup
        unfold allIds at hx
        rw [List.nodup_append] at hx
        exact hx.1
      · intro m' hm' hne
        rw [decide_eq_true_eq]
        constructor
        · rintro ⟨-, h⟩
          exact h
        · intro h
          refine ⟨⟨rfl, hroot0, ?_⟩, h⟩
          exact List.mem_map_of_mem _ hm'
    rw [hz, hone]
  · have hpath : ∀ a b, ContainsPath g a b → a = 0 ∧ b ≠ 0 := by
      intro a b hp
      induction hp with
      | single r hr he hs ht =>
          constructor
          · rw [← hs]
            exact (hedge r hr he).1
          · rw [← ht]
            exact (hedge r hr he).2
      | trans h1 h2 ih1 ih2 => exact absurd ih2.1 ih1.2
    intro n hpn
    obtain ⟨h1, h2⟩ := hpath n n hpn
    exact h2 h1

/-- Witness for C5 at a concrete file: one empty public module.  The
theorem has no propositional hypotheses; this instantiates it at a
closed input. -/
theorem claim_c5_module_containment_forest_witness :
    ((analyze_code [RsItem.modItem ("m") RsVisibility.publicV [] none
        (some [])]).modules.head? = some
      { id := 0, name := "root", visibility := VisibilityKind.Inherited
        attributes := [], docstring := none, submodules := []
        items := [], imports := [], exports := [] })
    ∧ (∀ r ∈ (analyze_code [RsItem.modItem ("m") RsVisibility.publicV []
          none (some [])]).relations,
        moduleContainsEdge (analyze_code [RsItem.modItem ("m")
          RsVisibility.publicV [] none (some [])]) r →
          r.source = 0 ∧ r.target ≠ 0)
    ∧ (∀ m ∈ (analyze_code [RsItem.modItem ("m") RsVisibility.publicV []
          none (some [])]).modules, m.id ≠ 0 →
        (analyze_code [RsItem.modItem ("m") RsVisibility.publicV [] none
          (some [])]).relations.countP
          (fun r => decide (moduleContainsEdge
            (analyze_code [RsItem.modItem ("m") RsVisibility.publicV []
              none (some [])]) r ∧ r.target = m.id)) = 1)
    ∧ (∀ n, ¬ ContainsPath (analyze_code [RsItem.modItem ("m")
        RsVisibility.publicV [] none (some [])]) n n) :=
  claim_c5_module_containment_forest
    [RsItem.modItem ("m") RsVisibility.publicV [] none (some [])]

/-! ## C4: relation validation -/

/-- C4: `validate` returns `Ok(())` exactly when the relation's endpoints
carry the tags expected for its kind and, for the `Contains` and
`Inherits` kinds, the two endpoint identifiers differ; every failure is
reported as a `RelationError` value — `MissingTraitId` for an
`ImplementsTrait` relation whose trait id is zero, `InvalidSourceType` /
`InvalidTargetType` for tag mismatches, and `CircularDependency` for a
containment/inheritance self-loop. -/
theorem claim_c4_validate_characterization (r : Rel.Relation) :
    (Rel.validate r = .ok () ↔
      (r.source.variant = (Rel.specExpectedTags r.kind).1
       ∧ r.target.variant = (Rel.specExpectedTags r.kind).2
       ∧ ((r.kind = .Inherits ∨ r.kind = .Contains) →
            r.source.idVal ≠ r.target.idVal)
       ∧ (∀ tid, r.kind = .ImplementsTrait tid → tid.unique_id ≠ 0)))
    ∧ (∀ tid, r.kind = .ImplementsTrait tid → tid.unique_id = 0 →
        Rel.validate r = .error (.MissingTraitId r.kind))
    ∧ ((∀ tid, r.kind = .ImplementsTrait tid → tid.unique_id ≠ 0) →
       r.source.variant ≠ (Rel.specExpectedTags r.kind).1 →
       ∃ expectedStr foundStr, Rel.validate r =
         .error (.InvalidSourceType r.kind expectedStr foundStr))
    ∧ ((∀ tid, r.kind = .ImplementsTrait tid → tid.unique_id ≠ 0) →
       r.source.variant = (Rel.specExpectedTags r.kind).1 →
       r.target.variant ≠ (Rel.specExpectedTags r.kind).2 →
       ∃ expectedStr foundStr, Rel.validate r =
         .error (.InvalidTargetType r.kind expectedStr foundStr))
    ∧ ((r.kind = .Inherits ∨ r.kind = .Contains) →
       r.source.variant = (Rel.specExpectedTags r.kind).1 →
       r.target.variant = (Rel.specExpectedTags r.kind).2 →
       r.source.idVal = r.target.idVal →
       Rel.validate r =
         .error (.CircularDependency r.kind r.source.toGraphId
            r.target.toGraphId)) := by
  obtain ⟨src, tgt, kind⟩ := r
  cases kind <;> cases src <;> cases tgt <;>
    simp [Rel.validate, Rel.validate_types, Rel.check_circular_dependency,
      Rel.specExpectedTags, Rel.RelationSource.variant,
      Rel.RelationTarget.variant, Rel.RelationSource.idVal,
      Rel.RelationTarget.idVal, Rel.RelationSource.toGraphId,
      Rel.RelationTarget.toGraphId] <;>
    split_ifs <;> simp_all

end SynParser


